import Mathlib

/-! TinyInfiniTensor: allocator, operators and graph.

A shallow embedding of `src/core/allocator.cc`, `src/operators/concat.cc`,
`src/operators/matmul.cc` and `src/core/graph.cc`, followed by the properties established
about them.

Conventions.
* `size_t` values are natural numbers below `2 ^ 64`; every `size_t` operation
  that can wrap is written with an explicit `% SIZE_MOD`.
* `std::map<size_t, size_t>` is a list of `(key, value)` pairs in strictly
  increasing key order; iteration order of the map is list order.
* Code that throws (`IT_ASSERT`, `throw`) returns `none` in the result
  component and leaves the state it had when the exception was raised.
-/

namespace infini

/-! ## Definitions: allocator (`src/core/allocator.cc`) -/

/-- Number of values of a 64-bit `size_t`. -/
def SIZE_MOD : Nat := 2 ^ 64

/-- The `std::map<size_t, size_t>` holding the free blocks: `(offset, size)`
entries in increasing key order. -/
abbrev FreeBlocks := List (Nat × Nat)

/-- Map assignment `m[k] = v`: overwrite the entry with key `k` or insert a
new entry at its place in key order. -/
def mapAssign (k v : Nat) : FreeBlocks → FreeBlocks
  | [] => [(k, v)]
  | e :: m =>
    if k < e.1 then (k, v) :: e :: m
    else if k = e.1 then (k, v) :: m
    else e :: mapAssign k v m

/-- Map erasure `m.erase(it)` with `it->first = k`. -/
def mapErase (k : Nat) (m : FreeBlocks) : FreeBlocks :=
  m.filter (fun e => e.1 != k)

/-- The entry before key `k` in key order, `std::prev(it)` for `it->first = k`;
`none` when `it == m.begin()`. -/
def mapPrev (k : Nat) (m : FreeBlocks) : Option (Nat × Nat) :=
  (m.filter (fun e => decide (e.1 < k))).getLast?

/-- The entry after key `k` in key order, `std::next(it)` for `it->first = k`;
`none` when it is `m.end()`. -/
def mapNext (k : Nat) (m : FreeBlocks) : Option (Nat × Nat) :=
  m.find? (fun e => decide (k < e.1))

/-- State of `class Allocator`. `ptr = none` is `nullptr`. -/
structure Allocator where
  used : Nat
  peak : Nat
  ptr : Option Nat
  alignment : Nat
  freeBlocks : FreeBlocks
deriving DecidableEq, Repr

namespace Allocator

/-- The constructor `Allocator::Allocator`: it sets `used`, `peak`, `ptr` and
`alignment = sizeof(uint64_t)`; the map member is left as default-constructed,
that is, empty. -/
def new : Allocator :=
  { used := 0, peak := 0, ptr := none, alignment := 8, freeBlocks := [] }

/-- `Allocator::getAlignedSize`: `((size - 1) / alignment + 1) * alignment`
in `size_t` arithmetic. -/
def getAlignedSize (a : Allocator) (size : Nat) : Nat :=
  (((size + SIZE_MOD - 1) % SIZE_MOD) / a.alignment + 1) * a.alignment % SIZE_MOD

/-- `Allocator::alloc`. The second component is the returned offset, or `none`
when the call throws (the `IT_ASSERT` on `ptr`, or "No enough memory"). -/
def alloc (a : Allocator) (size : Nat) : Allocator × Option Nat :=
  if a.ptr.isSome then (a, none)
  else
    let size := a.getAlignedSize size
    match a.freeBlocks.find? (fun it => decide (it.2 ≥ size)) with
    | some it =>
      let addr := it.1
      let addr_size := it.2 - size
      let fb := mapErase addr a.freeBlocks
      let fb := if addr_size > 0 then mapAssign ((addr + size) % SIZE_MOD) addr_size fb else fb
      let used := (a.used + size) % SIZE_MOD
      ({ a with freeBlocks := fb, used := used, peak := max used a.peak }, some addr)
    | none => (a, none)

/-- The predecessor-merge step of `Allocator::free` (lines 73-87): the state
is `(addr, alignedSize, freeBlocks)` and `it` points at key `addr`. -/
def freeMergePrev (st : Nat × Nat × FreeBlocks) : Nat × Nat × FreeBlocks :=
  let addr := st.1
  let alignedSize := st.2.1
  let fb := st.2.2
  match mapPrev addr fb with
  | some prevIt =>
    let prevEnd := (prevIt.1 + prevIt.2) % SIZE_MOD
    if prevEnd = addr then
      let addr2 := prevIt.1
      let alignedSize2 := (alignedSize + prevIt.2) % SIZE_MOD
      (addr2, alignedSize2, mapAssign addr2 alignedSize2 (mapErase addr (mapErase prevIt.1 fb)))
    else st
  | none => st

/-- The successor-merge step of `Allocator::free` (lines 90-102); `it` points
at key `addr`, whose stored size is `alignedSize`. -/
def freeMergeNext (st : Nat × Nat × FreeBlocks) : Nat × Nat × FreeBlocks :=
  let addr := st.1
  let alignedSize := st.2.1
  let fb := st.2.2
  match mapNext addr fb with
  | some nextIt =>
    let currentEnd := (addr + alignedSize) % SIZE_MOD
    if currentEnd = nextIt.1 then
      let alignedSize2 := (alignedSize + nextIt.2) % SIZE_MOD
      (addr, alignedSize2, mapAssign addr alignedSize2 (mapErase nextIt.1 (mapErase addr fb)))
    else st
  | none => st

/-- `Allocator::free`; `none` when the `IT_ASSERT` on `ptr` throws. The last
line subtracts the local `alignedSize`, which by then holds the size of the
merged block. -/
def free (a : Allocator) (addr size : Nat) : Option Allocator :=
  if a.ptr.isSome then none
  else
    let alignedSize := a.getAlignedSize size
    let st := freeMergeNext (freeMergePrev (addr, alignedSize, mapAssign addr alignedSize a.freeBlocks))
    some { a with freeBlocks := st.2.2, used := (a.used + SIZE_MOD - st.2.1) % SIZE_MOD }

end Allocator

/-- A well-formed `std::map`: keys strictly increasing. -/
def SortedKeys (m : FreeBlocks) : Prop := m.Pairwise (fun a b => a.1 < b.1)

instance (m : FreeBlocks) : Decidable (SortedKeys m) :=
  inferInstanceAs (Decidable (List.Pairwise (fun a b : Nat × Nat => a.1 < b.1) m))

/-- A state with two free blocks `[0, 16)` and `[40, 64)`. -/
def twoBlocks : Allocator :=
  { used := 24, peak := 64, ptr := none, alignment := 8, freeBlocks := [(0, 16), (40, 24)] }

/-- A state whose two free blocks overlap; it is what `free(0, 16); free(8, 104)` leaves in
the map of a new allocator. -/
def overlapBlocks : Allocator :=
  { used := 0, peak := 0, ptr := none, alignment := 8, freeBlocks := [(0, 16), (8, 104)] }

/-- A state with 16 bytes in use and the free block `[0, 8)`. -/
def adjacentPrev : Allocator :=
  { used := 16, peak := 24, ptr := none, alignment := 8, freeBlocks := [(0, 8)] }

/-- An allocator state with alignment 8 and no buffer materialized. -/
def planning (used peak : Nat) (fb : FreeBlocks) : Allocator :=
  { used := used, peak := peak, ptr := none, alignment := 8, freeBlocks := fb }

/-- An allocator as constructed, but with the map holding one block `(0, cap)`. -/
def seeded (cap : Nat) : Allocator := { Allocator.new with freeBlocks := [(0, cap)] }

/-- Scenario S5 run from `a0`: the three returned offsets, the free blocks after the two
frees, the offset of the last `alloc`, and the final `used` and `peak`. -/
def scenarioS5 (a0 : Allocator) :
    Option Nat × Option Nat × Option Nat × List (Nat × Nat) × Option Nat × Nat × Nat :=
  let r1 := a0.alloc 8
  let r2 := r1.1.alloc 16
  let r3 := r2.1.alloc 8
  let a4 := (r3.1.free 8 16).getD r3.1
  let a5 := (a4.free 24 8).getD a4
  let r6 := a5.alloc 24
  (r1.2, r2.2, r3.2, a5.freeBlocks, r6.2, r6.1.used, r6.1.peak)

/-! ## Definitions: operators (`src/operators/concat.cc`) -/

/-- Modelled from the spec: `Shape` (declared in a header that is not part of the sources
at hand) is "an ordered sequence of non-negative integers". -/
abbrev Shape := List Nat

/-- `ConcatObj::inferShape`, with `dim` the normalised axis stored by the constructor and the
inputs given by their shapes. Reading a vector out of range is undefined in C++; here such a
read gives 0 and such a write does nothing. -/
def ConcatObj.inferShape (dim : Nat) (inputs : List Shape) : Option (List Shape) :=
  let dims := inputs.headD []
  let dims := (inputs.drop 1).foldl
    (fun (dims : Shape) (input : Shape) => dims.set dim (dims.getD dim 0 + input.getD dim 0)) dims
  some [dims]

/-! ## Definitions: graph (`src/core/graph.cc`) -/

/-- Operator kinds; `graph.cc` distinguishes `Transpose` and `MatMul`. -/
inductive OpType where
  | Transpose
  | MatMul
  | Concat
  | Relu
  | Unknown
deriving DecidableEq, Repr

/-- An operator object. Operators and tensors are referred to by identifiers (their
addresses); the lists hold identifiers. `permute` is the attribute of a Transpose,
`transA`/`transB` those of a MatMul. -/
structure OperatorObj where
  opType : OpType
  inputs : List Nat
  outputs : List Nat
  predecessors : List Nat
  successors : List Nat
  permute : List Int
  transA : Bool
  transB : Bool
deriving DecidableEq, Repr

/-- A tensor object. -/
structure TensorObj where
  fuid : Nat
  dims : Shape
  source : Option Nat
  targets : List Nat
deriving DecidableEq, Repr

/-- The graph together with the objects its references point to: `op i` and `tensor i`
are the objects with identifier `i`; `ops` and `tensors` are the vectors owned by the
graph. An object erased from `ops`/`tensors` stays reachable through the references
that still name it. -/
structure GraphObj where
  op : Nat → OperatorObj
  tensor : Nat → TensorObj
  ops : List Nat
  tensors : List Nat
  sorted : Bool

namespace GraphObj

/-- Overwrite the operator object `i`. -/
def setOp (g : GraphObj) (i : Nat) (o : OperatorObj) : GraphObj :=
  { g with op := fun j => if j = i then o else g.op j }

/-- Overwrite the tensor object `i`. -/
def setTensor (g : GraphObj) (i : Nat) (t : TensorObj) : GraphObj :=
  { g with tensor := fun j => if j = i then t else g.tensor j }

/-- Modelled from the spec: `TensorObj::addTarget` (tensor.h is not part of the sources at
hand) registers `op` as a target of tensor `t`. -/
def addTarget (g : GraphObj) (t op : Nat) : GraphObj :=
  g.setTensor t { g.tensor t with targets := (g.tensor t).targets ++ [op] }

/-- Modelled from the spec: `TensorObj::removeTarget` removes `op` from the targets of `t`. -/
def removeTarget (g : GraphObj) (t op : Nat) : GraphObj :=
  g.setTensor t { g.tensor t with targets := (g.tensor t).targets.filter (fun o => o != op) }

/-- Modelled from the spec: `TensorObj::setSource`. -/
def setSource (g : GraphObj) (t op : Nat) : GraphObj :=
  g.setTensor t { g.tensor t with source := some op }

/-- Modelled from the spec: `OperatorObj::addPredecessors` (operator.h is not part of the
sources at hand) adds `p` to the predecessors of `o`. -/
def addPredecessors (g : GraphObj) (o p : Nat) : GraphObj :=
  g.setOp o { g.op o with predecessors := (g.op o).predecessors ++ [p] }

/-- Modelled from the spec: `OperatorObj::addSuccessors`. -/
def addSuccessors (g : GraphObj) (o s : Nat) : GraphObj :=
  g.setOp o { g.op o with successors := (g.op o).successors ++ [s] }

/-- Modelled from the spec: `OperatorObj::removePredecessors`. -/
def removePredecessors (g : GraphObj) (o p : Nat) : GraphObj :=
  g.setOp o { g.op o with predecessors := (g.op o).predecessors.filter (fun q => q != p) }

/-- Modelled from the spec: `OperatorObj::removeSuccessors`. -/
def removeSuccessors (g : GraphObj) (o s : Nat) : GraphObj :=
  g.setOp o { g.op o with successors := (g.op o).successors.filter (fun q => q != s) }

/-- Modelled from the spec: `OperatorObj::replaceInput(t1, t2)` puts `t2` in every input
slot of `o` that holds `t1`. -/
def replaceInput (g : GraphObj) (o t1 t2 : Nat) : GraphObj :=
  g.setOp o { g.op o with inputs := (g.op o).inputs.map (fun t => if t = t1 then t2 else t) }

/-- Modelled from the spec: `MatmulObj::setTransA`. -/
def setTransA (g : GraphObj) (o : Nat) (b : Bool) : GraphObj :=
  g.setOp o { g.op o with transA := b }

/-- Modelled from the spec: `MatmulObj::setTransB`. -/
def setTransB (g : GraphObj) (o : Nat) (b : Bool) : GraphObj :=
  g.setOp o { g.op o with transB := b }

/-- `GraphObj::addOperatorAndConnect` for the operator object `op` (lines 10-38). -/
def addOperatorAndConnect (g : GraphObj) (op : Nat) : GraphObj :=
  let g := { g with sorted := false, ops := g.ops ++ [op] }
  let g := (g.op op).inputs.foldl (fun g input =>
    let g := g.addTarget input op
    match (g.tensor input).source with
    | some pred => (g.addSuccessors pred op).addPredecessors op pred
    | none => g) g
  (g.op op).outputs.foldl (fun g output =>
    let g := g.setSource output op
    (g.tensor output).targets.foldl (fun g succ =>
      (g.addPredecessors succ op).addSuccessors op succ) g) g

/-- The test inside the scan of `topo_sort` (lines 80-86): `op` is not flagged and every
input has no source or a flagged source. -/
def topoReady (g : GraphObj) (flags : List Nat) (op : Nat) : Bool :=
  !flags.contains op &&
  (g.op op).inputs.all (fun input =>
    match (g.tensor input).source with
    | none => true
    | some ptr => flags.contains ptr)

/-- One pass of the `for` loop of `topo_sort` (lines 76-92) over `ops`; the state is
`(modified, sorted, flags)`. -/
def topoPass (g : GraphObj) (sorted flags : List Nat) : Bool × List Nat × List Nat :=
  g.ops.foldl (fun st op =>
    if topoReady g st.2.2 op then (true, st.2.1 ++ [op], op :: st.2.2) else st)
    (false, sorted, flags)

/-- The `while` loop of `topo_sort` (lines 73-97) with a bound on the number of passes.
`none`: the bound was reached; `some none`: the loop returned `false`; `some (some l)`:
the loop ended with `sorted = l`. -/
def topoLoop (g : GraphObj) : Nat → List Nat → List Nat → Option (Option (List Nat))
  | 0, _, _ => none
  | fuel + 1, sorted, flags =>
    if sorted.length < g.ops.length then
      let st := topoPass g sorted flags
      if !st.1 then some none
      else topoLoop g fuel st.2.1 st.2.2
    else some (some sorted)

/-- `GraphObj::topo_sort`: the new graph and the returned boolean. Every pass that does
not return adds an operator to `sorted`, so `ops.size() + 1` passes are allowed; `none`
would mean that this bound was reached. -/
def topo_sort (g : GraphObj) : Option (GraphObj × Bool) :=
  if g.sorted then some (g, true)
  else
    match topoLoop g (g.ops.length + 1) [] [] with
    | none => none
    | some none => some (g, false)
    | some (some sorted) => some ({ g with ops := sorted, sorted := true }, true)

end GraphObj

/-- `isInverse` (lines 102-114) on the two permute vectors. -/
def isInverse (self_permute other_permute : List Int) : Bool :=
  (List.range self_permute.length).all (fun i =>
    self_permute.getD (other_permute.getD i 0).toNat 0 == (i : Int))

/-- `isTransMat` (lines 116-132) on the permute vector. -/
def isTransMat (permute : List Int) : Int :=
  let rank := permute.length
  if rank ≤ 1 then -1
  else if (List.range (rank - 2)).all (fun i => permute.getD i 0 == (i : Int)) then
    (if permute.getD (rank - 1) 0 == ((rank : Int) - 1) then 0 else 1)
  else -1

/-- The local state of `GraphObj::optimize`: the graph and the three work vectors. -/
structure OptState where
  g : GraphObj
  remove_ops : List Nat
  remove_tensors : List Nat
  wait_for_cut : List Nat

namespace GraphObj

/-- Step 2 of rewrite 1 (lines 188-192): detach `succ_op` from each of its successors. -/
def detachSuccessors (succ_op : Nat) (succ_successors : List Nat) (g : GraphObj) : GraphObj :=
  succ_successors.foldl (fun g nxt_op =>
    (g.removeSuccessors succ_op nxt_op).removePredecessors nxt_op succ_op) g

/-- Step 3 of rewrite 1 (lines 196-209): each successor of `succ_op` reads `curr_input`
in place of `succ_output` and is linked to the first predecessor of `curr_op`. -/
def relinkSuccessors (curr_op succ_output curr_input : Nat) (succ_successors : List Nat)
    (g : GraphObj) : GraphObj :=
  succ_successors.foldl (fun g nxt_op =>
    let g := g.replaceInput nxt_op succ_output curr_input
    let g :=
      match (g.op curr_op).predecessors with
      | [] => g
      | curr_prev :: _ => (g.addPredecessors nxt_op curr_prev).addSuccessors curr_prev nxt_op
    g.addTarget curr_input nxt_op) g

/-- Body of the inner loop of rewrite 1 (lines 162-229) for one `succ_op` of the
snapshot of the successors of `curr_op`. -/
def rewrite1Step (curr_op : Nat) (st : OptState) (succ_op : Nat) : OptState :=
  let g := st.g
  if (g.op succ_op).opType ≠ OpType.Transpose then st
  else if !isInverse (g.op curr_op).permute (g.op succ_op).permute then st
  else
    let curr_input := (g.op curr_op).inputs.getD 0 0
    let curr_output := (g.op curr_op).outputs.getD 0 0
    let succ_output := (g.op succ_op).outputs.getD 0 0
    let succ_successors := (g.op succ_op).successors
    let g := g.removeSuccessors curr_op succ_op
    let g := g.removePredecessors succ_op curr_op
    let g := detachSuccessors succ_op succ_successors g
    let g := relinkSuccessors curr_op succ_output curr_input succ_successors g
    let g := g.removeTarget curr_output succ_op
    let g := g.removeTarget curr_input curr_op
    let remove_ops := st.remove_ops ++ [curr_op, succ_op]
    let remove_tensors := st.remove_tensors ++ [curr_output, succ_output]
    let w := st.wait_for_cut
    let w := if (g.tensor curr_output).targets.isEmpty then w ++ [curr_output] else w
    let w := if (g.tensor succ_output).targets.isEmpty then w ++ [succ_output] else w
    { g := g, remove_ops := remove_ops, remove_tensors := remove_tensors, wait_for_cut := w }

/-- Body of the outer loop of rewrite 1 (lines 151-231) for one `curr_op`. -/
def rewrite1Op (st : OptState) (curr_op : Nat) : OptState :=
  if (st.g.op curr_op).opType ≠ OpType.Transpose then st
  else (st.g.op curr_op).successors.foldl (rewrite1Step curr_op) st

/-- Rewrite 1: removal of adjacent inverse Transpose pairs (lines 151-231). -/
def rewrite1 (st : OptState) : OptState :=
  st.g.ops.foldl rewrite1Op st

/-- Steps 2 to 4 of rewrite 2 (lines 273-289): the MatMul `succ_op` reads the input of the
Transpose `curr_op` in place of its output, and one of its transpose flags is flipped. -/
def fuseInto (curr_op succ_op : Nat) (g : GraphObj) : GraphObj :=
  let trans_input := (g.op curr_op).inputs.getD 0 0
  let trans_output := (g.op curr_op).outputs.getD 0 0
  let is_input_a := (g.op succ_op).inputs[0]? == some trans_output
  let g := g.removeSuccessors curr_op succ_op
  let g := g.removePredecessors succ_op curr_op
  let g := g.removeTarget trans_output succ_op
  let g := g.replaceInput succ_op trans_output trans_input
  let g := g.addTarget trans_input succ_op
  if is_input_a then g.setTransA succ_op ((g.op succ_op).transA ^^ true)
  else g.setTransB succ_op ((g.op succ_op).transB ^^ true)

/-- Body of the inner loop of rewrite 2 (lines 243-296). -/
def rewrite2Step (curr_op : Nat) (st : OptState) (succ_op : Nat) : OptState :=
  let g := st.g
  if (g.op succ_op).opType ≠ OpType.MatMul then st
  else if isTransMat (g.op curr_op).permute ≠ 1 then st
  else
    let trans_output := (g.op curr_op).outputs.getD 0 0
    let is_input_a := (g.op succ_op).inputs[0]? == some trans_output
    let is_input_b := (g.op succ_op).inputs[1]? == some trans_output
    if !is_input_a && !is_input_b then st
    else
      let g := fuseInto curr_op succ_op g
      let w := st.wait_for_cut
      let w := if (g.tensor trans_output).targets.isEmpty then w ++ [trans_output] else w
      { st with g := g, wait_for_cut := w }

/-- Body of the outer loop of rewrite 2 for one `curr_op`. -/
def rewrite2Op (st : OptState) (curr_op : Nat) : OptState :=
  if (st.g.op curr_op).opType ≠ OpType.Transpose then st
  else (st.g.op curr_op).successors.foldl (rewrite2Step curr_op) st

/-- Rewrite 2: fusion of a Transpose into a MatMul (lines 234-297). -/
def rewrite2 (st : OptState) : OptState :=
  st.g.ops.foldl rewrite2Op st

/-- The first loop of the clean-up (lines 308-312): detach `prod_op` from the operators
of the snapshot `preds` of its predecessors. -/
def sweepDetach (prod_op : Nat) (preds : List Nat) (g : GraphObj) : GraphObj :=
  preds.foldl (fun g pred =>
    (g.removeSuccessors pred prod_op).removePredecessors prod_op pred) g

/-- The second loop of the clean-up (lines 314-321) on the graph and `wait_for_cut`. -/
def sweepInputs (prod_op : Nat) (inputs : List Nat) (gw : GraphObj × List Nat) :
    GraphObj × List Nat :=
  inputs.foldl (fun (gw : GraphObj × List Nat) input =>
    let g := gw.1.removeTarget input prod_op
    (g, if (g.tensor input).targets.isEmpty then gw.2 ++ [input] else gw.2)) gw

/-- Body of the clean-up loop (lines 305-325) for the tensor taken from the back of
`wait_for_cut`. -/
def sweepStep (st : OptState) (tensor : Nat) : OptState :=
  match (st.g.tensor tensor).source with
  | none => st
  | some prod_op =>
    let g := sweepDetach prod_op (st.g.op prod_op).predecessors st.g
    let gw := sweepInputs prod_op (g.op prod_op).inputs (g, st.wait_for_cut)
    { g := gw.1, remove_ops := st.remove_ops ++ [prod_op],
      remove_tensors := st.remove_tensors ++ [tensor], wait_for_cut := gw.2 }

/-- The clean-up `while` loop (lines 300-326) with a bound on the number of iterations;
`none` when the bound is reached with `wait_for_cut` not empty. -/
def sweep : Nat → OptState → Option OptState
  | 0, st => if st.wait_for_cut.isEmpty then some st else none
  | fuel + 1, st =>
    match st.wait_for_cut.getLast? with
    | none => some st
    | some tensor => sweep fuel (sweepStep { st with wait_for_cut := st.wait_for_cut.dropLast } tensor)

/-- The two erase loops (lines 327-334). -/
def eraseRemoved (st : OptState) : GraphObj :=
  { st.g with
    ops := st.remove_ops.foldl (fun ops op => ops.filter (fun o => o != op)) st.g.ops,
    tensors := st.remove_tensors.foldl (fun ts t => ts.filter (fun s => s != t)) st.g.tensors }

/-- `GraphObj::optimize`, with `fuel` bounding the iterations of the clean-up loop.
`none` when the `IT_ASSERT` on `topo_sort()` fails or a bound is reached. -/
def optimize (fuel : Nat) (g : GraphObj) : Option GraphObj :=
  match g.topo_sort with
  | some (g, true) =>
    (sweep fuel (rewrite2 (rewrite1
      { g := g, remove_ops := [], remove_tensors := [], wait_for_cut := [] }))).map eraseRemoved
  | _ => none

/-- `GraphObj::checkValid` (lines 425-468): `true` when every `IT_ASSERT` passes, `false`
when one of them throws. -/
def checkValid (g : GraphObj) : Bool :=
  g.tensors.all (fun tensor =>
    !((g.tensor tensor).targets.length == 0 && (g.tensor tensor).source.isNone) &&
    (g.tensor tensor).targets.all (fun op => g.ops.contains op) &&
    (match (g.tensor tensor).source with
     | none => true
     | some op => g.ops.contains op)) &&
  g.ops.all (fun op =>
    (g.op op).inputs.all (fun tensor => g.tensors.contains tensor) &&
    (g.op op).outputs.all (fun tensor => g.tensors.contains tensor) &&
    (g.op op).predecessors.all (fun pre => g.ops.contains pre) &&
    (g.op op).successors.all (fun suc => g.ops.contains suc)) &&
  (g.tensors.foldl (fun (st : Bool × List Nat) tensor =>
    (st.1 && !st.2.contains (g.tensor tensor).fuid, (g.tensor tensor).fuid :: st.2))
    (true, [])).1

end GraphObj

namespace GraphObj

/-- A graph with no tensors and no operators. -/
def empty : GraphObj :=
  { op := fun _ => { opType := OpType.Unknown, inputs := [], outputs := [], predecessors := [],
                     successors := [], permute := [], transA := false, transB := false },
    tensor := fun i => { fuid := i, dims := [], source := none, targets := [] },
    ops := [], tensors := [], sorted := false }

/-- `GraphObj::addTensor(dim, dtype)` (lines 399-402): a new tensor object `id`. -/
def addTensor (g : GraphObj) (id : Nat) (dims : Shape) : GraphObj :=
  { g.setTensor id { fuid := id, dims := dims, source := none, targets := [] } with
    tensors := g.tensors ++ [id] }

/-- Construction of a new operator object `id` followed by `addOperatorAndConnect`. -/
def addOp (g : GraphObj) (id : Nat) (opType : OpType) (inputs outputs : List Nat)
    (permute : List Int) : GraphObj :=
  (g.setOp id { opType := opType, inputs := inputs, outputs := outputs, predecessors := [],
                successors := [], permute := permute, transA := false,
                transB := false }).addOperatorAndConnect id

end GraphObj

/-- Scenario S1: `x(0) → Transpose[0,2,1](op 0) → y(1) → Transpose[0,2,1](op 1) → z(2) →
Relu(op 2) → out(3)`. -/
def graphS1 : GraphObj :=
  ((((((GraphObj.empty.addTensor 0 [2, 3, 4]).addTensor 1 [2, 4, 3]).addTensor 2 [2, 3, 4]).addTensor 3
    [2, 3, 4]).addOp 0 OpType.Transpose [0] [1] [0, 2, 1]).addOp 1 OpType.Transpose [1] [2]
    [0, 2, 1]).addOp 2 OpType.Relu [2] [3] []

/-- Scenario S1 with a second consumer of the intermediate tensor: `y(1) → Relu(op 3) →
out2(4)`. -/
def graphFork : GraphObj :=
  (graphS1.addTensor 4 [2, 4, 3]).addOp 3 OpType.Relu [1] [4] []


/-- An inverse Transpose pair whose final output has no consumer:
`x(0) → Transpose(op 0) → y(1) → Transpose(op 1) → z(2)`. -/
def graphDead : GraphObj :=
  ((((GraphObj.empty.addTensor 0 [2, 3, 4]).addTensor 1 [2, 4, 3]).addTensor 2 [2, 3, 4]).addOp 0 OpType.Transpose [0] [1] [0, 2, 1]).addOp 1 OpType.Transpose [1] [2]
    [0, 2, 1]

/-- Three Transposes in a row: `x0(0) → op 0 → x(1) → op 1 → y(2) → op 2 → z(3) →
Relu(op 3) → out(4)`, each with permute `[0,2,1]`. -/
def graphThree : GraphObj :=
  ((((((((GraphObj.empty.addTensor 0 [2, 3, 4]).addTensor 1 [2, 4, 3]).addTensor 2 [2, 3, 4]).addTensor 3
    [2, 4, 3]).addTensor 4 [2,4,3]).addOp 0 OpType.Transpose [0] [1] [0, 2, 1]).addOp 1 OpType.Transpose [1] [2]
    [0, 2, 1]).addOp 2 OpType.Transpose [2] [3] [0,2,1]).addOp 3 OpType.Relu [3] [4] []

/-- A transposed tensor feeding both inputs of a MatMul: `a(0) → Transpose[1,0](op 0) →
a'(1)`, `MatMul(a', a')(op 1) → c(2)`. -/
def graphMM : GraphObj :=
  (((((GraphObj.empty.addTensor 0 [4, 4]).addTensor 1 [4, 4]).addTensor 2 [4, 4]).addOp 0 OpType.Transpose [0] [1] [1, 0]).addOp 1 OpType.MatMul [1, 1] [2] [])
/-- Scenario S3: `a(0) → Transpose[1,0](op 0) → a'(1)`, `MatMul(a', b(2))(op 1) → c(3)`. -/
def graphS3 : GraphObj :=
  ((((((GraphObj.empty.addTensor 0 [4, 8]).addTensor 1 [8, 4]).addTensor 2 [8, 5]).addTensor 3 [8,5]).addOp 0 OpType.Transpose [0] [1] [1, 0]).addOp 1 OpType.MatMul [1, 2] [3] [])


/-- Scenario S1 with the operators added in reverse order, so that `ops` is `[2, 1, 0]`. -/
def graphRev : GraphObj :=
  ((((((GraphObj.empty.addTensor 0 [2, 3, 4]).addTensor 1 [2, 4, 3]).addTensor 2 [2, 3, 4]).addTensor 3
    [2, 3, 4]).addOp 2 OpType.Relu [2] [3] []).addOp 1 OpType.Transpose [1] [2]
    [0, 2, 1]).addOp 0 OpType.Transpose [0] [1] [0, 2, 1]

/-- The graph `graphRev` after `topo_sort`. -/
def graphRevSorted : GraphObj := { graphRev with ops := [0, 1, 2], sorted := true }

/-- The chain `x → u = Transpose → y → v = Transpose → z` of rewrite 1 in a valid sorted
graph: `u` and `v` are inverse Transposes in `ops`, `y` is produced by `u` and consumed
only by `v`, `z` is consumed by at least one operator, the predecessor and successor lists
of `u` and `v` agree with the sources and targets of `x`, `y`, `z`, and neither `u` nor `v`
is a producer of `x` or a consumer of `z`. -/
structure InverseChain (g : GraphObj) (u v x y z : Nat) : Prop where
  sorted : g.sorted = true
  valid : g.checkValid = true
  nodup : g.ops.Nodup
  u_mem : u ∈ g.ops
  v_mem : v ∈ g.ops
  u_type : (g.op u).opType = OpType.Transpose
  v_type : (g.op v).opType = OpType.Transpose
  inverse : isInverse (g.op u).permute (g.op v).permute = true
  u_inputs : (g.op u).inputs = [x]
  u_outputs : (g.op u).outputs = [y]
  v_inputs : (g.op v).inputs = [y]
  v_outputs : (g.op v).outputs = [z]
  distinct : u ≠ v ∧ x ≠ y ∧ x ≠ z ∧ y ≠ z
  y_source : (g.tensor y).source = some u
  y_targets : (g.tensor y).targets = [v]
  u_successors : (g.op u).successors = [v]
  z_targets : (g.tensor z).targets ≠ []
  v_successors : (g.op v).successors = (g.tensor z).targets
  u_predecessors : (g.op u).predecessors = (g.tensor x).source.toList
  acyclic : u ∉ (g.tensor z).targets ∧ v ∉ (g.tensor z).targets ∧
    (g.tensor x).source ≠ some u ∧ (g.tensor x).source ≠ some v

/-- The graph produced by the splice of rewrite 1 for the pair `(u, v)` (lines 184-213). -/
def spliced (g : GraphObj) (u v x y z : Nat) : GraphObj :=
  ((GraphObj.relinkSuccessors u z x (g.op v).successors
    (GraphObj.detachSuccessors v (g.op v).successors
      ((g.removeSuccessors u v).removePredecessors v u))).removeTarget y v).removeTarget x u

/-- The optimizer state after the splice of the pair `(u, v)` from the initial state. -/
def splicedState (g : GraphObj) (u v x y z : Nat) : OptState :=
  { g := spliced g u v x y z, remove_ops := [u, v], remove_tensors := [y, z],
    wait_for_cut := [y] }

/-- The optimizer state after the clean-up of `y` and its producer `u`. -/
def sweptState (g : GraphObj) (u v x y z : Nat) : OptState :=
  { g := (GraphObj.sweepDetach u (g.op u).predecessors (spliced g u v x y z)).removeTarget x u,
    remove_ops := [u, v, u], remove_tensors := [y, z, y], wait_for_cut := [] }

/-- Scenario S1 with the `sorted` flag set, as `topo_sort` leaves it. -/
def graphS1Sorted : GraphObj := { graphS1 with sorted := true }

/-- Scenario S3 with the `sorted` flag set (its `ops` are in topological order). -/
def graphS3Sorted : GraphObj := { graphS3 with sorted := true }

/-- An inverse Transpose pair in front of a MatMul: `x0(0) → Transpose[0,2,1](op 0) → x(1) →
Transpose[0,2,1](op 1) → y(2)`, `MatMul(y, b(3))(op 2) → c(4)`. -/
def graphPairMM : GraphObj :=
  (((((((GraphObj.empty.addTensor 0 [2, 3, 4]).addTensor 1 [2, 4, 3]).addTensor 2
    [2, 3, 4]).addTensor 3 [2, 4, 5]).addTensor 4 [2, 3, 5]).addOp 0 OpType.Transpose [0] [1]
    [0, 2, 1]).addOp 1 OpType.Transpose [1] [2] [0, 2, 1]).addOp 2 OpType.MatMul [2, 3] [4] []

/-- A fusion site of rewrite 2 in a valid sorted graph: `t` is the only Transpose of the
graph, it swaps the last two axes (`isTransMat` is 1), reads `x` and writes `out`, and the
MatMul `m` is one of its successors and holds `out` in exactly one of its first two input
slots. -/
structure FusionSite (g : GraphObj) (t m x out : Nat) : Prop where
  sorted : g.sorted = true
  valid : g.checkValid = true
  nodup : g.ops.Nodup
  t_mem : t ∈ g.ops
  only : ∀ o ∈ g.ops, (g.op o).opType = OpType.Transpose → o = t
  t_type : (g.op t).opType = OpType.Transpose
  trans_mat : isTransMat (g.op t).permute = 1
  t_inputs : (g.op t).inputs = [x]
  t_outputs : (g.op t).outputs = [out]
  x_ne_out : x ≠ out
  out_source : (g.tensor out).source = some t
  acyclic : t ∉ (g.op t).successors
  m_succ : m ∈ (g.op t).successors
  m_type : (g.op m).opType = OpType.MatMul
  m_slot : ((g.op m).inputs[0]? == some out) ≠ ((g.op m).inputs[1]? == some out)

/-- What every step of rewrite 2 and of the clean-up keeps, relative to the initial graph
`g`: operator kinds, the attributes of the Transpose `t`, sources, the vectors of the graph,
and a `wait_for_cut` that holds nothing but `out`. -/
structure FuseInv (g : GraphObj) (t x out : Nat) (st : OptState) : Prop where
  opType : ∀ o, (st.g.op o).opType = (g.op o).opType
  t_inputs : (st.g.op t).inputs = [x]
  t_outputs : (st.g.op t).outputs = [out]
  t_permute : (st.g.op t).permute = (g.op t).permute
  source : ∀ τ, (st.g.tensor τ).source = (g.tensor τ).source
  ops : st.g.ops = g.ops
  wait : ∀ e ∈ st.wait_for_cut, e = out

/-- The MatMul `m` is as in the initial graph `g`. -/
def Unfused (g : GraphObj) (m : Nat) (st : OptState) : Prop :=
  (st.g.op m).inputs = (g.op m).inputs ∧ (st.g.op m).transA = (g.op m).transA ∧
  (st.g.op m).transB = (g.op m).transB

/-- The MatMul `m` after the fusion of `t`: every input slot that held `out` holds `x`, the
flag of the slot that held `out` is flipped, `t` is no predecessor of `m`, and `m` is a
target of `x`. -/
def Fused (g : GraphObj) (t m x out : Nat) (st : OptState) : Prop :=
  (st.g.op m).inputs = (g.op m).inputs.map (fun τ => if τ = out then x else τ) ∧
  (st.g.op m).transA = ((g.op m).transA ^^ ((g.op m).inputs[0]? == some out)) ∧
  (st.g.op m).transB = ((g.op m).transB ^^ ((g.op m).inputs[1]? == some out)) ∧
  t ∉ (st.g.op m).predecessors ∧ m ∈ (st.g.tensor x).targets

/-- An order of operators in which the source of every input of an operator stands
before the operator. -/
def Ordered (g : GraphObj) (l : List Nat) : Prop :=
  ∀ pre o post, l = pre ++ o :: post →
    ∀ t ∈ (g.op o).inputs, ∀ p, (g.tensor t).source = some p → p ∈ pre

/-- The loop invariant of `topo_sort`. -/
structure TopoInv (g : GraphObj) (sorted flags : List Nat) : Prop where
  flags_iff : ∀ x, x ∈ flags ↔ x ∈ sorted
  nodup : sorted.Nodup
  sub : ∀ x ∈ sorted, x ∈ g.ops
  ordered : Ordered g sorted


/-! ## Definitions: MatMul (`src/operators/matmul.cc`) -/

/-- Modelled from the spec: `infer_broadcast` (`utils/operator_utils` is not part of the
sources at hand): right-align the two shapes (a missing column counts as 1); in each column
the result dim is `max x y` when `x == y`, `x == 1` or `y == 1`; the call fails otherwise.
The rank of the result is the larger of the two ranks. -/
def infer_broadcast (a b : Shape) : Option Shape :=
  let rank := max a.length b.length
  let cols := List.zip (List.replicate (rank - a.length) 1 ++ a)
    (List.replicate (rank - b.length) 1 ++ b)
  if cols.all (fun xy => xy.1 == xy.2 || xy.1 == 1 || xy.2 == 1) then
    some (cols.map (fun xy => max xy.1 xy.2))
  else none

/-- `std::swap(shape[rank - 1], shape[rank - 2])` on a shape of rank at least 2. -/
def swapLastTwo (shape : Shape) : Shape :=
  (shape.set (shape.length - 1) (shape.getD (shape.length - 2) 0)).set (shape.length - 2)
    (shape.getD (shape.length - 1) 0)

/-- `MatmulObj::inferShape` (lines 24-50) with the attributes `transA`, `transB` and the
inputs given by their shapes. `none` when the `assert` on the ranks fails or
`infer_broadcast` fails. -/
def MatmulObj.inferShape (transA transB : Bool) (inputs : List Shape) : Option (List Shape) :=
  let shape_A := inputs.getD 0 []
  let shape_B := inputs.getD 1 []
  let A_rank := shape_A.length
  let B_rank := shape_B.length
  if A_rank ≥ 2 ∧ B_rank ≥ 2 then
    let shape_A := if transA then swapLastTwo shape_A else shape_A
    let shape_B := if transB then swapLastTwo shape_B else shape_B
    let shape_A := shape_A.set (A_rank - 1) 1
    let shape_B := shape_B.set (B_rank - 2) 1
    match infer_broadcast shape_A shape_B with
    | some output_shape => some [output_shape]
    | none => none
  else none

/-- A dependency cycle: `Relu(op 0)` reads tensor 0 and writes tensor 1, `Relu(op 1)` reads
tensor 1 and writes tensor 0. -/
def graphCycle : GraphObj :=
  (((GraphObj.empty.addTensor 0 [2, 3]).addTensor 1 [2, 3]).addOp 0 OpType.Relu [0] [1]
    []).addOp 1 OpType.Relu [1] [0] []

/-- A decision procedure for `Ordered`: `l` extends the ordered list `pre` when every
operator of `l` finds the sources of its inputs among the operators before it. -/
def orderedFrom (g : GraphObj) : List Nat → List Nat → Bool
  | _, [] => true
  | pre, o :: post =>
    (g.op o).inputs.all (fun t =>
      match (g.tensor t).source with
      | none => true
      | some p => pre.contains p) && orderedFrom g (pre ++ [o]) post

/-- Scenario S2: scenario S1 with `permute = [1,0,2]` in the second Transpose. -/
def graphS2 : GraphObj :=
  ((((((GraphObj.empty.addTensor 0 [2, 3, 4]).addTensor 1 [2, 4, 3]).addTensor 2
    [4, 2, 3]).addTensor 3 [4, 2, 3]).addOp 0 OpType.Transpose [0] [1] [0, 2, 1]).addOp 1
    OpType.Transpose [1] [2] [1, 0, 2]).addOp 2 OpType.Relu [2] [3] []

/-- Scenario S4: `a(0) [2,4,8] → Transpose[2,1,0](op 0) → a'(1)`,
`MatMul(a', b(2))(op 1) → c(3)`. -/
def graphS4 : GraphObj :=
  (((((GraphObj.empty.addTensor 0 [2, 4, 8]).addTensor 1 [8, 4, 2]).addTensor 2
    [8, 2, 5]).addTensor 3 [8, 4, 5]).addOp 0 OpType.Transpose [0] [1] [2, 1, 0]).addOp 1
    OpType.MatMul [1, 2] [3] []

/-- The consistency of the predecessor and successor lists with the sources of the inputs,
over the operators of the graph: `p` is a predecessor of `o` exactly when some input of `o`
has source `p`, and `p` is a successor of `o` exactly when `o` is a predecessor of `p`. -/
def linksConsistent (g : GraphObj) : Bool :=
  g.ops.all (fun o => g.ops.all (fun p =>
    ((g.op o).predecessors.contains p ==
      (g.op o).inputs.any (fun t => (g.tensor t).source == some p)) &&
    ((g.op o).successors.contains p == (g.op p).predecessors.contains o)))

/-- A Transpose between a producer and a MatMul: `a0(0) → Relu(op 0) → a(1) →
Transpose[1,0](op 1) → a'(2)`, `MatMul(a', b(3))(op 2) → c(4)`. -/
def graphFeed : GraphObj :=
  (((((((GraphObj.empty.addTensor 0 [8, 4]).addTensor 1 [8, 4]).addTensor 2 [4, 8]).addTensor 3
    [8, 5]).addTensor 4 [4, 5]).addOp 0 OpType.Relu [0] [1] []).addOp 1 OpType.Transpose [1] [2]
    [1, 0]).addOp 2 OpType.MatMul [2, 3] [4] []

namespace GraphObj

/-- `GraphObj::getTensor(fuid)` (lines 337-347): the first tensor of `tensors` with that
fuid; `none` is `nullptr`. -/
def getTensor (g : GraphObj) (fuid : Nat) : Option Nat :=
  g.tensors.find? (fun tensor => (g.tensor tensor).fuid == fuid)

/-- Modelled from the spec: `TensorObj::setShape` (`set_shape`; tensor.h is not part of the
sources at hand) replaces the dims of tensor `t`. -/
def setShape (g : GraphObj) (t : Nat) (shape : Shape) : GraphObj :=
  g.setTensor t { g.tensor t with dims := shape }

/-- Body of the inner loop of `shape_infer` (lines 360-367) for output index `i` of `op`,
with `ans` the inferred shapes. `none` when `getTensor` returns `nullptr`, which the code
dereferences. -/
def shapeInferOutput (op : Nat) (ans : List Shape) (g : GraphObj) (i : Nat) : Option GraphObj :=
  let newShape := ans.getD i []
  let oldOutput := (g.op op).outputs.getD i 0
  let oldShape := (g.tensor oldOutput).dims
  let fuid := (g.tensor oldOutput).fuid
  if newShape ≠ oldShape then
    match g.getTensor fuid with
    | some tensor => some (g.setShape tensor newShape)
    | none => none
  else some g

/-- Body of the outer loop of `shape_infer` (lines 353-368) for `op`. The virtual call
`op->inferShape()` is the parameter `inferShape`, applied to the operator and the shapes of
its current inputs (operator.h and the operator classes other than Concat and MatMul are not
part of the sources at hand). `none` when one of the two `IT_ASSERT`s fails. -/
def shapeInferOp (inferShape : Nat → List Shape → Option (List Shape)) (g : GraphObj)
    (op : Nat) : Option GraphObj :=
  match inferShape op ((g.op op).inputs.map (fun t => (g.tensor t).dims)) with
  | none => none
  | some ans =>
    if ans.length ≠ (g.op op).outputs.length then none
    else (List.range ans.length).foldlM (shapeInferOutput op ans) g

/-- `GraphObj::shape_infer` (lines 349-370). -/
def shape_infer (inferShape : Nat → List Shape → Option (List Shape)) (g : GraphObj) :
    Option GraphObj :=
  g.ops.foldlM (shapeInferOp inferShape) g

end GraphObj

/-- Two Concat operators with axis 0 that write the same tensor: `Concat(a(0), b(1))(op 0) →
t(2)` and `Concat(a, a)(op 1) → t`, with `a = [3,3]` and `t = [6,3]`, after the shape of `b`
was changed from `[3,3]` to `[4,3]`. -/
def graphTwoWriters : GraphObj :=
  ((((GraphObj.empty.addTensor 0 [3, 3]).addTensor 1 [4, 3]).addTensor 2 [6, 3]).addOp 0
    OpType.Concat [0, 1] [2] []).addOp 1 OpType.Concat [0, 0] [2] []

/-- Scenario S6 as a graph whose output has a stale shape: `Concat(a(0), b(1), c(2))(op 0) →
t(3)` with axis 1, followed by `Concat(t, t)(op 1) → r(4)` with axis 1. -/
def graphConcat : GraphObj :=
  ((((((GraphObj.empty.addTensor 0 [2, 3, 4]).addTensor 1 [2, 5, 4]).addTensor 2
    [2, 1, 4]).addTensor 3 [2, 3, 4]).addTensor 4 [1]).addOp 0 OpType.Concat [0, 1, 2] [3]
    []).addOp 1 OpType.Concat [3, 3] [4] []

/-- The dims of the tensors `ts` in `g`. -/
def dimsOf (g : GraphObj) (ts : List Nat) : List Shape := ts.map (fun t => (g.tensor t).dims)

/-- The graph `g2` differs from `g` at most in the dims of tensors. -/
structure DimsOnly (g g2 : GraphObj) : Prop where
  op : g2.op = g.op
  ops : g2.ops = g.ops
  tensors : g2.tensors = g.tensors
  sorted : g2.sorted = g.sorted
  fuid : ∀ t, (g2.tensor t).fuid = (g.tensor t).fuid
  source : ∀ t, (g2.tensor t).source = (g.tensor t).source
  targets : ∀ t, (g2.tensor t).targets = (g.tensor t).targets

/-- The stored output shapes of `o` are what its `inferShape` returns on the stored input
shapes. -/
def Settled (inferShape : Nat → List Shape → Option (List Shape)) (g : GraphObj) (o : Nat) :
    Prop :=
  inferShape o (dimsOf g (g.op o).inputs) = some (dimsOf g (g.op o).outputs)

/-- The graph `graphConcat` after `shape_infer`: tensor 3 has shape `[2,9,4]` and tensor 4
has shape `[2,18,4]`. -/
def graphConcatInferred : GraphObj :=
  (graphConcat.setShape 3 [2, 9, 4]).setShape 4 [2, 18, 4]

/-- The address `x` lies in the region `r = (offset, size)`: it is one of `offset`,
`offset + 1`, ..., `offset + size - 1`, computed in `size_t` arithmetic as the code computes
`addr + size`. -/
def inRegion (r : Nat × Nat) (x : Nat) : Prop := ∃ i, i < r.2 ∧ x = (r.1 + i) % SIZE_MOD

/-- Two regions share no address. -/
def RegionsDisjoint (r s : Nat × Nat) : Prop := ∀ x, ¬ (inRegion r x ∧ inRegion s x)

/-- The free blocks are pairwise non-overlapping. -/
def NonOverlapping (m : FreeBlocks) : Prop := ∀ b ∈ m, ∀ c ∈ m, b ≠ c → RegionsDisjoint b c

/-- Every offset and size of the map is a `size_t` value. -/
def WordSized (m : FreeBlocks) : Prop := ∀ b ∈ m, b.1 < SIZE_MOD ∧ b.2 < SIZE_MOD

/-- The allocation loop of `GraphObj::dataMalloc` (lines 383-386) on the byte sizes of the
tensors: one `alloc` per size, with no `free` in between. The result lists the regions
`(offset, aligned size)` in the order of the calls; `none` when an `alloc` throws. -/
def allocAll : Allocator → List Nat → Option (Allocator × List (Nat × Nat))
  | a, [] => some (a, [])
  | a, size :: rest =>
    match a.alloc size with
    | (a2, some offset) =>
      (allocAll a2 rest).map (fun r => (r.1, (offset, a.getAlignedSize size) :: r.2))
    | (_, none) => none

/-- Two allocations, a `free` of the first region and a third allocation, run from `a0`: the
three returned offsets and the final `used` and `peak`. -/
def scenarioPeak (a0 : Allocator) : Option Nat × Option Nat × Option Nat × Nat × Nat :=
  let r1 := a0.alloc 8
  let r2 := r1.1.alloc 8
  let a3 := (r2.1.free 0 8).getD r2.1
  let r4 := a3.alloc 16
  (r1.2, r2.2, r4.2, r4.1.used, r4.1.peak)

/-- The operand conventions of the two operator kinds that `optimize` rewrites, over the
operators of the graph: a Transpose has one input and is the source of its first output and
of no other tensor of the graph; a MatMul has two inputs. -/
def operandsCoherent (g : GraphObj) : Bool :=
  g.ops.all (fun o =>
    ((g.op o).opType != OpType.Transpose ||
      ((g.op o).inputs.length == 1 &&
        (g.tensor ((g.op o).outputs.getD 0 0)).source == some o &&
        g.tensors.all (fun t =>
          (g.tensor t).source != some o || t == (g.op o).outputs.getD 0 0))) &&
    ((g.op o).opType != OpType.MatMul || (g.op o).inputs.length == 2))

/-- What the loops of `optimize` keep of the graph `g0` they start from: the vectors of the
graph, operator kinds, outputs, `permute`, sources and the number of inputs stay as in
`g0`; successors of operators of the graph are in the graph; predecessor and successor
lists mirror each other; every predecessor is the source of an input; the source of every
input stands before its consumer in `ops`; inputs are tensors of the graph. -/
structure Net (g0 g : GraphObj) : Prop where
  ops_eq : g.ops = g0.ops
  tensors_eq : g.tensors = g0.tensors
  opType : ∀ i, (g.op i).opType = (g0.op i).opType
  outputs : ∀ i, (g.op i).outputs = (g0.op i).outputs
  permute : ∀ i, (g.op i).permute = (g0.op i).permute
  source : ∀ t, (g.tensor t).source = (g0.tensor t).source
  arity : ∀ i, (g.op i).inputs.length = (g0.op i).inputs.length
  succ_mem : ∀ m ∈ g0.ops, ∀ s ∈ (g.op m).successors, s ∈ g0.ops
  pred_succ : ∀ m ∈ g0.ops, ∀ p ∈ (g.op m).predecessors, m ∈ (g.op p).successors
  succ_pred : ∀ p ∈ g0.ops, ∀ m ∈ (g.op p).successors, p ∈ (g.op m).predecessors
  feeds : ∀ m ∈ g0.ops, ∀ p ∈ (g.op m).predecessors,
    ∃ t ∈ (g.op m).inputs, (g0.tensor t).source = some p
  ordered : ∀ o ∈ g0.ops, ∀ t ∈ (g.op o).inputs, ∀ q, (g0.tensor t).source = some q →
    q ∈ g0.ops ∧ g0.ops.indexOf q < g0.ops.indexOf o
  inputs_mem : ∀ o ∈ g0.ops, ∀ t ∈ (g.op o).inputs, t ∈ g0.tensors

/-- Scenario S3 with the MatMul taken out of the successors of the Transpose: the MatMul
still lists the Transpose as a predecessor. -/
def graphUnlinked : GraphObj := graphS3.removeSuccessors 0 1

/-! ## Properties: allocator -/

open Allocator

theorem mem_mapErase {k : Nat} {m : FreeBlocks} {e : Nat × Nat} :
    e ∈ mapErase k m ↔ e ∈ m ∧ e.1 ≠ k := by
  simp [mapErase, List.mem_filter]

theorem sortedKeys_mapErase {k : Nat} {m : FreeBlocks} (h : SortedKeys m) :
    SortedKeys (mapErase k m) :=
  List.Pairwise.filter _ h

theorem mapAssign_append (k v : Nat) (L R : FreeBlocks)
    (hL : ∀ e ∈ L, e.1 < k) (hR : ∀ e ∈ R, k < e.1) :
    mapAssign k v (L ++ R) = L ++ (k, v) :: R := by
  induction L with
  | nil =>
    cases R with
    | nil => rfl
    | cons r R =>
      have := hR r (List.mem_cons_self _ _)
      simp [mapAssign, this]
  | cons l L ih =>
    have h1 := hL l (List.mem_cons_self _ _)
    have h2 : ¬ k < l.1 := by omega
    have h3 : ¬ k = l.1 := by omega
    simp [mapAssign, h2, h3]
    exact ih (fun e he => hL e (List.mem_cons_of_mem _ he))

theorem mapErase_append (k v : Nat) (L R : FreeBlocks)
    (hL : ∀ e ∈ L, e.1 < k) (hR : ∀ e ∈ R, k < e.1) :
    mapErase k (L ++ (k, v) :: R) = L ++ R := by
  have h1 : List.filter (fun e : Nat × Nat => e.1 != k) L = L :=
    List.filter_eq_self.2 (fun e he => by have := hL e he; simp; omega)
  have h2 : List.filter (fun e : Nat × Nat => e.1 != k) R = R :=
    List.filter_eq_self.2 (fun e he => by have := hR e he; simp; omega)
  simp [mapErase, List.filter_append, List.filter_cons, h1, h2]

theorem mapErase_absent (k : Nat) (m : FreeBlocks) (h : ∀ e ∈ m, e.1 ≠ k) :
    mapErase k m = m :=
  List.filter_eq_self.2 (fun e he => by simpa using h e he)

theorem mapPrev_append (k v : Nat) (L R : FreeBlocks)
    (hL : ∀ e ∈ L, e.1 < k) (hR : ∀ e ∈ R, k < e.1) :
    mapPrev k (L ++ (k, v) :: R) = L.getLast? := by
  have h1 : List.filter (fun e : Nat × Nat => decide (e.1 < k)) L = L :=
    List.filter_eq_self.2 (fun e he => by simpa using hL e he)
  have h2 : List.filter (fun e : Nat × Nat => decide (e.1 < k)) R = [] :=
    List.filter_eq_nil_iff.2 (fun e he => by have := hR e he; simp; omega)
  simp [mapPrev, List.filter_append, List.filter_cons, h1, h2]

theorem mapNext_append (k v : Nat) (L R : FreeBlocks)
    (hL : ∀ e ∈ L, e.1 < k) :
    mapNext k (L ++ (k, v) :: R) = (R.find? (fun e => decide (k < e.1))) := by
  have h1 : L.find? (fun e : Nat × Nat => decide (k < e.1)) = none :=
    List.find?_eq_none.2 (fun e he => by have := hL e he; simp; omega)
  simp [mapNext, List.find?_append, h1]

/-- Membership in a map after an assignment. -/
theorem mem_mapAssign {k v : Nat} {m : FreeBlocks} (h : SortedKeys m) {e : Nat × Nat} :
    e ∈ mapAssign k v m ↔ e = (k, v) ∨ (e ∈ m ∧ e.1 ≠ k) := by
  induction m with
  | nil => simp [mapAssign]
  | cons a m ih =>
    have hm : SortedKeys m := (List.pairwise_cons.1 h).2
    have ha := (List.pairwise_cons.1 h).1
    unfold mapAssign
    by_cases h1 : k < a.1
    · simp only [h1, if_true, List.mem_cons]
      constructor
      · rintro (h | rfl | h)
        · exact Or.inl h
        · exact Or.inr ⟨Or.inl rfl, by omega⟩
        · exact Or.inr ⟨Or.inr h, by have := ha e h; omega⟩
      · rintro (h | ⟨h | h, _⟩)
        · exact Or.inl h
        · exact Or.inr (Or.inl h)
        · exact Or.inr (Or.inr h)
    · by_cases h2 : k = a.1
      · rw [if_neg h1, if_pos h2]
        simp only [List.mem_cons]
        constructor
        · rintro (h | h)
          · exact Or.inl h
          · exact Or.inr ⟨Or.inr h, by have := ha e h; omega⟩
        · rintro (h | ⟨h | h, h3⟩)
          · exact Or.inl h
          · exact absurd (by rw [h, h2]) h3
          · exact Or.inr h
      · rw [if_neg h1, if_neg h2]
        simp only [List.mem_cons, ih hm]
        constructor
        · rintro (rfl | h | ⟨h, h3⟩)
          · exact Or.inr ⟨Or.inl rfl, fun h => h2 h.symm⟩
          · exact Or.inl h
          · exact Or.inr ⟨Or.inr h, h3⟩
        · rintro (h | ⟨h | h, h3⟩)
          · exact Or.inr (Or.inl h)
          · exact Or.inl h
          · exact Or.inr (Or.inr ⟨h, h3⟩)

theorem sortedKeys_mapAssign {k v : Nat} {m : FreeBlocks} (h : SortedKeys m) :
    SortedKeys (mapAssign k v m) := by
  induction m with
  | nil => simp [mapAssign, SortedKeys]
  | cons a m ih =>
    have hm : SortedKeys m := (List.pairwise_cons.1 h).2
    have ha := (List.pairwise_cons.1 h).1
    unfold mapAssign
    by_cases h1 : k < a.1
    · simp only [h1, if_true]
      refine List.pairwise_cons.2 ⟨?_, h⟩
      intro e he
      rcases List.mem_cons.1 he with rfl | he
      · exact h1
      · have := ha e he
        show k < e.1
        omega
    · by_cases h2 : k = a.1
      · rw [if_neg h1, if_pos h2]
        exact List.pairwise_cons.2 ⟨fun e he => by have := ha e he; show k < e.1; omega, hm⟩
      · rw [if_neg h1, if_neg h2]
        refine List.pairwise_cons.2 ⟨?_, ih hm⟩
        intro e he
        rcases (mem_mapAssign hm).1 he with rfl | ⟨he, _⟩
        · show a.1 < k
          omega
        · exact ha e he

/-- The state and result of a successful `alloc`, in terms of the block the scan stops at. -/
theorem alloc_of_find (a : Allocator) (size : Nat) (it : Nat × Nat) (hptr : a.ptr = none)
    (h : a.freeBlocks.find? (fun it => decide (it.2 ≥ a.getAlignedSize size)) = some it) :
    a.alloc size =
      ({ a with
          freeBlocks :=
            if it.2 - a.getAlignedSize size > 0 then
              mapAssign ((it.1 + a.getAlignedSize size) % SIZE_MOD) (it.2 - a.getAlignedSize size)
                (mapErase it.1 a.freeBlocks)
            else mapErase it.1 a.freeBlocks,
          used := (a.used + a.getAlignedSize size) % SIZE_MOD,
          peak := max ((a.used + a.getAlignedSize size) % SIZE_MOD) a.peak }, some it.1) := by
  simp [alloc, hptr, h]

/-- C3 (amended): when no buffer is materialized, some free block fits, and no other free
block starts at the offset where the remainder of the first fitting block is placed,
`alloc(size)` returns the smallest offset among the fitting blocks, removes that block,
inserts the remainder `(offset + aligned, blockSize - aligned)` exactly when it is non-zero,
leaves every other free block unchanged, adds the aligned size to `used` (64-bit
arithmetic) and sets `peak` to the maximum of the old peak and the new `used`. -/
theorem alloc_first_fit (a : Allocator) (size : Nat)
    (hmap : SortedKeys a.freeBlocks) (hptr : a.ptr = none)
    (hfit : ∃ b ∈ a.freeBlocks, a.getAlignedSize size ≤ b.2)
    (hrem : ∀ b ∈ a.freeBlocks, a.getAlignedSize size ≤ b.2 →
      (∀ c ∈ a.freeBlocks, a.getAlignedSize size ≤ c.2 → b.1 ≤ c.1) →
      ∀ c ∈ a.freeBlocks, c.1 = (b.1 + a.getAlignedSize size) % SIZE_MOD → c = b) :
    ∃ addr bsize,
      (addr, bsize) ∈ a.freeBlocks ∧ a.getAlignedSize size ≤ bsize ∧
      (∀ b ∈ a.freeBlocks, a.getAlignedSize size ≤ b.2 → addr ≤ b.1) ∧
      (a.alloc size).2 = some addr ∧
      (∀ e, e ∈ (a.alloc size).1.freeBlocks ↔
        (e = ((addr + a.getAlignedSize size) % SIZE_MOD, bsize - a.getAlignedSize size) ∧
            bsize - a.getAlignedSize size ≠ 0) ∨
        (e ∈ a.freeBlocks ∧ e ≠ (addr, bsize))) ∧
      SortedKeys (a.alloc size).1.freeBlocks ∧
      (a.alloc size).1.used = (a.used + a.getAlignedSize size) % SIZE_MOD ∧
      (a.alloc size).1.peak = max a.peak (a.alloc size).1.used ∧
      (a.alloc size).1.ptr = a.ptr ∧ (a.alloc size).1.alignment = a.alignment := by
  obtain ⟨b0, hb0, hb0fit⟩ := hfit
  have hsome : (a.freeBlocks.find? (fun it => decide (it.2 ≥ a.getAlignedSize size))).isSome := by
    rw [List.find?_isSome]
    exact ⟨b0, hb0, by simpa using hb0fit⟩
  obtain ⟨it, hit⟩ := Option.isSome_iff_exists.1 hsome
  have hmem : it ∈ a.freeBlocks := List.mem_of_find?_eq_some hit
  have hp : a.getAlignedSize size ≤ it.2 := by simpa using List.find?_some hit
  obtain ⟨_, as, bs, hsplit, has⟩ := List.find?_eq_some.1 hit
  have hsorted := hmap
  rw [SortedKeys, hsplit, List.pairwise_append] at hsorted
  obtain ⟨_, hbs, hcross⟩ := hsorted
  have hbs2 := (List.pairwise_cons.1 hbs).1
  have hfirst : ∀ b ∈ a.freeBlocks, a.getAlignedSize size ≤ b.2 → it.1 ≤ b.1 := by
    intro b hb hbfit
    rw [hsplit] at hb
    rcases List.mem_append.1 hb with hb | hb
    · have := has b hb
      simp at this
      omega
    · rcases List.mem_cons.1 hb with rfl | hb
      · exact le_refl _
      · exact le_of_lt (hbs2 b hb)
  have huniq : ∀ e ∈ a.freeBlocks, e.1 = it.1 → e = it := by
    intro e he hk
    rw [hsplit] at he
    rcases List.mem_append.1 he with he | he
    · have := hcross e he it (List.mem_cons_self _ _)
      omega
    · rcases List.mem_cons.1 he with rfl | he
      · rfl
      · have := hbs2 e he
        omega
  have hrem2 := hrem it hmem hp hfirst
  refine ⟨it.1, it.2, hmem, hp, hfirst, ?_, ?_, ?_, ?_, ?_, ?_, ?_⟩
  · rw [alloc_of_find a size it hptr hit]
  · intro e
    rw [alloc_of_find a size it hptr hit]
    show e ∈ (if it.2 - a.getAlignedSize size > 0 then _ else _) ↔ _
    have hne : e ∈ a.freeBlocks → (e.1 ≠ it.1 ↔ e ≠ (it.1, it.2)) := by
      intro he
      constructor
      · intro h1 h2
        exact h1 (by rw [h2])
      · intro h1 h2
        exact h1 (huniq e he h2)
    by_cases hz : it.2 - a.getAlignedSize size > 0
    · rw [if_pos hz, mem_mapAssign (sortedKeys_mapErase hmap), mem_mapErase]
      constructor
      · rintro (h | ⟨⟨h1, h2⟩, _⟩)
        · exact Or.inl ⟨h, by omega⟩
        · exact Or.inr ⟨h1, (hne h1).1 h2⟩
      · rintro (⟨h, _⟩ | ⟨h1, h2⟩)
        · exact Or.inl h
        · refine Or.inr ⟨⟨h1, (hne h1).2 h2⟩, ?_⟩
          intro h3
          exact h2 (hrem2 e h1 h3)
    · rw [if_neg hz, mem_mapErase]
      constructor
      · rintro ⟨h1, h2⟩
        exact Or.inr ⟨h1, (hne h1).1 h2⟩
      · rintro (⟨_, h⟩ | ⟨h1, h2⟩)
        · omega
        · exact ⟨h1, (hne h1).2 h2⟩
  · rw [alloc_of_find a size it hptr hit]
    show SortedKeys (if it.2 - a.getAlignedSize size > 0 then _ else _)
    split
    · exact sortedKeys_mapAssign (sortedKeys_mapErase hmap)
    · exact sortedKeys_mapErase hmap
  · rw [alloc_of_find a size it hptr hit]
  · rw [alloc_of_find a size it hptr hit]
    exact max_comm _ _
  · rw [alloc_of_find a size it hptr hit]
  · rw [alloc_of_find a size it hptr hit]


theorem freeMergePrev_nil (addr al : Nat) (R : FreeBlocks) (hR : ∀ e ∈ R, addr < e.1) :
    freeMergePrev (addr, al, (addr, al) :: R) = (addr, al, (addr, al) :: R) := by
  have h := mapPrev_append addr al [] R (by simp) hR
  simp only [List.nil_append, List.getLast?_nil] at h
  simp [freeMergePrev, h]

theorem freeMergePrev_snoc (addr al : Nat) (L R : FreeBlocks) (p : Nat × Nat)
    (hL : ∀ e ∈ L, e.1 < p.1) (hp : p.1 < addr) (hR : ∀ e ∈ R, addr < e.1) :
    freeMergePrev (addr, al, L ++ p :: (addr, al) :: R) =
      if (p.1 + p.2) % SIZE_MOD = addr then
        (p.1, (al + p.2) % SIZE_MOD, L ++ (p.1, (al + p.2) % SIZE_MOD) :: R)
      else (addr, al, L ++ p :: (addr, al) :: R) := by
  have hL2 : ∀ e ∈ L ++ [p], e.1 < addr := by
    intro e he
    rcases List.mem_append.1 he with he | he
    · have := hL e he; omega
    · simp at he; subst he; exact hp
  have e0 : L ++ p :: (addr, al) :: R = (L ++ [p]) ++ (addr, al) :: R := by simp
  have h := mapPrev_append addr al (L ++ [p]) R hL2 hR
  rw [List.getLast?_concat, ← e0] at h
  have hR2 : ∀ e ∈ (addr, al) :: R, p.1 < e.1 := by
    intro e he
    rcases List.mem_cons.1 he with rfl | he
    · exact hp
    · have := hR e he; omega
  have e1 : mapErase p.1 (L ++ p :: (addr, al) :: R) = L ++ (addr, al) :: R :=
    mapErase_append p.1 p.2 L _ hL hR2
  have e2 : mapErase addr (L ++ (addr, al) :: R) = L ++ R :=
    mapErase_append addr al L R (fun e he => by have := hL e he; omega) hR
  have e3 : mapAssign p.1 ((al + p.2) % SIZE_MOD) (L ++ R) =
      L ++ (p.1, (al + p.2) % SIZE_MOD) :: R :=
    mapAssign_append _ _ L R hL (fun e he => by have := hR e he; omega)
  simp only [freeMergePrev, h, e1, e2, e3]

theorem freeMergeNext_cons (addr al : Nat) (L R : FreeBlocks) (n : Nat × Nat)
    (hL : ∀ e ∈ L, e.1 < addr) (hn : addr < n.1) (hR : ∀ e ∈ R, n.1 < e.1) :
    freeMergeNext (addr, al, L ++ (addr, al) :: n :: R) =
      if (addr + al) % SIZE_MOD = n.1 then
        (addr, (al + n.2) % SIZE_MOD, L ++ (addr, (al + n.2) % SIZE_MOD) :: R)
      else (addr, al, L ++ (addr, al) :: n :: R) := by
  have h := mapNext_append addr al L (n :: R) hL
  rw [List.find?_cons_of_pos _ (by simpa using hn)] at h
  have e1 : mapErase addr (L ++ (addr, al) :: n :: R) = L ++ n :: R :=
    mapErase_append addr al L _ hL (by
      intro e he
      rcases List.mem_cons.1 he with rfl | he
      · exact hn
      · have := hR e he; omega)
  have e2 : mapErase n.1 (L ++ n :: R) = L ++ R :=
    mapErase_append n.1 n.2 L R (fun e he => by have := hL e he; omega) hR
  have e3 : mapAssign addr ((al + n.2) % SIZE_MOD) (L ++ R) =
      L ++ (addr, (al + n.2) % SIZE_MOD) :: R :=
    mapAssign_append _ _ L R hL (fun e he => by have := hR e he; omega)
  simp only [freeMergeNext, h, e1, e2, e3]

/-- C7: `alloc(size)` fails exactly when the buffer pointer is materialized or no free block
has size at least the aligned size, and a failing call leaves the allocator state
(`used`, `peak`, the free-block map) as it was. -/
theorem alloc_fails_iff (a : Allocator) (size : Nat) :
    ((a.alloc size).2 = none ↔
      (a.ptr ≠ none ∨ ∀ b ∈ a.freeBlocks, b.2 < a.getAlignedSize size)) ∧
    ((a.alloc size).2 = none → (a.alloc size).1 = a) := by
  cases hptr : a.ptr with
  | some p => simp [alloc, hptr]
  | none =>
    cases hfind : a.freeBlocks.find? (fun it => decide (it.2 ≥ a.getAlignedSize size)) with
    | none =>
      have h := List.find?_eq_none.1 hfind
      have e : a.alloc size = (a, none) := by simp [alloc, hptr, hfind]
      rw [e]
      simp only [true_and, implies_true, and_true, true_iff]
      right
      intro b hb
      have := h b hb
      simp at this
      exact this
    | some it =>
      have e := alloc_of_find a size it hptr hfind
      have hp : a.getAlignedSize size ≤ it.2 := by simpa using List.find?_some hfind
      have hmem := List.mem_of_find?_eq_some hfind
      rw [e]
      refine ⟨Iff.intro (fun h => by cases h) ?_, fun h => by cases h⟩
      rintro (h | h)
      · exact absurd rfl h
      · have := h it hmem
        omega


/-- Counterexample to C3 as stated: with free blocks `(0, 16)` and `(8, 104)`, `alloc(8)`
takes the block at 0 and writes its remainder at key 8, so the other block `(8, 104)` is no
longer in the map. -/
theorem alloc_overwrites_other_block :
    SortedKeys overlapBlocks.freeBlocks ∧ overlapBlocks.ptr = none ∧
    (∃ b ∈ overlapBlocks.freeBlocks, overlapBlocks.getAlignedSize 8 ≤ b.2) ∧
    (overlapBlocks.alloc 8).2 = some 0 ∧
    (8, 104) ∈ overlapBlocks.freeBlocks ∧
    (8, 104) ∉ (overlapBlocks.alloc 8).1.freeBlocks := by
  refine ⟨by decide, rfl, ⟨(0, 16), by decide, by decide⟩, by decide, by decide, by decide⟩

/-- Witness for C3: `alloc(20)` on `twoBlocks` skips `(0, 16)` and takes `(40, 24)`. -/
theorem alloc_first_fit_witness :
    ∃ addr bsize,
      (addr, bsize) ∈ twoBlocks.freeBlocks ∧ twoBlocks.getAlignedSize 20 ≤ bsize ∧
      (∀ b ∈ twoBlocks.freeBlocks, twoBlocks.getAlignedSize 20 ≤ b.2 → addr ≤ b.1) ∧
      (twoBlocks.alloc 20).2 = some addr ∧
      (∀ e, e ∈ (twoBlocks.alloc 20).1.freeBlocks ↔
        (e = ((addr + twoBlocks.getAlignedSize 20) % SIZE_MOD,
              bsize - twoBlocks.getAlignedSize 20) ∧
            bsize - twoBlocks.getAlignedSize 20 ≠ 0) ∨
        (e ∈ twoBlocks.freeBlocks ∧ e ≠ (addr, bsize))) ∧
      SortedKeys (twoBlocks.alloc 20).1.freeBlocks ∧
      (twoBlocks.alloc 20).1.used = (twoBlocks.used + twoBlocks.getAlignedSize 20) % SIZE_MOD ∧
      (twoBlocks.alloc 20).1.peak = max twoBlocks.peak (twoBlocks.alloc 20).1.used ∧
      (twoBlocks.alloc 20).1.ptr = twoBlocks.ptr ∧
      (twoBlocks.alloc 20).1.alignment = twoBlocks.alignment :=
  alloc_first_fit twoBlocks 20 (by decide) rfl ⟨(40, 24), by decide, by decide⟩ (by decide)

/-- C5 (code defect): with the free block `[0, 8)` and `used = 16`, `free(8, 8)` merges with
the predecessor and leaves `used = 0`, whereas `used - getAlignedSize(8)` is 8. -/
theorem free_subtracts_merged_size :
    adjacentPrev.free 8 8 =
      some { used := 0, peak := 24, ptr := none, alignment := 8, freeBlocks := [(0, 16)] } ∧
    adjacentPrev.used - adjacentPrev.getAlignedSize 8 = 8 := by
  decide

/-- C4 (code defect): on a newly constructed allocator `alloc(8)` finds no free block and
throws; the state is unchanged and no offset is returned. -/
theorem fresh_alloc_fails : Allocator.new.alloc 8 = (Allocator.new, none) := by
  decide


/-- Aligned sizes of the requests of scenario S5 under alignment 8. -/
theorem aligned8 (a : Allocator) (h : a.alignment = 8) :
    a.getAlignedSize 8 = 8 ∧ a.getAlignedSize 16 = 16 ∧ a.getAlignedSize 24 = 24 := by
  unfold getAlignedSize
  rw [h]
  decide

/-- An `alloc` that takes a proper part of the only free block. -/
theorem alloc_single (used peak o s n : Nat) (hn : n < s) (ho : o + n < SIZE_MOD)
    (hu : used + n < SIZE_MOD)
    (hal : (planning used peak [(o, s)]).getAlignedSize n = n) :
    (planning used peak [(o, s)]).alloc n =
      (planning (used + n) (max (used + n) peak) [(o + n, s - n)], some o) := by
  have h1 : n ≤ s := by omega
  have h2 : s - n > 0 := by omega
  have e := alloc_of_find (planning used peak [(o, s)]) n (o, s) rfl (by
    rw [hal]
    simp [planning, h1])
  rw [e, hal]
  simp only [planning, h2, if_true, Nat.mod_eq_of_lt ho, Nat.mod_eq_of_lt hu]
  simp [mapErase, mapAssign]

/-- `free` on a state with alignment 8 and no buffer, given the aligned size. -/
theorem free_planning (used peak : Nat) (fb : FreeBlocks) (addr size al : Nat)
    (hal : (planning used peak fb).getAlignedSize size = al) :
    (planning used peak fb).free addr size =
      some (planning
        ((used + SIZE_MOD -
          (freeMergeNext (freeMergePrev (addr, al, mapAssign addr al fb))).2.1) % SIZE_MOD)
        peak (freeMergeNext (freeMergePrev (addr, al, mapAssign addr al fb))).2.2) := by
  subst hal
  rfl

/-- From a single block `(0, cap)` with `cap > 32` the two frees of scenario S5 leave the
single block `(8, cap - 8)`: the second `free` also merges with the tail block. -/
theorem scenarioS5_seeded_large (cap : Nat) (h : 32 < cap) (hcap : cap < SIZE_MOD) :
    (scenarioS5 (seeded cap)).2.2.2.1 = [(8, cap - 8)] := by
  have hM : (64 : Nat) < SIZE_MOD := by decide
  have e1 : (seeded cap).alloc 8 = (planning 8 8 [(8, cap - 8)], some 0) :=
    alloc_single 0 0 0 cap 8 (by omega) (by omega) (by omega) (aligned8 _ rfl).1
  have e2 : (planning 8 8 [(8, cap - 8)]).alloc 16 =
      (planning 24 24 [(24, cap - 8 - 16)], some 8) :=
    alloc_single 8 8 8 (cap - 8) 16 (by omega) (by omega) (by omega) (aligned8 _ rfl).2.1
  have e3 : (planning 24 24 [(24, cap - 8 - 16)]).alloc 8 =
      (planning 32 32 [(32, cap - 8 - 16 - 8)], some 24) :=
    alloc_single 24 24 24 (cap - 8 - 16) 8 (by omega) (by omega) (by omega) (aligned8 _ rfl).1
  have e4 : (planning 32 32 [(32, cap - 8 - 16 - 8)]).free 8 16 =
      some (planning 16 32 [(8, 16), (32, cap - 8 - 16 - 8)]) := by
    have hp := freeMergePrev_nil 8 16 [(32, cap - 8 - 16 - 8)] (by simp)
    have hn := freeMergeNext_cons 8 16 [] [] (32, cap - 8 - 16 - 8) (by simp) (by simp) (by simp)
    have hne : ¬ (8 + 16) % SIZE_MOD = 32 := by decide
    simp only [List.nil_append, hne, if_false] at hn
    have hu : (32 + SIZE_MOD - 16) % SIZE_MOD = 16 := by decide
    have ha : mapAssign 8 16 [(32, cap - 8 - 16 - 8)] = [(8, 16), (32, cap - 8 - 16 - 8)] := by
      simp [mapAssign]
    rw [free_planning 32 32 _ 8 16 16 (aligned8 _ rfl).2.1, ha, hp, hn, hu]
  have e5 : (planning 16 32 [(8, 16), (32, cap - 8 - 16 - 8)]).free 24 8 =
      some (planning ((16 + SIZE_MOD - (cap - 8)) % SIZE_MOD) 32 [(8, cap - 8)]) := by
    have hp := freeMergePrev_snoc 24 8 [] [(32, cap - 8 - 16 - 8)] (8, 16) (by simp) (by simp)
      (by simp)
    have hpe : (8 + 16) % SIZE_MOD = 24 := by decide
    have hpe2 : (8 + 16) % SIZE_MOD = 8 + 16 := by decide
    simp only [List.nil_append, hpe, if_true, hpe2] at hp
    have hn := freeMergeNext_cons 8 (8 + 16) [] [] (32, cap - 8 - 16 - 8) (by simp) (by simp)
      (by simp)
    have hne : (8 + (8 + 16)) % SIZE_MOD = 32 := by decide
    have hsz : (8 + 16 + (cap - 8 - 16 - 8)) % SIZE_MOD = cap - 8 := by
      rw [Nat.mod_eq_of_lt (by omega)]
      omega
    simp only [List.nil_append, hne, if_true, hsz] at hn
    have ha : mapAssign 24 8 [(8, 16), (32, cap - 8 - 16 - 8)] =
        [(8, 16), (24, 8), (32, cap - 8 - 16 - 8)] := by
      simp [mapAssign]
    rw [free_planning 16 32 _ 24 8 8 (aligned8 _ rfl).1, ha, hp, hn]
  simp only [scenarioS5, e1, e2, e3, e4, e5, Option.getD_some]
  rfl

/-- Whatever the size `cap` of a single initial block `(0, cap)`, scenario S5 does not end
as stated (offsets 0, 8, 24, free block `(8, 24)`, offset 8, `used = peak = 32`). -/
theorem scenarioS5_seeded (cap : Nat) (hcap : cap < SIZE_MOD) :
    ¬ ((scenarioS5 (seeded cap)).1 = some 0 ∧ (scenarioS5 (seeded cap)).2.1 = some 8 ∧
       (scenarioS5 (seeded cap)).2.2.1 = some 24 ∧
       (scenarioS5 (seeded cap)).2.2.2.1 = [(8, 24)] ∧
       (scenarioS5 (seeded cap)).2.2.2.2.1 = some 8 ∧
       (scenarioS5 (seeded cap)).2.2.2.2.2 = (32, 32)) := by
  by_cases h : 32 < cap
  · rintro ⟨_, _, _, h4, _⟩
    rw [scenarioS5_seeded_large cap h hcap] at h4
    simp at h4
    omega
  · have hsmall : ∀ c, c < 33 →
        ¬ ((scenarioS5 (seeded c)).1 = some 0 ∧ (scenarioS5 (seeded c)).2.1 = some 8 ∧
          (scenarioS5 (seeded c)).2.2.1 = some 24 ∧
          (scenarioS5 (seeded c)).2.2.2.1 = [(8, 24)] ∧
          (scenarioS5 (seeded c)).2.2.2.2.1 = some 8 ∧
          (scenarioS5 (seeded c)).2.2.2.2.2 = (32, 32)) := by
      decide
    exact hsmall cap (by omega)

/-- Scenario S5 from a map holding the single block `(0, 32)`: the offsets are as in the
scenario, but the final `used` is 16. -/
theorem scenarioS5_seeded_32 :
    scenarioS5 (seeded 32) = (some 0, some 8, some 24, [(8, 24)], some 8, 16, 32) := by
  rfl

/-- Scenario S5 from a map holding the single block `(0, 1024)`: the second `free` also
merges with the tail block, and `used` wraps below zero. -/
theorem scenarioS5_seeded_1024 :
    scenarioS5 (seeded 1024) =
      (some 0, some 8, some 24, [(8, 1016)], some 8, 2 ^ 64 - 976, 2 ^ 64 - 976) := by
  rfl

/-! ## Properties: operators -/

theorem concat_fold (d : Nat) (ys : List Shape) (dims : Shape) (hd : d < dims.length) :
    ys.foldl (fun (dims : Shape) (input : Shape) =>
        dims.set d (dims.getD d 0 + input.getD d 0)) dims =
      dims.set d (dims.getD d 0 + (ys.map (fun s => s.getD d 0)).sum) := by
  induction ys generalizing dims with
  | nil =>
    simp only [List.foldl_nil, List.map_nil, List.sum_nil, Nat.add_zero]
    rw [List.getD_eq_getElem _ _ hd]
    apply List.ext_getElem?
    intro i
    rw [List.getElem?_set]
    split
    · rename_i h
      subst h
      simp [hd]
    · rfl
  | cons y ys ih =>
    simp only [List.foldl_cons, List.map_cons, List.sum_cons]
    rw [ih _ (by simpa using hd)]
    have e : (dims.set d (dims.getD d 0 + y.getD d 0)).getD d 0 = dims.getD d 0 + y.getD d 0 := by
      rw [List.getD_eq_getElem _ _ (by simpa using hd)]
      simp
    rw [e, List.set_set, Nat.add_assoc]

/-- C10: for a non-empty list of input shapes of one rank that agree on every non-axis
dimension and an axis `d` below that rank, `Concat.inferShape` returns exactly one shape:
the first input's dims with dimension `d` replaced by the sum of dimension `d` over all
inputs. -/
theorem concat_inferShape (d : Nat) (x : Shape) (xs : List Shape) (hd : d < x.length)
    (_hrank : ∀ y ∈ xs, y.length = x.length)
    (_hagree : ∀ y ∈ xs, ∀ i < x.length, i ≠ d → y.getD i 0 = x.getD i 0) :
    ConcatObj.inferShape d (x :: xs) =
      some [x.set d (((x :: xs).map (fun s => s.getD d 0)).sum)] := by
  simp only [ConcatObj.inferShape, List.headD_cons, List.drop_succ_cons, List.drop_zero,
    List.map_cons, List.sum_cons]
  rw [concat_fold d xs x hd]

/-- Witness for C10, scenario S6: `[2,3,4]`, `[2,5,4]`, `[2,1,4]` with axis 1 give `[2,9,4]`. -/
theorem concat_inferShape_S6 :
    ConcatObj.inferShape 1 [[2, 3, 4], [2, 5, 4], [2, 1, 4]] = some [[2, 9, 4]] :=
  concat_inferShape 1 [2, 3, 4] [[2, 5, 4], [2, 1, 4]] (by decide) (by decide) (by decide)

/-! ## Properties: graph -/

open GraphObj

theorem topoReady_iff (g : GraphObj) (flags : List Nat) (op : Nat) :
    topoReady g flags op = true ↔
      op ∉ flags ∧ ∀ t ∈ (g.op op).inputs, ∀ p, (g.tensor t).source = some p → p ∈ flags := by
  unfold topoReady
  simp only [Bool.and_eq_true, Bool.not_eq_true', List.all_eq_true]
  constructor
  · rintro ⟨h1, h2⟩
    refine ⟨by simpa using h1, ?_⟩
    intro t ht p hp
    have := h2 t ht
    rw [hp] at this
    simpa using this
  · rintro ⟨h1, h2⟩
    refine ⟨by simpa using h1, ?_⟩
    intro t ht
    cases hp : (g.tensor t).source with
    | none => rfl
    | some p => simpa using h2 t ht p hp

theorem Ordered.concat {g : GraphObj} {l : List Nat} {op : Nat} (h : Ordered g l)
    (hop : ∀ t ∈ (g.op op).inputs, ∀ p, (g.tensor t).source = some p → p ∈ l) :
    Ordered g (l ++ [op]) := by
  intro pre o post e t ht p hp
  rcases List.eq_nil_or_concat post with rfl | ⟨post1, b, rfl⟩
  · have e2 : l ++ [op] = pre ++ [o] := e
    have := List.append_inj' e2 rfl
    obtain ⟨e3, e4⟩ := this
    simp at e4
    subst e3 e4
    exact hop t ht p hp
  · rw [List.concat_eq_append] at e
    have e2 : l ++ [op] = (pre ++ o :: post1) ++ [b] := by simpa using e
    have := List.append_inj' e2 rfl
    exact h pre o post1 this.1 t ht p hp

/-- One scan step keeps the invariant and only appends to `sorted`. -/
theorem topoPass_aux (g : GraphObj) (l : List Nat) (hl : ∀ x ∈ l, x ∈ g.ops)
    (st : Bool × List Nat × List Nat) (hinv : TopoInv g st.2.1 st.2.2) :
    TopoInv g
      (l.foldl (fun st op =>
        if topoReady g st.2.2 op then (true, st.2.1 ++ [op], op :: st.2.2) else st) st).2.1
      (l.foldl (fun st op =>
        if topoReady g st.2.2 op then (true, st.2.1 ++ [op], op :: st.2.2) else st) st).2.2 ∧
    st.2.1.length ≤
      (l.foldl (fun st op =>
        if topoReady g st.2.2 op then (true, st.2.1 ++ [op], op :: st.2.2) else st) st).2.1.length ∧
    ((l.foldl (fun st op =>
        if topoReady g st.2.2 op then (true, st.2.1 ++ [op], op :: st.2.2) else st) st).1 = true →
      st.1 = true ∨ st.2.1.length <
        (l.foldl (fun st op =>
          if topoReady g st.2.2 op then (true, st.2.1 ++ [op], op :: st.2.2) else st) st).2.1.length) := by
  induction l generalizing st with
  | nil => exact ⟨hinv, le_refl _, fun h => Or.inl h⟩
  | cons a l ih =>
    simp only [List.foldl_cons]
    have hl2 : ∀ x ∈ l, x ∈ g.ops := fun x hx => hl x (List.mem_cons_of_mem _ hx)
    by_cases hr : topoReady g st.2.2 a = true
    · rw [if_pos hr]
      obtain ⟨hnot, hsrc⟩ := (topoReady_iff g st.2.2 a).1 hr
      have hinv2 : TopoInv g (st.2.1 ++ [a]) (a :: st.2.2) := by
        refine ⟨?_, ?_, ?_, ?_⟩
        · intro x
          simp only [List.mem_cons, List.mem_append, List.mem_singleton, hinv.flags_iff]
          tauto
        · have hna : a ∉ st.2.1 := fun h => hnot ((hinv.flags_iff a).2 h)
          have := List.Nodup.concat hna hinv.nodup
          rwa [List.concat_eq_append] at this
        · intro x hx
          rcases List.mem_append.1 hx with hx | hx
          · exact hinv.sub x hx
          · simp at hx
            subst hx
            exact hl x (List.mem_cons_self _ _)
        · exact hinv.ordered.concat (fun t ht p hp => (hinv.flags_iff p).1 (hsrc t ht p hp))
      obtain ⟨h1, h2, h3⟩ := ih hl2 (true, st.2.1 ++ [a], a :: st.2.2) hinv2
      refine ⟨h1, ?_, ?_⟩
      · simp only [List.length_append, List.length_singleton] at h2
        omega
      · intro _
        right
        simp only [List.length_append, List.length_singleton] at h2
        omega
    · rw [if_neg hr]
      exact ih hl2 st hinv

theorem topoPass_inv (g : GraphObj) (sorted flags : List Nat) (hinv : TopoInv g sorted flags) :
    TopoInv g (topoPass g sorted flags).2.1 (topoPass g sorted flags).2.2 ∧
    ((topoPass g sorted flags).1 = true → sorted.length < (topoPass g sorted flags).2.1.length) := by
  obtain ⟨h1, _, h3⟩ := topoPass_aux g g.ops (fun x hx => hx) (false, sorted, flags) hinv
  refine ⟨h1, fun h => ?_⟩
  rcases h3 h with h | h
  · cases h
  · exact h

theorem topoLoop_inv (g : GraphObj) (fuel : Nat) (sorted flags r : List Nat)
    (hinv : TopoInv g sorted flags) (h : topoLoop g fuel sorted flags = some (some r)) :
    (∃ f, TopoInv g r f) ∧ g.ops.length ≤ r.length := by
  induction fuel generalizing sorted flags with
  | zero => simp [topoLoop] at h
  | succ fuel ih =>
    unfold topoLoop at h
    by_cases hlt : sorted.length < g.ops.length
    · rw [if_pos hlt] at h
      simp only at h
      by_cases hm : (topoPass g sorted flags).1 = true
      · simp only [hm, Bool.not_true, Bool.false_eq_true, if_false] at h
        exact ih _ _ (topoPass_inv g sorted flags hinv).1 h
      · simp only [hm, Bool.not_false, if_true] at h
        cases h
    · rw [if_neg hlt] at h
      simp only [Option.some.injEq] at h
      subst h
      exact ⟨⟨flags, hinv⟩, by omega⟩

theorem Ordered.index {g : GraphObj} {l : List Nat} (h : Ordered g l) (i : Nat)
    (hi : i < l.length) (t : Nat) (ht : t ∈ (g.op (l.get ⟨i, hi⟩)).inputs) (p : Nat)
    (hp : (g.tensor t).source = some p) : ∃ j, j < i ∧ l[j]? = some p := by
  have e : l = l.take i ++ l.get ⟨i, hi⟩ :: l.drop (i + 1) := by
    rw [List.get_eq_getElem, ← List.drop_eq_getElem_cons hi, List.take_append_drop]
  have hmem := h _ _ _ e t ht p hp
  obtain ⟨j, hj, hjp⟩ := List.getElem_of_mem hmem
  rw [List.length_take] at hj
  refine ⟨j, by omega, ?_⟩
  rw [List.getElem_take] at hjp
  rw [List.getElem?_eq_getElem (by omega), hjp]

/-- C2: if `topo_sort()` is called with `sorted == false` and returns true, the new `ops` is
a permutation of the old one, the source operator of every input of the operator at index
`i` stands at an index below `i` (and so does every predecessor when predecessors are
sources of inputs), and the `sorted` flag is set; nothing else changes. -/
theorem topo_sort_sorted (g g2 : GraphObj) (hs : g.sorted = false)
    (h : g.topo_sort = some (g2, true)) :
    g2.ops.Perm g.ops ∧
    (∀ i (hi : i < g2.ops.length), ∀ t ∈ (g2.op (g2.ops.get ⟨i, hi⟩)).inputs, ∀ p,
      (g2.tensor t).source = some p → ∃ j, j < i ∧ g2.ops[j]? = some p) ∧
    ((∀ o p, p ∈ (g.op o).predecessors →
        ∃ t ∈ (g.op o).inputs, (g.tensor t).source = some p) →
      ∀ i (hi : i < g2.ops.length), ∀ p ∈ (g2.op (g2.ops.get ⟨i, hi⟩)).predecessors,
        ∃ j, j < i ∧ g2.ops[j]? = some p) ∧
    g2.sorted = true ∧ g2.op = g.op ∧ g2.tensor = g.tensor ∧ g2.tensors = g.tensors := by
  unfold topo_sort at h
  rw [hs] at h
  simp only [Bool.false_eq_true, if_false] at h
  cases hloop : topoLoop g (g.ops.length + 1) [] [] with
  | none => rw [hloop] at h; cases h
  | some r =>
    cases r with
    | none => rw [hloop] at h; simp at h
    | some r =>
      rw [hloop] at h
      simp only [Option.some.injEq, Prod.mk.injEq, and_true] at h
      subst h
      have hord0 : Ordered g [] := by
        intro pre o post e
        cases pre <;> cases e
      have hinv0 : TopoInv g [] [] :=
        ⟨fun x => Iff.rfl, List.nodup_nil, fun x hx => (by cases hx), hord0⟩
      obtain ⟨⟨f, hinv⟩, hlen⟩ := topoLoop_inv g _ [] [] r hinv0 hloop
      have hidx := fun i hi t ht p hp => hinv.ordered.index i hi t ht p hp
      refine ⟨?_, hidx, ?_, rfl, rfl, rfl, rfl⟩
      · exact (hinv.nodup.subperm hinv.sub).perm_of_length_le hlen
      · intro hlink i hi p hp
        obtain ⟨t, ht, hsrc⟩ := hlink _ p hp
        exact hidx i hi t ht p hsrc


/-- Witness for C2: `topo_sort` on `graphRev`, whose `ops` is `[2, 1, 0]`, returns true with
`ops = [0, 1, 2]`. -/
theorem topo_sort_sorted_witness :
    graphRev.ops = [2, 1, 0] ∧ graphRev.topo_sort = some (graphRevSorted, true) ∧
    graphRevSorted.ops.Perm graphRev.ops ∧
    (∀ i (hi : i < graphRevSorted.ops.length),
      ∀ t ∈ (graphRevSorted.op (graphRevSorted.ops.get ⟨i, hi⟩)).inputs, ∀ p,
        (graphRevSorted.tensor t).source = some p → ∃ j, j < i ∧ graphRevSorted.ops[j]? = some p) ∧
    graphRevSorted.sorted = true :=
  ⟨rfl, rfl, (topo_sort_sorted graphRev graphRevSorted rfl rfl).1,
    (topo_sort_sorted graphRev graphRevSorted rfl rfl).2.1,
    (topo_sort_sorted graphRev graphRevSorted rfl rfl).2.2.2.1⟩

/-- C1 (code defect): `graphFork` and `graphDead` pass `checkValid` and `topo_sort`, and
after `optimize()` `checkValid` fails. In `graphFork` the Relu `op 3` still reads tensor 1
and still lists `op 0` as predecessor, both erased; in `graphDead` tensor 0 is left with no
source and no target. -/
theorem optimize_breaks_checkValid :
    (graphFork.checkValid = true ∧ graphFork.topo_sort.map (fun r => r.2) = some true ∧
      (graphFork.optimize 5).map checkValid = some false ∧
      (graphFork.optimize 5).map (fun g => (g.ops, g.tensors, (g.op 3).inputs, (g.op 3).predecessors)) =
        some ([2, 3], [0, 3, 4], [1], [0])) ∧
    (graphDead.checkValid = true ∧ graphDead.topo_sort.map (fun r => r.2) = some true ∧
      (graphDead.optimize 5).map checkValid = some false ∧
      (graphDead.optimize 5).map (fun g => (g.ops, g.tensors, (g.tensor 0).source, (g.tensor 0).targets)) =
        some ([], [0], none, [])) := by
  decide

/-- Supplement to C9 (the flag update is an if/else): in `graphMM` the output of the Transpose feeds both inputs of the
MatMul; after `optimize()` both input slots hold the Transpose's input, `transA` is flipped
and `transB` is not. -/
theorem fusion_flips_only_transA :
    graphMM.checkValid = true ∧
    ((graphMM.op 0).opType, isTransMat (graphMM.op 0).permute, (graphMM.op 0).outputs) =
      (OpType.Transpose, 1, [1]) ∧
    ((graphMM.op 1).opType, (graphMM.op 1).inputs, (graphMM.op 1).transA, (graphMM.op 1).transB) =
      (OpType.MatMul, [1, 1], false, false) ∧
    (graphMM.optimize 5).map (fun g => (g.ops, (g.op 1).inputs, (g.op 1).transA, (g.op 1).transB)) =
      some ([1], [0, 0], true, false) := by
  decide

/-! ### Field-by-field effect of the link mutators and of the loops of `optimize` -/

namespace GraphObj


/-- The operator objects after `addPredecessors`, field by field. -/
@[simp] theorem addPredecessors_op (g : GraphObj) (o p : Nat) (i : Nat) :
    (((g.addPredecessors o p).op i).opType = (g.op i).opType) ∧
    (((g.addPredecessors o p).op i).inputs = (g.op i).inputs) ∧
    (((g.addPredecessors o p).op i).outputs = (g.op i).outputs) ∧
    (((g.addPredecessors o p).op i).predecessors = if i = o then (g.op o).predecessors ++ [p] else (g.op i).predecessors) ∧
    (((g.addPredecessors o p).op i).successors = (g.op i).successors) ∧
    (((g.addPredecessors o p).op i).permute = (g.op i).permute) ∧
    (((g.addPredecessors o p).op i).transA = (g.op i).transA) ∧
    (((g.addPredecessors o p).op i).transB = (g.op i).transB) := by
  by_cases h : i = o <;> simp [addPredecessors, setOp, h]

/-- `addPredecessors` changes no tensor object and neither vector of the graph. -/
@[simp] theorem addPredecessors_frame (g : GraphObj) (o p : Nat) :
    (g.addPredecessors o p).tensor = g.tensor ∧ (g.addPredecessors o p).ops = g.ops ∧
    (g.addPredecessors o p).tensors = g.tensors ∧ (g.addPredecessors o p).sorted = g.sorted :=
  ⟨rfl, rfl, rfl, rfl⟩

/-- The operator objects after `addSuccessors`, field by field. -/
@[simp] theorem addSuccessors_op (g : GraphObj) (o s : Nat) (i : Nat) :
    (((g.addSuccessors o s).op i).opType = (g.op i).opType) ∧
    (((g.addSuccessors o s).op i).inputs = (g.op i).inputs) ∧
    (((g.addSuccessors o s).op i).outputs = (g.op i).outputs) ∧
    (((g.addSuccessors o s).op i).predecessors = (g.op i).predecessors) ∧
    (((g.addSuccessors o s).op i).successors = if i = o then (g.op o).successors ++ [s] else (g.op i).successors) ∧
    (((g.addSuccessors o s).op i).permute = (g.op i).permute) ∧
    (((g.addSuccessors o s).op i).transA = (g.op i).transA) ∧
    (((g.addSuccessors o s).op i).transB = (g.op i).transB) := by
  by_cases h : i = o <;> simp [addSuccessors, setOp, h]

/-- `addSuccessors` changes no tensor object and neither vector of the graph. -/
@[simp] theorem addSuccessors_frame (g : GraphObj) (o s : Nat) :
    (g.addSuccessors o s).tensor = g.tensor ∧ (g.addSuccessors o s).ops = g.ops ∧
    (g.addSuccessors o s).tensors = g.tensors ∧ (g.addSuccessors o s).sorted = g.sorted :=
  ⟨rfl, rfl, rfl, rfl⟩

/-- The operator objects after `removePredecessors`, field by field. -/
@[simp] theorem removePredecessors_op (g : GraphObj) (o p : Nat) (i : Nat) :
    (((g.removePredecessors o p).op i).opType = (g.op i).opType) ∧
    (((g.removePredecessors o p).op i).inputs = (g.op i).inputs) ∧
    (((g.removePredecessors o p).op i).outputs = (g.op i).outputs) ∧
    (((g.removePredecessors o p).op i).predecessors = if i = o then (g.op o).predecessors.filter (fun q => q != p) else (g.op i).predecessors) ∧
    (((g.removePredecessors o p).op i).successors = (g.op i).successors) ∧
    (((g.removePredecessors o p).op i).permute = (g.op i).permute) ∧
    (((g.removePredecessors o p).op i).transA = (g.op i).transA) ∧
    (((g.removePredecessors o p).op i).transB = (g.op i).transB) := by
  by_cases h : i = o <;> simp [removePredecessors, setOp, h]

/-- `removePredecessors` changes no tensor object and neither vector of the graph. -/
@[simp] theorem removePredecessors_frame (g : GraphObj) (o p : Nat) :
    (g.removePredecessors o p).tensor = g.tensor ∧ (g.removePredecessors o p).ops = g.ops ∧
    (g.removePredecessors o p).tensors = g.tensors ∧ (g.removePredecessors o p).sorted = g.sorted :=
  ⟨rfl, rfl, rfl, rfl⟩

/-- The operator objects after `removeSuccessors`, field by field. -/
@[simp] theorem removeSuccessors_op (g : GraphObj) (o s : Nat) (i : Nat) :
    (((g.removeSuccessors o s).op i).opType = (g.op i).opType) ∧
    (((g.removeSuccessors o s).op i).inputs = (g.op i).inputs) ∧
    (((g.removeSuccessors o s).op i).outputs = (g.op i).outputs) ∧
    (((g.removeSuccessors o s).op i).predecessors = (g.op i).predecessors) ∧
    (((g.removeSuccessors o s).op i).successors = if i = o then (g.op o).successors.filter (fun q => q != s) else (g.op i).successors) ∧
    (((g.removeSuccessors o s).op i).permute = (g.op i).permute) ∧
    (((g.removeSuccessors o s).op i).transA = (g.op i).transA) ∧
    (((g.removeSuccessors o s).op i).transB = (g.op i).transB) := by
  by_cases h : i = o <;> simp [removeSuccessors, setOp, h]

/-- `removeSuccessors` changes no tensor object and neither vector of the graph. -/
@[simp] theorem removeSuccessors_frame (g : GraphObj) (o s : Nat) :
    (g.removeSuccessors o s).tensor = g.tensor ∧ (g.removeSuccessors o s).ops = g.ops ∧
    (g.removeSuccessors o s).tensors = g.tensors ∧ (g.removeSuccessors o s).sorted = g.sorted :=
  ⟨rfl, rfl, rfl, rfl⟩

/-- The operator objects after `replaceInput`, field by field. -/
@[simp] theorem replaceInput_op (g : GraphObj) (o t1 t2 : Nat) (i : Nat) :
    (((g.replaceInput o t1 t2).op i).opType = (g.op i).opType) ∧
    (((g.replaceInput o t1 t2).op i).inputs = if i = o then (g.op o).inputs.map (fun t => if t = t1 then t2 else t) else (g.op i).inputs) ∧
    (((g.replaceInput o t1 t2).op i).outputs = (g.op i).outputs) ∧
    (((g.replaceInput o t1 t2).op i).predecessors = (g.op i).predecessors) ∧
    (((g.replaceInput o t1 t2).op i).successors = (g.op i).successors) ∧
    (((g.replaceInput o t1 t2).op i).permute = (g.op i).permute) ∧
    (((g.replaceInput o t1 t2).op i).transA = (g.op i).transA) ∧
    (((g.replaceInput o t1 t2).op i).transB = (g.op i).transB) := by
  by_cases h : i = o <;> simp [replaceInput, setOp, h]

/-- `replaceInput` changes no tensor object and neither vector of the graph. -/
@[simp] theorem replaceInput_frame (g : GraphObj) (o t1 t2 : Nat) :
    (g.replaceInput o t1 t2).tensor = g.tensor ∧ (g.replaceInput o t1 t2).ops = g.ops ∧
    (g.replaceInput o t1 t2).tensors = g.tensors ∧ (g.replaceInput o t1 t2).sorted = g.sorted :=
  ⟨rfl, rfl, rfl, rfl⟩

/-- The operator objects after `setTransA`, field by field. -/
@[simp] theorem setTransA_op (g : GraphObj) (o : Nat) (b : Bool) (i : Nat) :
    (((g.setTransA o b).op i).opType = (g.op i).opType) ∧
    (((g.setTransA o b).op i).inputs = (g.op i).inputs) ∧
    (((g.setTransA o b).op i).outputs = (g.op i).outputs) ∧
    (((g.setTransA o b).op i).predecessors = (g.op i).predecessors) ∧
    (((g.setTransA o b).op i).successors = (g.op i).successors) ∧
    (((g.setTransA o b).op i).permute = (g.op i).permute) ∧
    (((g.setTransA o b).op i).transA = if i = o then b else (g.op i).transA) ∧
    (((g.setTransA o b).op i).transB = (g.op i).transB) := by
  by_cases h : i = o <;> simp [setTransA, setOp, h]

/-- `setTransA` changes no tensor object and neither vector of the graph. -/
@[simp] theorem setTransA_frame (g : GraphObj) (o : Nat) (b : Bool) :
    (g.setTransA o b).tensor = g.tensor ∧ (g.setTransA o b).ops = g.ops ∧
    (g.setTransA o b).tensors = g.tensors ∧ (g.setTransA o b).sorted = g.sorted :=
  ⟨rfl, rfl, rfl, rfl⟩

/-- The operator objects after `setTransB`, field by field. -/
@[simp] theorem setTransB_op (g : GraphObj) (o : Nat) (b : Bool) (i : Nat) :
    (((g.setTransB o b).op i).opType = (g.op i).opType) ∧
    (((g.setTransB o b).op i).inputs = (g.op i).inputs) ∧
    (((g.setTransB o b).op i).outputs = (g.op i).outputs) ∧
    (((g.setTransB o b).op i).predecessors = (g.op i).predecessors) ∧
    (((g.setTransB o b).op i).successors = (g.op i).successors) ∧
    (((g.setTransB o b).op i).permute = (g.op i).permute) ∧
    (((g.setTransB o b).op i).transA = (g.op i).transA) ∧
    (((g.setTransB o b).op i).transB = if i = o then b else (g.op i).transB) := by
  by_cases h : i = o <;> simp [setTransB, setOp, h]

/-- `setTransB` changes no tensor object and neither vector of the graph. -/
@[simp] theorem setTransB_frame (g : GraphObj) (o : Nat) (b : Bool) :
    (g.setTransB o b).tensor = g.tensor ∧ (g.setTransB o b).ops = g.ops ∧
    (g.setTransB o b).tensors = g.tensors ∧ (g.setTransB o b).sorted = g.sorted :=
  ⟨rfl, rfl, rfl, rfl⟩

/-- The tensor objects after `addTarget`, field by field. -/
@[simp] theorem addTarget_tensor (g : GraphObj) (t op : Nat) (i : Nat) :
    (((g.addTarget t op).tensor i).fuid = (g.tensor i).fuid) ∧
    (((g.addTarget t op).tensor i).dims = (g.tensor i).dims) ∧
    (((g.addTarget t op).tensor i).source = (g.tensor i).source) ∧
    (((g.addTarget t op).tensor i).targets = if i = t then (g.tensor t).targets ++ [op] else (g.tensor i).targets) := by
  by_cases h : i = t <;> simp [addTarget, setTensor, h]

/-- `addTarget` changes no operator object and neither vector of the graph. -/
@[simp] theorem addTarget_frame (g : GraphObj) (t op : Nat) :
    (g.addTarget t op).op = g.op ∧ (g.addTarget t op).ops = g.ops ∧
    (g.addTarget t op).tensors = g.tensors ∧ (g.addTarget t op).sorted = g.sorted :=
  ⟨rfl, rfl, rfl, rfl⟩

/-- The tensor objects after `removeTarget`, field by field. -/
@[simp] theorem removeTarget_tensor (g : GraphObj) (t op : Nat) (i : Nat) :
    (((g.removeTarget t op).tensor i).fuid = (g.tensor i).fuid) ∧
    (((g.removeTarget t op).tensor i).dims = (g.tensor i).dims) ∧
    (((g.removeTarget t op).tensor i).source = (g.tensor i).source) ∧
    (((g.removeTarget t op).tensor i).targets = if i = t then (g.tensor t).targets.filter (fun o => o != op) else (g.tensor i).targets) := by
  by_cases h : i = t <;> simp [removeTarget, setTensor, h]

/-- `removeTarget` changes no operator object and neither vector of the graph. -/
@[simp] theorem removeTarget_frame (g : GraphObj) (t op : Nat) :
    (g.removeTarget t op).op = g.op ∧ (g.removeTarget t op).ops = g.ops ∧
    (g.removeTarget t op).tensors = g.tensors ∧ (g.removeTarget t op).sorted = g.sorted :=
  ⟨rfl, rfl, rfl, rfl⟩

/-- The tensor objects after `setSource`, field by field. -/
@[simp] theorem setSource_tensor (g : GraphObj) (t op : Nat) (i : Nat) :
    (((g.setSource t op).tensor i).fuid = (g.tensor i).fuid) ∧
    (((g.setSource t op).tensor i).dims = (g.tensor i).dims) ∧
    (((g.setSource t op).tensor i).source = if i = t then some op else (g.tensor i).source) ∧
    (((g.setSource t op).tensor i).targets = (g.tensor i).targets) := by
  by_cases h : i = t <;> simp [setSource, setTensor, h]

/-- `setSource` changes no operator object and neither vector of the graph. -/
@[simp] theorem setSource_frame (g : GraphObj) (t op : Nat) :
    (g.setSource t op).op = g.op ∧ (g.setSource t op).ops = g.ops ∧
    (g.setSource t op).tensors = g.tensors ∧ (g.setSource t op).sorted = g.sorted :=
  ⟨rfl, rfl, rfl, rfl⟩



/-- A projection that every step of a fold preserves is preserved by the fold. -/
theorem foldl_preserve {α β γ : Type} (f : α → β → α) (π : α → γ)
    (h : ∀ a b, π (f a b) = π a) (l : List β) (a : α) : π (l.foldl f a) = π a := by
  induction l generalizing a with
  | nil => rfl
  | cons b l ih => rw [List.foldl_cons, ih, h]

/-- A fold whose steps all leave the state `a` unchanged returns `a`. -/
theorem foldl_fixed {α β : Type} (f : α → β → α) (l : List β) (a : α)
    (h : ∀ b ∈ l, f a b = a) : l.foldl f a = a := by
  induction l with
  | nil => rfl
  | cons b l ih =>
    rw [List.foldl_cons, h b (List.mem_cons_self _ _)]
    exact ih (fun c hc => h c (List.mem_cons_of_mem _ hc))

theorem detachSuccessors_nil (v : Nat) (g : GraphObj) : detachSuccessors v [] g = g := rfl

theorem detachSuccessors_cons (v w : Nat) (ws : List Nat) (g : GraphObj) :
    detachSuccessors v (w :: ws) g =
      detachSuccessors v ws ((g.removeSuccessors v w).removePredecessors w v) := rfl

/-- The operator objects after step 2 of rewrite 1. -/
theorem detachSuccessors_op (v : Nat) (ws : List Nat) (g : GraphObj) (i : Nat) :
    ((detachSuccessors v ws g).op i).opType = (g.op i).opType ∧
    ((detachSuccessors v ws g).op i).inputs = (g.op i).inputs ∧
    ((detachSuccessors v ws g).op i).outputs = (g.op i).outputs ∧
    ((detachSuccessors v ws g).op i).predecessors =
      (if i ∈ ws then (g.op i).predecessors.filter (fun q => q != v)
       else (g.op i).predecessors) ∧
    ((detachSuccessors v ws g).op i).successors =
      (if i = v then (g.op i).successors.filter (fun q => !ws.contains q)
       else (g.op i).successors) ∧
    ((detachSuccessors v ws g).op i).permute = (g.op i).permute ∧
    ((detachSuccessors v ws g).op i).transA = (g.op i).transA ∧
    ((detachSuccessors v ws g).op i).transB = (g.op i).transB := by
  induction ws generalizing g with
  | nil => simp [detachSuccessors_nil]
  | cons w ws ih =>
    rw [detachSuccessors_cons]
    obtain ⟨h1, h2, h3, h4, h5, h6, h7, h8⟩ := ih ((g.removeSuccessors v w).removePredecessors w v)
    rw [h1, h2, h3, h4, h5, h6, h7, h8]
    simp only [removePredecessors_op, removeSuccessors_op, true_and, and_true]
    refine ⟨?_, ?_⟩
    · by_cases a : i = w <;> by_cases b : i ∈ ws <;> simp [a, b, List.filter_filter]
    · by_cases a : i = v
      · simp only [a, if_true, List.filter_filter]
        congr 1
        funext q
        by_cases c : q = w <;> simp [c]
      · simp [a]

/-- Step 2 of rewrite 1 changes no tensor object and neither vector of the graph. -/
theorem detachSuccessors_frame (v : Nat) (ws : List Nat) (g : GraphObj) :
    (detachSuccessors v ws g).tensor = g.tensor ∧ (detachSuccessors v ws g).ops = g.ops ∧
    (detachSuccessors v ws g).tensors = g.tensors ∧
    (detachSuccessors v ws g).sorted = g.sorted := by
  induction ws generalizing g with
  | nil => simp [detachSuccessors_nil]
  | cons w ws ih =>
    rw [detachSuccessors_cons]
    obtain ⟨h1, h2, h3, h4⟩ := ih ((g.removeSuccessors v w).removePredecessors w v)
    rw [h1, h2, h3, h4]
    simp

theorem sweepDetach_nil (p : Nat) (g : GraphObj) : sweepDetach p [] g = g := rfl

theorem sweepDetach_cons (p q : Nat) (ps : List Nat) (g : GraphObj) :
    sweepDetach p (q :: ps) g =
      sweepDetach p ps ((g.removeSuccessors q p).removePredecessors p q) := rfl

/-- The operator objects after the first loop of the clean-up. -/
theorem sweepDetach_op (p : Nat) (ps : List Nat) (g : GraphObj) (i : Nat) :
    ((sweepDetach p ps g).op i).opType = (g.op i).opType ∧
    ((sweepDetach p ps g).op i).inputs = (g.op i).inputs ∧
    ((sweepDetach p ps g).op i).outputs = (g.op i).outputs ∧
    ((sweepDetach p ps g).op i).predecessors =
      (if i = p then (g.op i).predecessors.filter (fun q => !ps.contains q)
       else (g.op i).predecessors) ∧
    ((sweepDetach p ps g).op i).successors =
      (if i ∈ ps then (g.op i).successors.filter (fun q => q != p)
       else (g.op i).successors) ∧
    ((sweepDetach p ps g).op i).permute = (g.op i).permute ∧
    ((sweepDetach p ps g).op i).transA = (g.op i).transA ∧
    ((sweepDetach p ps g).op i).transB = (g.op i).transB := by
  induction ps generalizing g with
  | nil => simp [sweepDetach_nil]
  | cons w ps ih =>
    rw [sweepDetach_cons]
    obtain ⟨h1, h2, h3, h4, h5, h6, h7, h8⟩ := ih ((g.removeSuccessors w p).removePredecessors p w)
    rw [h1, h2, h3, h4, h5, h6, h7, h8]
    simp only [removePredecessors_op, removeSuccessors_op, true_and, and_true]
    refine ⟨?_, ?_⟩
    · by_cases a : i = p
      · simp only [a, if_true, List.filter_filter]
        congr 1
        funext q
        by_cases c : q = w <;> simp [c]
      · simp [a]
    · by_cases a : i = w <;> by_cases b : i ∈ ps <;> simp [a, b, List.filter_filter]

/-- The first loop of the clean-up changes no tensor object and neither vector. -/
theorem sweepDetach_frame (p : Nat) (ps : List Nat) (g : GraphObj) :
    (sweepDetach p ps g).tensor = g.tensor ∧ (sweepDetach p ps g).ops = g.ops ∧
    (sweepDetach p ps g).tensors = g.tensors ∧ (sweepDetach p ps g).sorted = g.sorted := by
  induction ps generalizing g with
  | nil => simp [sweepDetach_nil]
  | cons w ps ih =>
    rw [sweepDetach_cons]
    obtain ⟨h1, h2, h3, h4⟩ := ih ((g.removeSuccessors w p).removePredecessors p w)
    rw [h1, h2, h3, h4]
    simp



theorem relinkSuccessors_nil (u z x : Nat) (g : GraphObj) :
    relinkSuccessors u z x [] g = g := rfl

theorem relinkSuccessors_cons_nil (u z x w : Nat) (ws : List Nat) (g : GraphObj)
    (h : (g.op u).predecessors = []) :
    relinkSuccessors u z x (w :: ws) g =
      relinkSuccessors u z x ws ((g.replaceInput w z x).addTarget x w) := by
  have e : ((g.replaceInput w z x).op u).predecessors = [] := by simp [h]
  simp only [relinkSuccessors, List.foldl_cons, e]

theorem relinkSuccessors_cons_cons (u z x w P : Nat) (rest ws : List Nat) (g : GraphObj)
    (h : (g.op u).predecessors = P :: rest) :
    relinkSuccessors u z x (w :: ws) g =
      relinkSuccessors u z x ws
        ((((g.replaceInput w z x).addPredecessors w P).addSuccessors P w).addTarget x w) := by
  have e : ((g.replaceInput w z x).op u).predecessors = P :: rest := by simp [h]
  simp only [relinkSuccessors, List.foldl_cons, e]

/-- The operator objects after step 3 of rewrite 1, when `curr_op` is not among the
successors that are relinked. -/
theorem relinkSuccessors_op (u z x : Nat) (ws : List Nat) (g : GraphObj) (hu : u ∉ ws)
    (i : Nat) :
    ((relinkSuccessors u z x ws g).op i).opType = (g.op i).opType ∧
    ((relinkSuccessors u z x ws g).op i).inputs =
      (if i ∈ ws then (g.op i).inputs.map (fun t => if t = z then x else t)
       else (g.op i).inputs) ∧
    ((relinkSuccessors u z x ws g).op i).outputs = (g.op i).outputs ∧
    ((relinkSuccessors u z x ws g).op i).predecessors =
      (g.op i).predecessors ++
        (match (g.op u).predecessors.head? with
         | none => []
         | some P => List.replicate (ws.count i) P) ∧
    ((relinkSuccessors u z x ws g).op i).successors =
      (g.op i).successors ++ (if (g.op u).predecessors.head? = some i then ws else []) ∧
    ((relinkSuccessors u z x ws g).op i).permute = (g.op i).permute ∧
    ((relinkSuccessors u z x ws g).op i).transA = (g.op i).transA ∧
    ((relinkSuccessors u z x ws g).op i).transB = (g.op i).transB := by
  induction ws generalizing g with
  | nil =>
    simp only [relinkSuccessors_nil, List.not_mem_nil, if_false, List.count_nil,
      List.replicate_zero, ite_self, List.append_nil, true_and, and_true]
    cases (g.op u).predecessors.head? <;> simp
  | cons w ws ih =>
    have huw : u ≠ w := fun h => hu (h ▸ List.mem_cons_self _ _)
    have hu2 : u ∉ ws := fun h => hu (List.mem_cons_of_mem _ h)
    cases hps : (g.op u).predecessors with
    | nil =>
      rw [relinkSuccessors_cons_nil u z x w ws g hps]
      obtain ⟨h1, h2, h3, h4, h5, h6, h7, h8⟩ := ih ((g.replaceInput w z x).addTarget x w) hu2
      rw [h1, h2, h3, h4, h5, h6, h7, h8]
      simp only [addTarget_frame, replaceInput_op, hps, List.head?_nil, List.append_nil,
        true_and, and_true, reduceCtorEq, if_false]
      by_cases a : i = w <;> by_cases b : i ∈ ws <;> simp [a, b]
      all_goals
        intro _ t _
        by_cases c : t = z <;> simp [c]
    | cons P rest =>
      rw [relinkSuccessors_cons_cons u z x w P rest ws g hps]
      obtain ⟨h1, h2, h3, h4, h5, h6, h7, h8⟩ :=
        ih ((((g.replaceInput w z x).addPredecessors w P).addSuccessors P w).addTarget x w) hu2
      rw [h1, h2, h3, h4, h5, h6, h7, h8]
      simp only [addTarget_frame, addSuccessors_op, addPredecessors_op, replaceInput_op, hps,
        List.head?_cons, true_and, and_true, huw, if_false, Option.some.injEq]
      refine ⟨?_, ?_, ?_⟩
      · by_cases a : i = w <;> by_cases b : i ∈ ws <;> simp [a, b]
        all_goals
          intro _ t _
          by_cases c : t = z <;> simp [c]
      · by_cases a : i = w
        · subst a
          simp [List.replicate_succ]
        · have : ¬ w = i := fun h => a h.symm
          simp [a, List.count_cons, this]
      · by_cases a : i = P
        · subst a
          simp
        · have : ¬ P = i := fun h => a h.symm
          simp [a, this]

/-- The tensor objects after step 3 of rewrite 1. -/
theorem relinkSuccessors_tensor (u z x : Nat) (ws : List Nat) (g : GraphObj) (i : Nat) :
    ((relinkSuccessors u z x ws g).tensor i).fuid = (g.tensor i).fuid ∧
    ((relinkSuccessors u z x ws g).tensor i).dims = (g.tensor i).dims ∧
    ((relinkSuccessors u z x ws g).tensor i).source = (g.tensor i).source ∧
    ((relinkSuccessors u z x ws g).tensor i).targets =
      (if i = x then (g.tensor i).targets ++ ws else (g.tensor i).targets) := by
  induction ws generalizing g with
  | nil => simp [relinkSuccessors_nil]
  | cons w ws ih =>
    cases hps : (g.op u).predecessors with
    | nil =>
      rw [relinkSuccessors_cons_nil u z x w ws g hps]
      obtain ⟨h1, h2, h3, h4⟩ := ih ((g.replaceInput w z x).addTarget x w)
      rw [h1, h2, h3, h4]
      by_cases a : i = x <;> simp [a]
    | cons P rest =>
      rw [relinkSuccessors_cons_cons u z x w P rest ws g hps]
      obtain ⟨h1, h2, h3, h4⟩ :=
        ih ((((g.replaceInput w z x).addPredecessors w P).addSuccessors P w).addTarget x w)
      rw [h1, h2, h3, h4]
      by_cases a : i = x <;> simp [a]

/-- Step 3 of rewrite 1 changes neither vector of the graph. -/
theorem relinkSuccessors_frame (u z x : Nat) (ws : List Nat) (g : GraphObj) :
    (relinkSuccessors u z x ws g).ops = g.ops ∧
    (relinkSuccessors u z x ws g).tensors = g.tensors ∧
    (relinkSuccessors u z x ws g).sorted = g.sorted := by
  induction ws generalizing g with
  | nil => simp [relinkSuccessors_nil]
  | cons w ws ih =>
    cases hps : (g.op u).predecessors with
    | nil =>
      rw [relinkSuccessors_cons_nil u z x w ws g hps]
      obtain ⟨h1, h2, h3⟩ := ih ((g.replaceInput w z x).addTarget x w)
      rw [h1, h2, h3]
      simp
    | cons P rest =>
      rw [relinkSuccessors_cons_cons u z x w P rest ws g hps]
      obtain ⟨h1, h2, h3⟩ :=
        ih ((((g.replaceInput w z x).addPredecessors w P).addSuccessors P w).addTarget x w)
      rw [h1, h2, h3]
      simp


end GraphObj

/-! ### Rewrite 1 on an isolated inverse pair -/


/-- A fold over a duplicate-free list whose only effective step is the one at `u`. -/
theorem foldl_single {α : Type} (f : α → Nat → α) (s0 s1 : α) (u : Nat) (l : List Nat)
    (hnd : l.Nodup) (hu : u ∈ l)
    (hother : ∀ o ∈ l, o ≠ u → f s0 o = s0 ∧ f s1 o = s1) (hat : f s0 u = s1) :
    l.foldl f s0 = s1 := by
  induction l with
  | nil => cases hu
  | cons a l ih =>
    have hnd2 := (List.nodup_cons.1 hnd)
    rw [List.foldl_cons]
    by_cases ha : a = u
    · subst ha
      rw [hat]
      refine foldl_fixed f l s1 (fun b hb => ?_)
      have hne : b ≠ a := fun h => hnd2.1 (h ▸ hb)
      exact (hother b (List.mem_cons_of_mem _ hb) hne).2
    · rw [(hother a (List.mem_cons_self _ _) ha).1]
      have hu2 : u ∈ l := by
        rcases List.mem_cons.1 hu with h | h
        · exact absurd h.symm ha
        · exact h
      exact ih hnd2.2 hu2 (fun o ho => hother o (List.mem_cons_of_mem _ ho))

/-- In a graph that passes `checkValid`, successors of operators in `ops` are in `ops`. -/
theorem checkValid_successors (g : GraphObj) (h : g.checkValid = true) (o : Nat)
    (ho : o ∈ g.ops) (s : Nat) (hs : s ∈ (g.op o).successors) : s ∈ g.ops := by
  unfold checkValid at h
  simp only [Bool.and_eq_true, List.all_eq_true] at h
  have := (h.1.2 o ho).2 s hs
  simpa using this

/-- An element of the removal list is absent after the erase loop. -/
theorem erase_fold_not_mem (rem : List Nat) (l : List Nat) (a : Nat) (ha : a ∈ rem) :
    a ∉ rem.foldl (fun ops op => ops.filter (fun o => o != op)) l := by
  induction rem generalizing l with
  | nil => cases ha
  | cons r rem ih =>
    rw [List.foldl_cons]
    rcases List.mem_cons.1 ha with h | h
    · subst h
      have hsub : ∀ (rem : List Nat) (l : List Nat), a ∉ l →
          a ∉ rem.foldl (fun ops op => ops.filter (fun o => o != op)) l := by
        intro rem
        induction rem with
        | nil => intro l hl; exact hl
        | cons r rem ih2 =>
          intro l hl
          rw [List.foldl_cons]
          exact ih2 _ (fun h => hl (List.mem_of_mem_filter h))
      exact hsub rem _ (by simp)
    · exact ih _ h

/-- The splice changes no operator kind. -/
theorem spliced_opType (g : GraphObj) (u v x y z : Nat) (hu : u ∉ (g.op v).successors) (i : Nat) :
    ((spliced g u v x y z).op i).opType = (g.op i).opType := by
  unfold spliced
  simp only [removeTarget_frame]
  rw [(relinkSuccessors_op u z x _ _ hu i).1, (detachSuccessors_op v _ _ i).1]
  simp

/-- The splice changes neither vector of the graph. -/
theorem spliced_ops (g : GraphObj) (u v x y z : Nat) :
    (spliced g u v x y z).ops = g.ops ∧ (spliced g u v x y z).tensors = g.tensors := by
  unfold spliced
  simp only [removeTarget_frame]
  rw [(relinkSuccessors_frame u z x _ _).1, (relinkSuccessors_frame u z x _ _).2.1,
    (detachSuccessors_frame v _ _).2.1, (detachSuccessors_frame v _ _).2.2.1]
  simp

/-- The splice changes no source. -/
theorem spliced_source (g : GraphObj) (u v x y z : Nat) (t : Nat) :
    ((spliced g u v x y z).tensor t).source = (g.tensor t).source := by
  unfold spliced
  simp only [removeTarget_tensor]
  rw [(relinkSuccessors_tensor u z x _ _ t).2.2.1, (detachSuccessors_frame v _ _).1]
  simp

/-- The targets of every tensor after the splice. -/
theorem spliced_targets (g : GraphObj) (u v x y z : Nat) (hxy : x ≠ y) (t : Nat) :
    ((spliced g u v x y z).tensor t).targets =
      if t = x then ((g.tensor x).targets ++ (g.op v).successors).filter (fun o => o != u)
      else if t = y then (g.tensor y).targets.filter (fun o => o != v)
      else (g.tensor t).targets := by
  unfold spliced
  simp only [removeTarget_tensor]
  by_cases h1 : t = x
  · subst h1
    simp only [if_true, hxy, if_false]
    rw [(relinkSuccessors_tensor u z t _ _ t).2.2.2, (detachSuccessors_frame v _ _).1]
    simp
  · by_cases h2 : t = y
    · subst h2
      simp only [h1, if_false, if_true]
      rw [(relinkSuccessors_tensor u z x _ _ t).2.2.2, (detachSuccessors_frame v _ _).1]
      simp [h1]
    · simp only [h1, h2, if_false]
      rw [(relinkSuccessors_tensor u z x _ _ t).2.2.2, (detachSuccessors_frame v _ _).1]
      simp [h1]



/-- The operator objects after the splice of rewrite 1, when `u` is not a successor of `v`. -/
theorem spliced_op (g : GraphObj) (u v x y z : Nat) (huv : u ≠ v)
    (hu : u ∉ (g.op v).successors) (i : Nat) :
    ((spliced g u v x y z).op i).inputs =
      (if i ∈ (g.op v).successors then (g.op i).inputs.map (fun t => if t = z then x else t)
       else (g.op i).inputs) ∧
    ((spliced g u v x y z).op i).predecessors =
      (if i ∈ (g.op v).successors then
          (if i = v then (g.op i).predecessors.filter (fun q => q != u)
           else (g.op i).predecessors).filter (fun q => q != v)
       else if i = v then (g.op i).predecessors.filter (fun q => q != u)
       else (g.op i).predecessors) ++
        (match (g.op u).predecessors.head? with
         | none => []
         | some P => List.replicate ((g.op v).successors.count i) P) ∧
    ((spliced g u v x y z).op i).successors =
      (if i = v then
          (if i = u then (g.op i).successors.filter (fun q => q != v)
           else (g.op i).successors).filter (fun q => !(g.op v).successors.contains q)
       else if i = u then (g.op i).successors.filter (fun q => q != v)
       else (g.op i).successors) ++
        (if (g.op u).predecessors.head? = some i then (g.op v).successors else []) := by
  have hpu : ((detachSuccessors v (g.op v).successors
      ((g.removeSuccessors u v).removePredecessors v u)).op u).predecessors =
      (g.op u).predecessors := by
    rw [(detachSuccessors_op v _ _ u).2.2.2.1]
    simp [hu, huv]
  unfold spliced
  simp only [removeTarget_frame]
  obtain ⟨_, h2, _, h4, h5, _⟩ := relinkSuccessors_op u z x (g.op v).successors
    (detachSuccessors v (g.op v).successors ((g.removeSuccessors u v).removePredecessors v u)) hu i
  rw [h2, h4, h5, hpu]
  obtain ⟨_, d2, _, d4, d5, _⟩ := detachSuccessors_op v (g.op v).successors
    ((g.removeSuccessors u v).removePredecessors v u) i
  rw [d2, d4, d5]
  simp only [removePredecessors_op, removeSuccessors_op]
  refine ⟨trivial, ?_, ?_⟩
  · by_cases a : i = v
    · subst a
      rfl
    · simp only [a, if_false]
  · by_cases a : i = u
    · subst a
      rfl
    · simp only [a, if_false]


/-- The inner-loop body of rewrite 1 at the pair `(u, v)` performs the splice. -/
theorem rewrite1Step_chain {g : GraphObj} {u v x y z : Nat} (h : InverseChain g u v x y z) :
    rewrite1Step u { g := g, remove_ops := [], remove_tensors := [], wait_for_cut := [] } v =
      splicedState g u v x y z := by
  have hty : ((spliced g u v x y z).tensor y).targets = [] := by
    rw [spliced_targets g u v x y z h.distinct.2.1 y]
    simp [Ne.symm h.distinct.2.1, h.y_targets]
  have htz : ((spliced g u v x y z).tensor z).targets ≠ [] := by
    rw [spliced_targets g u v x y z h.distinct.2.1 z]
    simp only [Ne.symm h.distinct.2.2.1, Ne.symm h.distinct.2.2.2, if_false]
    exact h.z_targets
  have e1 : ((spliced g u v x y z).tensor y).targets.isEmpty = true := by
    rw [hty]; rfl
  have e2 : ((spliced g u v x y z).tensor z).targets.isEmpty = false := by
    cases hz : ((spliced g u v x y z).tensor z).targets with
    | nil => exact absurd hz htz
    | cons a l => rfl
  unfold spliced at e1 e2
  unfold rewrite1Step splicedState spliced
  simp only [h.v_type, h.inverse, h.u_inputs, h.u_outputs, h.v_outputs, ne_eq, not_true_eq_false,
    if_false, Bool.not_true, Bool.false_eq_true, List.getD_cons_zero, e1, e2, if_true,
    List.nil_append]


section chain

variable {g : GraphObj} {u v x y z : Nat}

theorem InverseChain.u_not_succ (h : InverseChain g u v x y z) : u ∉ (g.op v).successors := by
  rw [h.v_successors]; exact h.acyclic.1

theorem InverseChain.head_ne (h : InverseChain g u v x y z) :
    (g.op u).predecessors.head? ≠ some u ∧ (g.op u).predecessors.head? ≠ some v := by
  rw [h.u_predecessors]
  cases hs : (g.tensor x).source with
  | none => simp
  | some P =>
    have h1 := h.acyclic.2.2.1
    have h2 := h.acyclic.2.2.2
    rw [hs] at h1 h2
    simp only [Option.toList, List.head?_cons, ne_eq]
    exact ⟨h1, h2⟩

theorem spliced_succ_u (h : InverseChain g u v x y z) :
    ((spliced g u v x y z).op u).successors = [] := by
  rw [(spliced_op g u v x y z h.distinct.1 h.u_not_succ u).2.2]
  simp [h.distinct.1, h.u_successors, h.head_ne.1]

theorem spliced_succ_v (h : InverseChain g u v x y z) :
    ((spliced g u v x y z).op v).successors = [] := by
  rw [(spliced_op g u v x y z h.distinct.1 h.u_not_succ v).2.2]
  simp [Ne.symm h.distinct.1, h.head_ne.2]

theorem spliced_pred_u (h : InverseChain g u v x y z) :
    ((spliced g u v x y z).op u).predecessors = (g.op u).predecessors := by
  rw [(spliced_op g u v x y z h.distinct.1 h.u_not_succ u).2.1]
  have hc : List.count u (g.op v).successors = 0 := List.count_eq_zero.2 h.u_not_succ
  simp only [h.u_not_succ, h.distinct.1, if_false, hc, List.replicate_zero]
  cases (g.op u).predecessors.head? <;> simp

theorem spliced_inputs_u (h : InverseChain g u v x y z) :
    ((spliced g u v x y z).op u).inputs = [x] := by
  rw [(spliced_op g u v x y z h.distinct.1 h.u_not_succ u).1]
  simp [h.u_not_succ, h.u_inputs]

/-- Operators that are neither `u` nor `v` and lie in `ops` are not Transposes; in
particular the consumers of `z`. -/
theorem InverseChain.consumer (h : InverseChain g u v x y z)
    (honly : ∀ o ∈ g.ops, (g.op o).opType = OpType.Transpose → o = u ∨ o = v)
    (w : Nat) (hw : w ∈ (g.tensor z).targets) :
    w ≠ u ∧ w ≠ v ∧ (g.op w).opType ≠ OpType.Transpose := by
  have h1 : w ≠ u := fun e => h.acyclic.1 (e ▸ hw)
  have h2 : w ≠ v := fun e => h.acyclic.2.1 (e ▸ hw)
  have hmem : w ∈ g.ops :=
    checkValid_successors g h.valid v h.v_mem w (by rw [h.v_successors]; exact hw)
  refine ⟨h1, h2, fun ht => ?_⟩
  rcases honly w hmem ht with e | e
  · exact h1 e
  · exact h2 e

/-- With `u` and `v` the only Transposes, the whole pass of rewrite 1 is the splice of
`(u, v)`. -/
theorem rewrite1_chain (h : InverseChain g u v x y z)
    (honly : ∀ o ∈ g.ops, (g.op o).opType = OpType.Transpose → o = u ∨ o = v) :
    rewrite1 { g := g, remove_ops := [], remove_tensors := [], wait_for_cut := [] } =
      splicedState g u v x y z := by
  unfold rewrite1
  refine foldl_single rewrite1Op _ _ u g.ops h.nodup h.u_mem ?_ ?_
  · intro o ho hou
    by_cases ht : (g.op o).opType = OpType.Transpose
    · have hov : o = v := by
        rcases honly o ho ht with e | e
        · exact absurd e hou
        · exact e
      subst hov
      refine ⟨?_, ?_⟩
      · unfold rewrite1Op
        simp only [ht, ne_eq, not_true_eq_false, if_false]
        refine foldl_fixed _ _ _ (fun w hw => ?_)
        rw [h.v_successors] at hw
        have := (h.consumer honly w hw).2.2
        simp [rewrite1Step, this]
      · unfold rewrite1Op
        simp only [splicedState, spliced_opType g u o x y z h.u_not_succ, ht, ne_eq,
          not_true_eq_false, if_false, spliced_succ_v h, List.foldl_nil]
    · refine ⟨?_, ?_⟩
      · simp [rewrite1Op, ht]
      · simp [rewrite1Op, splicedState, spliced_opType g u v x y z h.u_not_succ, ht]
  · unfold rewrite1Op
    simp only [h.u_type, ne_eq, not_true_eq_false, if_false, h.u_successors, List.foldl_cons,
      List.foldl_nil]
    exact rewrite1Step_chain h

/-- After the splice rewrite 2 finds nothing to fuse. -/
theorem rewrite2_chain (h : InverseChain g u v x y z)
    (honly : ∀ o ∈ g.ops, (g.op o).opType = OpType.Transpose → o = u ∨ o = v) :
    rewrite2 (splicedState g u v x y z) = splicedState g u v x y z := by
  unfold rewrite2
  refine foldl_fixed _ _ _ (fun o ho => ?_)
  have ho2 : o ∈ g.ops := by
    have := (spliced_ops g u v x y z).1
    simp only [splicedState] at ho
    rwa [this] at ho
  by_cases ht : (g.op o).opType = OpType.Transpose
  · rcases honly o ho2 ht with e | e
    · subst e
      unfold rewrite2Op
      simp only [splicedState, spliced_opType g o v x y z h.u_not_succ, ht, ne_eq,
        not_true_eq_false, if_false, spliced_succ_u h, List.foldl_nil]
    · subst e
      unfold rewrite2Op
      simp only [splicedState, spliced_opType g u o x y z h.u_not_succ, ht, ne_eq,
        not_true_eq_false, if_false, spliced_succ_v h, List.foldl_nil]
  · simp [rewrite2Op, splicedState, spliced_opType g u v x y z h.u_not_succ, ht]

/-- The clean-up of `y` removes its producer `u` and pushes nothing. -/
theorem sweepStep_chain (h : InverseChain g u v x y z)
    (honly : ∀ o ∈ g.ops, (g.op o).opType = OpType.Transpose → o = u ∨ o = v) :
    sweepStep { splicedState g u v x y z with wait_for_cut := [] } y = sweptState g u v x y z := by
  have hsrc : ((spliced g u v x y z).tensor y).source = some u := by
    rw [spliced_source, h.y_source]
  have hin : ((sweepDetach u (g.op u).predecessors (spliced g u v x y z)).op u).inputs = [x] := by
    rw [(sweepDetach_op u _ _ u).2.1, spliced_inputs_u h]
  obtain ⟨w0, hw0⟩ := List.exists_mem_of_ne_nil _ h.z_targets
  have hw0u : w0 ≠ u := (h.consumer honly w0 hw0).1
  have hne : (((sweepDetach u (g.op u).predecessors (spliced g u v x y z)).removeTarget x
      u).tensor x).targets.isEmpty = false := by
    have hmem : w0 ∈ (((sweepDetach u (g.op u).predecessors (spliced g u v x y z)).removeTarget x
        u).tensor x).targets := by
      simp only [removeTarget_tensor, if_true, (sweepDetach_frame u _ _).1]
      rw [spliced_targets g u v x y z h.distinct.2.1 x]
      simp only [if_true, List.mem_filter, List.mem_append, h.v_successors]
      exact ⟨⟨Or.inr hw0, by simpa using hw0u⟩, by simpa using hw0u⟩
    cases hl : (((sweepDetach u (g.op u).predecessors (spliced g u v x y z)).removeTarget x
        u).tensor x).targets with
    | nil => rw [hl] at hmem; cases hmem
    | cons a l => rfl
  unfold sweepStep sweptState
  simp only [splicedState, hsrc, spliced_pred_u h, hin, sweepInputs, List.foldl_cons,
    List.foldl_nil, hne, Bool.false_eq_true, if_false, List.cons_append, List.nil_append]

/-- The clean-up loop ends after one iteration. -/
theorem sweep_chain (h : InverseChain g u v x y z)
    (honly : ∀ o ∈ g.ops, (g.op o).opType = OpType.Transpose → o = u ∨ o = v) (fuel : Nat) :
    sweep (fuel + 1) (splicedState g u v x y z) = some (sweptState g u v x y z) := by
  have e : sweep (fuel + 1) (splicedState g u v x y z) =
      sweep fuel (sweepStep { splicedState g u v x y z with wait_for_cut := [] } y) := by
    simp [sweep, splicedState]
  rw [e, sweepStep_chain h honly]
  cases fuel with
  | zero => simp [sweep, sweptState]
  | succ n => simp [sweep, sweptState]

/-- The result of `optimize()` on an isolated inverse pair. -/
theorem optimize_chain (h : InverseChain g u v x y z)
    (honly : ∀ o ∈ g.ops, (g.op o).opType = OpType.Transpose → o = u ∨ o = v) (fuel : Nat) :
    g.optimize (fuel + 1) = some (eraseRemoved (sweptState g u v x y z)) := by
  unfold optimize
  have e : g.topo_sort = some (g, true) := by simp [topo_sort, h.sorted]
  rw [e]
  simp only
  rw [rewrite1_chain h honly, rewrite2_chain h honly, sweep_chain h honly]
  rfl

end chain

/-- C8 (amended): in a valid sorted graph whose only Transpose operators are `u` and `v`,
with the chain `x → u → y → v → z`, `isInverse(u, v)` true, `y` consumed only by `v` and
`z` consumed by at least one operator, `optimize()` returns and afterwards `u` and `v` are
absent from `ops`, `y` and `z` are absent from `tensors`, every former consumer `w` of `z`
has `x` in each input slot that held `z` (its other slots unchanged) and is among the
targets of `x`, and if `x` has a producer `P` then `P` is a predecessor of `w` and `w` a
successor of `P`. -/
theorem inverse_pair_eliminated (g : GraphObj) (u v x y z : Nat) (fuel : Nat)
    (h : InverseChain g u v x y z)
    (honly : ∀ o ∈ g.ops, (g.op o).opType = OpType.Transpose → o = u ∨ o = v) :
    ∃ g2, g.optimize (fuel + 1) = some g2 ∧
      u ∉ g2.ops ∧ v ∉ g2.ops ∧ y ∉ g2.tensors ∧ z ∉ g2.tensors ∧
      ∀ w ∈ (g.tensor z).targets,
        (g2.op w).inputs = (g.op w).inputs.map (fun t => if t = z then x else t) ∧
        w ∈ (g2.tensor x).targets ∧
        ∀ P, (g.tensor x).source = some P →
          P ∈ (g2.op w).predecessors ∧ w ∈ (g2.op P).successors := by
  refine ⟨_, optimize_chain h honly fuel, ?_, ?_, ?_, ?_, ?_⟩
  · exact erase_fold_not_mem _ _ u (by simp [sweptState])
  · exact erase_fold_not_mem _ _ v (by simp [sweptState])
  · exact erase_fold_not_mem _ _ y (by simp [sweptState])
  · exact erase_fold_not_mem _ _ z (by simp [sweptState])
  · intro w hw
    obtain ⟨hwu, hwv, _⟩ := h.consumer honly w hw
    have hws : w ∈ (g.op v).successors := by rw [h.v_successors]; exact hw
    have hop := spliced_op g u v x y z h.distinct.1 h.u_not_succ
    refine ⟨?_, ?_, ?_⟩
    · show (((sweepDetach u (g.op u).predecessors (spliced g u v x y z)).removeTarget x u).op
        w).inputs = _
      simp only [removeTarget_frame]
      rw [(sweepDetach_op u _ _ w).2.1, (hop w).1, if_pos hws]
    · show w ∈ (((sweepDetach u (g.op u).predecessors (spliced g u v x y z)).removeTarget x
        u).tensor x).targets
      simp only [removeTarget_tensor, if_true, (sweepDetach_frame u _ _).1]
      rw [spliced_targets g u v x y z h.distinct.2.1 x]
      simp only [if_true, List.mem_filter, List.mem_append]
      exact ⟨⟨Or.inr hws, by simpa using hwu⟩, by simpa using hwu⟩
    · intro P hP
      have hhead : (g.op u).predecessors.head? = some P := by
        rw [h.u_predecessors, hP]; rfl
      refine ⟨?_, ?_⟩
      · show P ∈ (((sweepDetach u (g.op u).predecessors (spliced g u v x y z)).removeTarget x
          u).op w).predecessors
        simp only [removeTarget_frame]
        rw [(sweepDetach_op u _ _ w).2.2.2.1, if_neg hwu, (hop w).2.1, hhead]
        refine List.mem_append_right _ ?_
        simp only [List.mem_replicate, ne_eq, and_true]
        exact fun hc => (List.count_eq_zero.1 hc) hws
      · show w ∈ (((sweepDetach u (g.op u).predecessors (spliced g u v x y z)).removeTarget x
          u).op P).successors
        simp only [removeTarget_frame]
        rw [(sweepDetach_op u _ _ P).2.2.2.2.1]
        have hin : w ∈ ((spliced g u v x y z).op P).successors := by
          rw [(hop P).2.2, hhead]
          refine List.mem_append_right _ ?_
          simp only [if_true]
          exact hws
        split
        · exact List.mem_filter.2 ⟨hin, by simpa using hwu⟩
        · exact hin

/-- Witness for C8, scenario S1: `x(0) → Transpose(op 0) → y(1) → Transpose(op 1) → z(2) →
Relu(op 2) → out(3)`; after `optimize()` only the Relu is left and it reads `x`. -/
theorem inverse_pair_eliminated_S1 :
    (∃ g2, graphS1Sorted.optimize 1 = some g2 ∧
      0 ∉ g2.ops ∧ 1 ∉ g2.ops ∧ 1 ∉ g2.tensors ∧ 2 ∉ g2.tensors ∧
      ∀ w ∈ (graphS1Sorted.tensor 2).targets,
        (g2.op w).inputs = (graphS1Sorted.op w).inputs.map (fun t => if t = 2 then 0 else t) ∧
        w ∈ (g2.tensor 0).targets ∧
        ∀ P, (graphS1Sorted.tensor 0).source = some P →
          P ∈ (g2.op w).predecessors ∧ w ∈ (g2.op P).successors) ∧
    graphS1.topo_sort.map (fun r => (r.1.ops, r.1.sorted, r.2)) = some ([0, 1, 2], true, true) ∧
    (graphS1.optimize 1).map (fun g => (g.ops, g.tensors, (g.op 2).inputs, g.checkValid)) =
      some ([2], [0, 3], [0], true) :=
  ⟨inverse_pair_eliminated graphS1Sorted 0 1 0 1 2 0
    { sorted := rfl, valid := by decide, nodup := by decide, u_mem := by decide,
      v_mem := by decide, u_type := rfl, v_type := rfl, inverse := by decide, u_inputs := rfl,
      u_outputs := rfl, v_inputs := rfl, v_outputs := rfl, distinct := by decide,
      y_source := rfl, y_targets := rfl, u_successors := rfl, z_targets := by decide,
      v_successors := rfl, u_predecessors := rfl, acyclic := by decide }
    (by decide), by decide, by decide⟩

/-- Scenario S3: the Transpose is removed and the MatMul reads `(a, b)` with `transA` set. -/
theorem fusion_S3 :
    (graphS3.optimize 1).map (fun g =>
        (g.ops, g.tensors, (g.op 1).inputs, (g.op 1).predecessors, (g.op 1).transA,
          (g.op 1).transB, g.checkValid)) =
      some ([1], [0, 2, 3], [0, 2], [], true, false, true) := by
  rfl

/-- Counterexample to C8 as stated: in `graphThree` the Transposes `op 1` and `op 2` form
a chain `x(1) → op 1 → y(2) → op 2 → z(3)` with `isInverse` true, `y` consumed only by
`op 2` and `z` consumed by the Relu; after `optimize()` `op 2` is still in `ops`, `z` is
still in `tensors` and the Relu still reads `z`, because the pass had already spliced the
pair `(op 0, op 1)`. -/
theorem third_transpose_survives :
    graphThree.checkValid = true ∧
    ((graphThree.op 1).opType, (graphThree.op 1).inputs, (graphThree.op 1).outputs) =
      (OpType.Transpose, [1], [2]) ∧
    ((graphThree.op 2).opType, (graphThree.op 2).inputs, (graphThree.op 2).outputs) =
      (OpType.Transpose, [2], [3]) ∧
    isInverse (graphThree.op 1).permute (graphThree.op 2).permute = true ∧
    (graphThree.tensor 2).targets = [2] ∧ (graphThree.tensor 3).targets = [3] ∧
    (graphThree.optimize 5).map (fun g => (g.ops, g.tensors, (g.op 3).inputs)) =
      some ([2, 3], [0, 3, 4], [3]) := by
  decide

end infini

/-! ### Rewrite 2: fusion of a Transpose into a MatMul -/

namespace infini
namespace GraphObj

/-- The operator objects after the fusion steps of rewrite 2. -/
theorem fuseInto_op (t s : Nat) (g : GraphObj) (i : Nat) :
    ((fuseInto t s g).op i).opType = (g.op i).opType ∧
    ((fuseInto t s g).op i).inputs =
      (if i = s then (g.op i).inputs.map (fun τ =>
          if τ = (g.op t).outputs.getD 0 0 then (g.op t).inputs.getD 0 0 else τ)
       else (g.op i).inputs) ∧
    ((fuseInto t s g).op i).outputs = (g.op i).outputs ∧
    ((fuseInto t s g).op i).permute = (g.op i).permute ∧
    (i ≠ s → ((fuseInto t s g).op i).predecessors = (g.op i).predecessors) ∧
    (i ≠ s → ((fuseInto t s g).op i).transA = (g.op i).transA) ∧
    (i ≠ s → ((fuseInto t s g).op i).transB = (g.op i).transB) := by
  unfold fuseInto
  simp only
  generalize (g.op t).inputs.getD 0 0 = x
  generalize (g.op t).outputs.getD 0 0 = out
  generalize ((g.op s).inputs[0]? == some out) = a
  cases a <;> by_cases h : i = s <;> simp [h]

/-- The fused MatMul after the fusion steps of rewrite 2, for `t ≠ s`. -/
theorem fuseInto_target (t s : Nat) (g : GraphObj) (hts : t ≠ s) :
    ((fuseInto t s g).op s).predecessors = (g.op s).predecessors.filter (fun q => q != t) ∧
    ((fuseInto t s g).op s).transA =
      (if (g.op s).inputs[0]? == some ((g.op t).outputs.getD 0 0) then !(g.op s).transA
       else (g.op s).transA) ∧
    ((fuseInto t s g).op s).transB =
      (if (g.op s).inputs[0]? == some ((g.op t).outputs.getD 0 0) then (g.op s).transB
       else !(g.op s).transB) := by
  have hst : ¬ s = t := fun h => hts h.symm
  unfold fuseInto
  simp only
  generalize (g.op t).inputs.getD 0 0 = x
  generalize (g.op t).outputs.getD 0 0 = out
  generalize ((g.op s).inputs[0]? == some out) = a
  cases a <;> simp [hst]

/-- The tensor objects after the fusion steps of rewrite 2. -/
theorem fuseInto_tensor (t s : Nat) (g : GraphObj) (i : Nat) :
    ((fuseInto t s g).tensor i).source = (g.tensor i).source ∧
    ((fuseInto t s g).tensor i).fuid = (g.tensor i).fuid ∧
    ((fuseInto t s g).tensor i).targets =
      (if i = (g.op t).outputs.getD 0 0 then (g.tensor i).targets.filter (fun o => o != s)
       else (g.tensor i).targets) ++
      (if i = (g.op t).inputs.getD 0 0 then [s] else []) := by
  unfold fuseInto
  simp only
  generalize (g.op t).inputs.getD 0 0 = x
  generalize (g.op t).outputs.getD 0 0 = out
  generalize ((g.op s).inputs[0]? == some out) = a
  cases a <;> by_cases h1 : i = x <;> by_cases h2 : i = out <;>
    (try subst h1) <;> (try subst h2) <;> simp_all

/-- The fusion steps change neither vector of the graph. -/
theorem fuseInto_frame (t s : Nat) (g : GraphObj) :
    (fuseInto t s g).ops = g.ops ∧ (fuseInto t s g).tensors = g.tensors ∧
    (fuseInto t s g).sorted = g.sorted := by
  unfold fuseInto
  simp only
  generalize (g.op t).inputs.getD 0 0 = x
  generalize (g.op t).outputs.getD 0 0 = out
  generalize ((g.op s).inputs[0]? == some out) = a
  cases a <;> simp

end GraphObj
end infini

namespace infini
open GraphObj

/-- A step of rewrite 2 either skips or performs the fusion steps and possibly pushes the
output of the Transpose. -/
theorem rewrite2Step_cases (t : Nat) (st : OptState) (s : Nat) :
    rewrite2Step t st s = st ∨
    ((st.g.op s).opType = OpType.MatMul ∧ isTransMat (st.g.op t).permute = 1 ∧
      ((st.g.op s).inputs[0]? = some ((st.g.op t).outputs.getD 0 0) ∨
        (st.g.op s).inputs[1]? = some ((st.g.op t).outputs.getD 0 0)) ∧
      ∃ w, (w = st.wait_for_cut ∨ w = st.wait_for_cut ++ [(st.g.op t).outputs.getD 0 0]) ∧
        rewrite2Step t st s = { st with g := fuseInto t s st.g, wait_for_cut := w }) := by
  unfold rewrite2Step
  simp only
  by_cases h1 : (st.g.op s).opType = OpType.MatMul
  · by_cases h2 : isTransMat (st.g.op t).permute = 1
    · by_cases h3 : (!((st.g.op s).inputs[0]? == some ((st.g.op t).outputs.getD 0 0)) &&
          !((st.g.op s).inputs[1]? == some ((st.g.op t).outputs.getD 0 0))) = true
      · left
        simp only [h1, h2, h3, ne_eq, not_true_eq_false, if_false, if_true]
      · right
        refine ⟨h1, h2, ?_, ?_⟩
        · simp only [Bool.and_eq_true, Bool.not_eq_true', beq_eq_false_iff_ne, ne_eq,
            not_and, not_not] at h3
          by_cases ha : (st.g.op s).inputs[0]? = some ((st.g.op t).outputs.getD 0 0)
          · exact Or.inl ha
          · exact Or.inr (h3 ha)
        · simp only [h1, h2, h3, ne_eq, not_true_eq_false, if_false, Bool.false_eq_true]
          split
          · exact ⟨_, Or.inr rfl, rfl⟩
          · exact ⟨_, Or.inl rfl, rfl⟩
    · left
      simp [h1, h2]
  · left
    simp [h1]

section fusion

variable {g : GraphObj} {t m x out : Nat}

theorem FuseInv.out_eq {st : OptState} (h : FuseInv g t x out st) :
    (st.g.op t).outputs.getD 0 0 = out ∧ (st.g.op t).inputs.getD 0 0 = x := by
  rw [h.t_outputs, h.t_inputs]
  exact ⟨rfl, rfl⟩

theorem FuseInv.step {st : OptState} (h : FuseInv g t x out st) (s : Nat) (hs : s ≠ t) :
    FuseInv g t x out (rewrite2Step t st s) := by
  rcases rewrite2Step_cases t st s with e | ⟨_, _, _, w, hw, e⟩
  · rw [e]; exact h
  · rw [e]
    have hts : ¬ t = s := fun e => hs e.symm
    refine ⟨?_, ?_, ?_, ?_, ?_, ?_, ?_⟩
    · intro o
      show ((fuseInto t s st.g).op o).opType = _
      rw [(fuseInto_op t s st.g o).1, h.opType]
    · show ((fuseInto t s st.g).op t).inputs = _
      rw [(fuseInto_op t s st.g t).2.1, if_neg hts, h.t_inputs]
    · show ((fuseInto t s st.g).op t).outputs = _
      rw [(fuseInto_op t s st.g t).2.2.1, h.t_outputs]
    · show ((fuseInto t s st.g).op t).permute = _
      rw [(fuseInto_op t s st.g t).2.2.2.1, h.t_permute]
    · intro τ
      show ((fuseInto t s st.g).tensor τ).source = _
      rw [(fuseInto_tensor t s st.g τ).1, h.source]
    · show (fuseInto t s st.g).ops = _
      rw [(fuseInto_frame t s st.g).1, h.ops]
    · intro y hy
      show y = out
      rcases hw with rfl | rfl
      · exact h.wait y hy
      · rcases List.mem_append.1 hy with h1 | h1
        · exact h.wait y h1
        · simp only [List.mem_singleton] at h1
          rw [h1, h.out_eq.1]

theorem Unfused.skip {st : OptState} (hu : Unfused g m st) (s : Nat) (hs : s ≠ m) :
    Unfused g m (rewrite2Step t st s) := by
  rcases rewrite2Step_cases t st s with e | ⟨_, _, _, w, _, e⟩
  · rw [e]; exact hu
  · rw [e]
    have hms : m ≠ s := fun e => hs e.symm
    obtain ⟨_, h2, _, _, _, h6, h7⟩ := fuseInto_op t s st.g m
    refine ⟨?_, ?_, ?_⟩
    · show ((fuseInto t s st.g).op m).inputs = _
      rw [h2, if_neg hms, hu.1]
    · show ((fuseInto t s st.g).op m).transA = _
      rw [h6 hms, hu.2.1]
    · show ((fuseInto t s st.g).op m).transB = _
      rw [h7 hms, hu.2.2]

/-- No slot of a list in which `out` was replaced by `x ≠ out` holds `out`. -/
theorem replaced_ne (l : List Nat) (x out : Nat) (hx : x ≠ out) (i : Nat) :
    (l.map (fun τ => if τ = out then x else τ))[i]? ≠ some out := by
  rw [List.getElem?_map]
  cases l[i]? with
  | none => simp
  | some a =>
    simp only [Option.map_some', ne_eq, Option.some.injEq]
    by_cases h : a = out
    · simp [h, hx]
    · simp [h]

theorem Fused.stay (hsite : FusionSite g t m x out) {st : OptState}
    (h : FuseInv g t x out st) (hf : Fused g t m x out st) (s : Nat) :
    Fused g t m x out (rewrite2Step t st s) := by
  rcases rewrite2Step_cases t st s with e | ⟨_, _, hslot, w, _, e⟩
  · rw [e]; exact hf
  · by_cases hs : s = m
    · subst hs
      exfalso
      rw [h.out_eq.1, hf.1] at hslot
      rcases hslot with h1 | h1
      · exact replaced_ne _ x out hsite.x_ne_out 0 h1
      · exact replaced_ne _ x out hsite.x_ne_out 1 h1
    · rw [e]
      have hms : m ≠ s := fun e => hs e.symm
      obtain ⟨_, h2, _, _, h5, h6, h7⟩ := fuseInto_op t s st.g m
      refine ⟨?_, ?_, ?_, ?_, ?_⟩
      · show ((fuseInto t s st.g).op m).inputs = _
        rw [h2, if_neg hms, hf.1]
      · show ((fuseInto t s st.g).op m).transA = _
        rw [h6 hms, hf.2.1]
      · show ((fuseInto t s st.g).op m).transB = _
        rw [h7 hms, hf.2.2.1]
      · show t ∉ ((fuseInto t s st.g).op m).predecessors
        rw [h5 hms]
        exact hf.2.2.2.1
      · show m ∈ ((fuseInto t s st.g).tensor x).targets
        rw [(fuseInto_tensor t s st.g x).2.2, h.out_eq.1, if_neg hsite.x_ne_out]
        exact List.mem_append_left _ hf.2.2.2.2

theorem FusionSite.m_ne_t (hsite : FusionSite g t m x out) : m ≠ t := by
  intro e
  have h1 := hsite.m_type
  rw [e, hsite.t_type] at h1
  cases h1

theorem Unfused.fuse (hsite : FusionSite g t m x out) {st : OptState}
    (h : FuseInv g t x out st) (hu : Unfused g m st) :
    Fused g t m x out (rewrite2Step t st m) := by
  have hmt := hsite.m_ne_t
  have htm : t ≠ m := fun e => hmt e.symm
  have hslot := hsite.m_slot
  have hnot : (!((g.op m).inputs[0]? == some out) && !((g.op m).inputs[1]? == some out)) =
      false := by
    cases ha : ((g.op m).inputs[0]? == some out) <;>
      cases hb : ((g.op m).inputs[1]? == some out) <;> rw [ha, hb] at hslot
    · exact absurd rfl hslot
    · rfl
    · rfl
    · exact absurd rfl hslot
  have e : (rewrite2Step t st m).g = fuseInto t m st.g := by
    unfold rewrite2Step
    simp only [h.opType, hsite.m_type, h.t_permute, hsite.trans_mat, h.out_eq.1, hu.1, ne_eq,
      not_true_eq_false, if_false, hnot, Bool.false_eq_true]
  unfold Fused
  rw [e]
  obtain ⟨_, h2, _⟩ := fuseInto_op t m st.g m
  obtain ⟨h5, h6, h7⟩ := fuseInto_target t m st.g htm
  rw [h2, h5, h6, h7, (fuseInto_tensor t m st.g x).2.2, h.out_eq.1, h.out_eq.2, hu.1, hu.2.1,
    hu.2.2]
  refine ⟨by simp, ?_, ?_, ?_, by simp⟩
  · cases ((g.op m).inputs[0]? == some out) <;> simp
  · cases ha : ((g.op m).inputs[0]? == some out) <;>
      cases hb : ((g.op m).inputs[1]? == some out) <;> rw [ha, hb] at hslot
    · exact absurd rfl hslot
    · simp
    · simp
    · exact absurd rfl hslot
  · intro hmem
    have := (List.mem_filter.1 hmem).2
    simp at this

end fusion
end infini

namespace infini
open GraphObj

section fusion

variable {g : GraphObj} {t m x out : Nat}

/-- The inner loop of rewrite 2 at `t` over a list of successors. -/
theorem fuse_fold (hsite : FusionSite g t m x out) (l : List Nat) (hl : ∀ s ∈ l, s ≠ t)
    (st : OptState) (h : FuseInv g t x out st) :
    FuseInv g t x out (l.foldl (rewrite2Step t) st) ∧
    (Fused g t m x out st → Fused g t m x out (l.foldl (rewrite2Step t) st)) ∧
    (Unfused g m st → m ∈ l → Fused g t m x out (l.foldl (rewrite2Step t) st)) ∧
    (l.foldl (rewrite2Step t) st).remove_ops = st.remove_ops ∧
    (l.foldl (rewrite2Step t) st).remove_tensors = st.remove_tensors ∧
    (l.foldl (rewrite2Step t) st).wait_for_cut.length ≤ st.wait_for_cut.length + l.length := by
  induction l generalizing st with
  | nil =>
    refine ⟨h, fun hf => hf, fun _ hm => ?_, rfl, rfl, Nat.le_add_right _ _⟩
    cases hm
  | cons s l ih =>
    have hs : s ≠ t := hl s (List.mem_cons_self _ _)
    have hl2 : ∀ s ∈ l, s ≠ t := fun a ha => hl a (List.mem_cons_of_mem _ ha)
    obtain ⟨i1, i2, i3, i4, i5, i6⟩ := ih hl2 (rewrite2Step t st s) (h.step s hs)
    have hstep : (rewrite2Step t st s).remove_ops = st.remove_ops ∧
        (rewrite2Step t st s).remove_tensors = st.remove_tensors ∧
        (rewrite2Step t st s).wait_for_cut.length ≤ st.wait_for_cut.length + 1 := by
      rcases rewrite2Step_cases t st s with e | ⟨_, _, _, w, hw, e⟩
      · rw [e]; exact ⟨rfl, rfl, by omega⟩
      · rw [e]
        refine ⟨rfl, rfl, ?_⟩
        rcases hw with rfl | rfl
        · show st.wait_for_cut.length ≤ _
          omega
        · show (st.wait_for_cut ++ [_]).length ≤ _
          simp
    simp only [List.foldl_cons]
    refine ⟨i1, ?_, ?_, ?_, ?_, ?_⟩
    · intro hf
      exact i2 (hf.stay hsite h s)
    · intro hu hm
      by_cases hsm : s = m
      · subst hsm
        exact i2 (hu.fuse hsite h)
      · have hm2 : m ∈ l := by
          rcases List.mem_cons.1 hm with e | e
          · exact absurd e.symm hsm
          · exact e
        exact i3 (hu.skip s hsm) hm2
    · rw [i4, hstep.1]
    · rw [i5, hstep.2.1]
    · have := hstep.2.2
      simp only [List.length_cons]
      omega

/-- In a graph that passes `checkValid`, the successors of `t` other than `t` are not
Transposes when `t` is the only Transpose. -/
theorem FusionSite.succ_type (hsite : FusionSite g t m x out) (s : Nat)
    (hs : s ∈ (g.op t).successors) : s ≠ t ∧ (g.op s).opType ≠ OpType.Transpose := by
  have h1 : s ≠ t := fun e => hsite.acyclic (e ▸ hs)
  refine ⟨h1, fun ht => h1 ?_⟩
  exact hsite.only s (checkValid_successors g hsite.valid t hsite.t_mem s hs) ht

/-- With `t` the only Transpose, rewrite 1 changes nothing. -/
theorem rewrite1_site (hsite : FusionSite g t m x out) :
    rewrite1 { g := g, remove_ops := [], remove_tensors := [], wait_for_cut := [] } =
      { g := g, remove_ops := [], remove_tensors := [], wait_for_cut := [] } := by
  unfold rewrite1
  refine foldl_fixed _ _ _ (fun o ho => ?_)
  unfold rewrite1Op
  by_cases ht : (g.op o).opType = OpType.Transpose
  · have hot : o = t := hsite.only o ho ht
    subst hot
    simp only [ht, ne_eq, not_true_eq_false, if_false]
    refine foldl_fixed _ _ _ (fun s hs => ?_)
    have := (hsite.succ_type s hs).2
    simp [rewrite1Step, this]
  · simp [ht]

theorem FuseInv.init (hsite : FusionSite g t m x out) :
    FuseInv g t x out { g := g, remove_ops := [], remove_tensors := [], wait_for_cut := [] } :=
  ⟨fun _ => rfl, hsite.t_inputs, hsite.t_outputs, rfl, fun _ => rfl, rfl,
    fun e he => by cases he⟩

/-- With `t` the only Transpose, the pass of rewrite 2 is the inner loop at `t`. -/
theorem rewrite2_site (hsite : FusionSite g t m x out) :
    rewrite2 { g := g, remove_ops := [], remove_tensors := [], wait_for_cut := [] } =
      (g.op t).successors.foldl (rewrite2Step t)
        { g := g, remove_ops := [], remove_tensors := [], wait_for_cut := [] } := by
  have hinv := (fuse_fold hsite (g.op t).successors (fun s hs => (hsite.succ_type s hs).1) _
    (FuseInv.init hsite)).1
  unfold rewrite2
  refine foldl_single rewrite2Op _ _ t g.ops hsite.nodup hsite.t_mem ?_ ?_
  · intro o ho hot
    have ht : (g.op o).opType ≠ OpType.Transpose := fun e => hot (hsite.only o ho e)
    refine ⟨?_, ?_⟩
    · simp [rewrite2Op, ht]
    · unfold rewrite2Op
      rw [hinv.opType]
      simp [ht]
  · unfold rewrite2Op
    simp only [hsite.t_type, ne_eq, not_true_eq_false, if_false]

end fusion
end infini

namespace infini
open GraphObj

section fusion

variable {g : GraphObj} {t m x out : Nat}

/-- One iteration of the clean-up loop on `out` after the fusion of `m`: the producer `t`
is detached and marked, nothing is pushed, and `m` stays as fused. -/
theorem sweepStep_site (hsite : FusionSite g t m x out) {st : OptState}
    (h : FuseInv g t x out st) (hf : Fused g t m x out st) :
    FuseInv g t x out (sweepStep st out) ∧ Fused g t m x out (sweepStep st out) ∧
    (sweepStep st out).wait_for_cut = st.wait_for_cut := by
  have hmt := hsite.m_ne_t
  have hsrc : (st.g.tensor out).source = some t := by rw [h.source, hsite.out_source]
  have hin : ((sweepDetach t (st.g.op t).predecessors st.g).op t).inputs = [x] := by
    rw [(sweepDetach_op t _ _ t).2.1, h.t_inputs]
  have hmem : m ∈ (((sweepDetach t (st.g.op t).predecessors st.g).removeTarget x t).tensor
      x).targets := by
    simp only [removeTarget_tensor, if_true, (sweepDetach_frame t _ _).1]
    exact List.mem_filter.2 ⟨hf.2.2.2.2, by simpa using hmt⟩
  have hne : (((sweepDetach t (st.g.op t).predecessors st.g).removeTarget x t).tensor
      x).targets.isEmpty = false := by
    cases hl : (((sweepDetach t (st.g.op t).predecessors st.g).removeTarget x t).tensor
        x).targets with
    | nil => rw [hl] at hmem; cases hmem
    | cons a l => rfl
  have e : sweepStep st out =
      { g := (sweepDetach t (st.g.op t).predecessors st.g).removeTarget x t,
        remove_ops := st.remove_ops ++ [t], remove_tensors := st.remove_tensors ++ [out],
        wait_for_cut := st.wait_for_cut } := by
    unfold sweepStep
    simp only [hsrc, hin, sweepInputs, List.foldl_cons, List.foldl_nil, hne,
      Bool.false_eq_true, if_false]
  rw [e]
  refine ⟨⟨?_, ?_, ?_, ?_, ?_, ?_, h.wait⟩, ⟨?_, ?_, ?_, ?_, hmem⟩, rfl⟩
  · intro o
    show (((sweepDetach t (st.g.op t).predecessors st.g).removeTarget x t).op o).opType = _
    simp only [removeTarget_frame]
    rw [(sweepDetach_op t _ _ o).1, h.opType]
  · show (((sweepDetach t (st.g.op t).predecessors st.g).removeTarget x t).op t).inputs = _
    simp only [removeTarget_frame]
    exact hin
  · show (((sweepDetach t (st.g.op t).predecessors st.g).removeTarget x t).op t).outputs = _
    simp only [removeTarget_frame]
    rw [(sweepDetach_op t _ _ t).2.2.1, h.t_outputs]
  · show (((sweepDetach t (st.g.op t).predecessors st.g).removeTarget x t).op t).permute = _
    simp only [removeTarget_frame]
    rw [(sweepDetach_op t _ _ t).2.2.2.2.2.1, h.t_permute]
  · intro τ
    show (((sweepDetach t (st.g.op t).predecessors st.g).removeTarget x t).tensor τ).source = _
    simp only [removeTarget_tensor, (sweepDetach_frame t _ _).1]
    exact h.source τ
  · show ((sweepDetach t (st.g.op t).predecessors st.g).removeTarget x t).ops = _
    simp only [removeTarget_frame]
    rw [(sweepDetach_frame t _ _).2.1, h.ops]
  · show (((sweepDetach t (st.g.op t).predecessors st.g).removeTarget x t).op m).inputs = _
    simp only [removeTarget_frame]
    rw [(sweepDetach_op t _ _ m).2.1, hf.1]
  · show (((sweepDetach t (st.g.op t).predecessors st.g).removeTarget x t).op m).transA = _
    simp only [removeTarget_frame]
    rw [(sweepDetach_op t _ _ m).2.2.2.2.2.2.1, hf.2.1]
  · show (((sweepDetach t (st.g.op t).predecessors st.g).removeTarget x t).op m).transB = _
    simp only [removeTarget_frame]
    rw [(sweepDetach_op t _ _ m).2.2.2.2.2.2.2, hf.2.2.1]
  · show t ∉ (((sweepDetach t (st.g.op t).predecessors st.g).removeTarget x t).op
      m).predecessors
    simp only [removeTarget_frame]
    rw [(sweepDetach_op t _ _ m).2.2.2.1, if_neg hmt]
    exact hf.2.2.2.1

/-- The clean-up loop after the fusion of `m` ends within as many iterations as
`wait_for_cut` has entries, and `m` stays as fused. -/
theorem sweep_site (hsite : FusionSite g t m x out) (k : Nat) :
    ∀ (n : Nat) (st : OptState), st.wait_for_cut.length = k → FuseInv g t x out st →
      Fused g t m x out st →
      ∃ st2, sweep (k + n) st = some st2 ∧ Fused g t m x out st2 := by
  induction k with
  | zero =>
    intro n st hk _ hf
    have hw : st.wait_for_cut = [] := List.length_eq_zero.1 hk
    refine ⟨st, ?_, hf⟩
    cases n with
    | zero => simp [sweep, hw]
    | succ n => simp [sweep, hw]
  | succ k ih =>
    intro n st hk h hf
    have hne : st.wait_for_cut ≠ [] := by
      intro e
      rw [e] at hk
      cases hk
    have hlast : st.wait_for_cut.getLast? = some out := by
      rw [List.getLast?_eq_getLast _ hne]
      exact congrArg some (h.wait _ (List.getLast_mem hne))
    have e : sweep (k + 1 + n) st =
        sweep (k + n) (sweepStep { st with wait_for_cut := st.wait_for_cut.dropLast } out) := by
      have e1 : k + 1 + n = (k + n) + 1 := by omega
      rw [e1]
      simp only [sweep, hlast]
    have h2 : FuseInv g t x out { st with wait_for_cut := st.wait_for_cut.dropLast } :=
      ⟨h.opType, h.t_inputs, h.t_outputs, h.t_permute, h.source, h.ops,
        fun y hy => h.wait y (List.mem_of_mem_dropLast hy)⟩
    have hf2 : Fused g t m x out { st with wait_for_cut := st.wait_for_cut.dropLast } := hf
    obtain ⟨s1, s2, s3⟩ := sweepStep_site hsite h2 hf2
    have hlen : (sweepStep { st with wait_for_cut := st.wait_for_cut.dropLast }
        out).wait_for_cut.length = k := by
      rw [s3]
      show st.wait_for_cut.dropLast.length = k
      rw [List.length_dropLast, hk]
      rfl
    rw [e]
    exact ih n _ hlen s1 s2

end fusion

/-- C9 (amended): in a valid sorted graph whose only Transpose is `t`, with
`isTransMat(t) == 1`, input `x`, output `out`, and a MatMul successor `m` that holds `out` in
exactly one of its first two input slots, `optimize()` returns (the clean-up ends within as
many iterations as `t` has successors), and afterwards every input slot of `m` that held
`out` holds `x`, `transA` is flipped exactly when `out` was `inputs[0]`, `transB` is flipped
exactly when `out` was `inputs[1]`, and `t` is not a predecessor of `m`. -/
theorem transpose_fused_into_matmul (g : GraphObj) (t m x out : Nat) (n : Nat)
    (hsite : FusionSite g t m x out) :
    ∃ g2, g.optimize ((g.op t).successors.length + n) = some g2 ∧
      (g2.op m).inputs = (g.op m).inputs.map (fun τ => if τ = out then x else τ) ∧
      (g2.op m).transA = ((g.op m).transA ^^ ((g.op m).inputs[0]? == some out)) ∧
      (g2.op m).transB = ((g.op m).transB ^^ ((g.op m).inputs[1]? == some out)) ∧
      t ∉ (g2.op m).predecessors := by
  obtain ⟨i1, _, i3, _, _, i6⟩ := fuse_fold hsite (g.op t).successors
    (fun s hs => (hsite.succ_type s hs).1) _ (FuseInv.init hsite)
  have hfused := i3 ⟨rfl, rfl, rfl⟩ hsite.m_succ
  simp only [List.length_nil, Nat.zero_add] at i6
  obtain ⟨st2, hs, hf⟩ := sweep_site hsite _
    ((g.op t).successors.length - ((g.op t).successors.foldl (rewrite2Step t)
      { g := g, remove_ops := [], remove_tensors := [], wait_for_cut := [] }).wait_for_cut.length
      + n) _ rfl i1 hfused
  have hfuel : ((g.op t).successors.foldl (rewrite2Step t)
      { g := g, remove_ops := [], remove_tensors := [], wait_for_cut := [] }).wait_for_cut.length +
      ((g.op t).successors.length - ((g.op t).successors.foldl (rewrite2Step t)
      { g := g, remove_ops := [], remove_tensors := [], wait_for_cut := [] }).wait_for_cut.length
      + n) = (g.op t).successors.length + n := by omega
  rw [hfuel] at hs
  refine ⟨eraseRemoved st2, ?_, hf.1, hf.2.1, hf.2.2.1, hf.2.2.2.1⟩
  unfold optimize
  have e : g.topo_sort = some (g, true) := by simp [topo_sort, hsite.sorted]
  rw [e]
  simp only
  rw [rewrite1_site hsite, rewrite2_site hsite, hs]
  rfl

end infini

namespace infini

/-- Witness for C9, scenario S3: `a(0) → Transpose[1,0](op 0) → a'(1)`,
`MatMul(a', b(2))(op 1) → c(3)`; after `optimize()` the MatMul reads `(a, b)` with `transA`
set, `transB` clear and no predecessor, and the Transpose is gone. -/
theorem transpose_fused_into_matmul_S3 :
    (∃ g2, graphS3Sorted.optimize 1 = some g2 ∧
      (g2.op 1).inputs = (graphS3Sorted.op 1).inputs.map (fun τ => if τ = 1 then 0 else τ) ∧
      (g2.op 1).transA =
        ((graphS3Sorted.op 1).transA ^^ ((graphS3Sorted.op 1).inputs[0]? == some 1)) ∧
      (g2.op 1).transB =
        ((graphS3Sorted.op 1).transB ^^ ((graphS3Sorted.op 1).inputs[1]? == some 1)) ∧
      0 ∉ (g2.op 1).predecessors) ∧
    graphS3.topo_sort.map (fun r => (r.1.ops, r.1.sorted, r.2)) = some ([0, 1], true, true) ∧
    (graphS3.optimize 1).map (fun g =>
        (g.ops, g.tensors, (g.op 1).inputs, (g.op 1).predecessors, (g.op 1).transA,
          (g.op 1).transB)) =
      some ([1], [0, 2, 3], [0, 2], [], true, false) :=
  ⟨transpose_fused_into_matmul graphS3Sorted 0 1 0 1 0
    { sorted := rfl, valid := by decide, nodup := by decide, t_mem := by decide,
      only := by decide, t_type := rfl, trans_mat := by decide, t_inputs := rfl,
      t_outputs := rfl, x_ne_out := by decide, out_source := rfl, acyclic := by decide,
      m_succ := by decide, m_type := rfl, m_slot := by decide },
    by decide, by rfl⟩

/-- Counterexample to C9 as stated: in `graphPairMM` the Transpose `op 1` has
`isTransMat` 1, reads `x(1)`, writes `y(2)`, and the MatMul `op 2` is its successor with `y`
in input slot 0; after `optimize()` that slot holds `x0(0)`, not `x(1)`, and `transA` is not
flipped, because `op 1` was spliced away together with `op 0` as an inverse pair. -/
theorem inverse_pair_preempts_fusion :
    graphPairMM.checkValid = true ∧
    graphPairMM.topo_sort.map (fun r => (r.1.ops, r.2)) = some ([0, 1, 2], true) ∧
    ((graphPairMM.op 1).opType, isTransMat (graphPairMM.op 1).permute,
      (graphPairMM.op 1).inputs, (graphPairMM.op 1).outputs, (graphPairMM.op 1).successors) =
      (OpType.Transpose, 1, [1], [2], [2]) ∧
    ((graphPairMM.op 2).opType, (graphPairMM.op 2).inputs, (graphPairMM.op 2).transA,
      (graphPairMM.op 2).transB) = (OpType.MatMul, [2, 3], false, false) ∧
    (graphPairMM.optimize 5).map (fun g =>
        (g.ops, g.tensors, (g.op 2).inputs, (g.op 2).transA, (g.op 2).transB, g.checkValid)) =
      some ([2], [0, 3, 4], [0, 3], false, false, true) :=
  ⟨by decide, by decide, by decide, by decide, by rfl⟩

end infini

namespace infini

open Allocator GraphObj

/-- C11 (code defect): `Concat.inferShape` returns a shape for every list of inputs; for the
inputs `[2,3,4]` and `[2,5,7]` (which differ in the non-axis dimension 2) and for `[2,3,4]`
and `[2,5]` (which differ in rank) with axis 1 it returns `[2,8,4]`. -/
theorem concat_inferShape_never_fails :
    (∀ (dim : Nat) (inputs : List Shape), (ConcatObj.inferShape dim inputs).isSome = true) ∧
    ConcatObj.inferShape 1 [[2, 3, 4], [2, 5, 7]] = some [[2, 8, 4]] ∧
    ConcatObj.inferShape 1 [[2, 3, 4], [2, 5]] = some [[2, 8, 4]] :=
  ⟨fun _ _ => rfl, by decide, by decide⟩

/-- C19: with alignment 8, for every `n ≤ 2^64 - 8`, `getAlignedSize(n)` is
`ceil_div(n, 8) * 8`, the least multiple of 8 that is `≥ n`; it is 0 at 0 and `n` when `n` is
a multiple of 8. -/
theorem getAlignedSize_ceil (a : Allocator) (h : a.alignment = 8) (n : Nat)
    (hn : n ≤ 2 ^ 64 - 8) :
    a.getAlignedSize n = (n + 7) / 8 * 8 ∧
    (8 ∣ a.getAlignedSize n ∧ n ≤ a.getAlignedSize n ∧
      ∀ m, 8 ∣ m → n ≤ m → a.getAlignedSize n ≤ m) ∧
    a.getAlignedSize 0 = 0 ∧
    (8 ∣ n → a.getAlignedSize n = n) := by
  have key : ∀ k, k ≤ 2 ^ 64 - 8 → a.getAlignedSize k = (k + 7) / 8 * 8 := by
    intro k hk
    unfold getAlignedSize SIZE_MOD
    rw [h]
    norm_num at hk ⊢
    omega
  refine ⟨key n hn, ⟨?_, ?_, ?_⟩, ?_, ?_⟩
  · rw [key n hn]; exact Dvd.intro_left _ rfl
  · rw [key n hn]; omega
  · intro m hm hnm
    rw [key n hn]
    obtain ⟨c, rfl⟩ := hm
    omega
  · rw [key 0 (by norm_num)]
  · intro hd
    rw [key n hn]
    obtain ⟨c, rfl⟩ := hd
    omega

/-- Witness for C19: `getAlignedSize(13) == 16` on a new allocator. -/
theorem getAlignedSize_ceil_witness :
    Allocator.new.getAlignedSize 13 = 16 ∧ Allocator.new.getAlignedSize (2 ^ 64 - 8) = 2 ^ 64 - 8 :=
  ⟨by rw [(getAlignedSize_ceil Allocator.new rfl 13 (by norm_num)).1],
   (getAlignedSize_ceil Allocator.new rfl (2 ^ 64 - 8) (by norm_num)).2.2.2
     ⟨2 ^ 61 - 1, by norm_num⟩⟩

theorem getD_inj_of_nodup {p : List Int} (hnd : p.Nodup) {i j : Nat} (hi : i < p.length)
    (hj : j < p.length) (h : p.getD i 0 = p.getD j 0) : i = j := by
  rw [List.getD_eq_getElem _ _ hi, List.getD_eq_getElem _ _ hj] at h
  exact (List.Nodup.getElem_inj_iff hnd).1 h

theorem getD_range_of_perm {p : List Int}
    (hperm : p.Perm ((List.range p.length).map Int.ofNat)) {i : Nat}
    (hi : i < p.length) : ∃ k : Nat, k < p.length ∧ p.getD i 0 = (k : Int) := by
  rw [List.getD_eq_getElem _ _ hi]
  have hm : p[i] ∈ (List.range p.length).map Int.ofNat :=
    hperm.mem_iff.1 (List.getElem_mem _)
  obtain ⟨k, hk, e⟩ := List.mem_map.1 hm
  exact ⟨k, List.mem_range.1 hk, e.symm⟩

/-- In a permutation of `[0..n)` that fixes every leading index, the last two positions
hold `n-2` and `n-1` in one of the two orders. -/
theorem last_two_of_perm {p : List Int}
    (hperm : p.Perm ((List.range p.length).map Int.ofNat))
    (h2 : 2 ≤ p.length) (hlead : ∀ i, i + 2 < p.length → p.getD i 0 = (i : Int)) :
    (p.getD (p.length - 2) 0 = (p.length : Int) - 2 ∧
      p.getD (p.length - 1) 0 = (p.length : Int) - 1) ∨
    (p.getD (p.length - 2) 0 = (p.length : Int) - 1 ∧
      p.getD (p.length - 1) 0 = (p.length : Int) - 2) := by
  have hnd : p.Nodup := by
    rw [hperm.nodup_iff]
    exact (List.nodup_range _).map (fun a b h => by simpa using h)
  have tail : ∀ k, k < p.length → p.length - 2 ≤ k →
      p.getD k 0 = (p.length : Int) - 2 ∨ p.getD k 0 = (p.length : Int) - 1 := by
    intro k hk hk2
    obtain ⟨v, hv, e⟩ := getD_range_of_perm hperm hk
    by_cases hlt : v + 2 < p.length
    · have := hlead v hlt
      have e2 : p.getD v 0 = p.getD k 0 := by rw [this, e]
      have := getD_inj_of_nodup hnd hv hk e2
      omega
    · rw [e]
      omega
  have hne : p.getD (p.length - 2) 0 ≠ p.getD (p.length - 1) 0 := by
    intro e
    have := getD_inj_of_nodup hnd (by omega) (by omega) e
    omega
  rcases tail (p.length - 2) (by omega) (le_refl _) with a | a <;>
    rcases tail (p.length - 1) (by omega) (by omega) with b | b
  · exact absurd (a.trans b.symm) hne
  · exact Or.inl ⟨a, b⟩
  · exact Or.inr ⟨a, b⟩
  · exact absurd (a.trans b.symm) hne

theorem isTransMat_lead (p : List Int)
    (h : p.length ≤ 1 ∨ ∃ i, i + 2 < p.length ∧ p.getD i 0 ≠ (i : Int)) :
    isTransMat p = -1 := by
  unfold isTransMat
  simp only
  by_cases h1 : p.length ≤ 1
  · rw [if_pos h1]
  · rw [if_neg h1]
    rcases h with h | ⟨i, hi, hne⟩
    · exact absurd h h1
    · rw [if_neg]
      intro hall
      rw [List.all_eq_true] at hall
      have := hall i (List.mem_range.2 (by omega))
      exact hne (by simpa using this)

theorem isTransMat_tail (p : List Int)
    (h : ¬(p.length ≤ 1 ∨ ∃ i, i + 2 < p.length ∧ p.getD i 0 ≠ (i : Int))) :
    isTransMat p = if p.getD (p.length - 1) 0 = (p.length : Int) - 1 then 0 else 1 := by
  unfold isTransMat
  simp only
  have h1 : ¬ p.length ≤ 1 := fun c => h (Or.inl c)
  rw [if_neg h1, if_pos]
  · by_cases h3 : p.getD (p.length - 1) 0 = (p.length : Int) - 1
    · rw [if_pos h3, if_pos (by simpa using h3)]
    · rw [if_neg h3, if_neg (by simpa using h3)]
  · rw [List.all_eq_true]
    intro i hi
    have hi2 := List.mem_range.1 hi
    by_contra hc
    exact h (Or.inr ⟨i, by omega, by simpa using hc⟩)

/-- C17: for a permutation `p` of `[0..n)`, `isTransMat` returns -1 exactly when `n ≤ 1` or
some leading index `i < n-2` has `p[i] ≠ i`; otherwise it returns 0 exactly when
`p[n-1] == n-1`, in which case `p` is the identity, and 1 exactly when the last two axes are
swapped (`p[n-2] == n-1` and `p[n-1] == n-2`). -/
theorem isTransMat_spec (p : List Int)
    (hperm : p.Perm ((List.range p.length).map Int.ofNat)) :
    (isTransMat p = -1 ↔
      (p.length ≤ 1 ∨ ∃ i, i + 2 < p.length ∧ p.getD i 0 ≠ (i : Int))) ∧
    (¬(p.length ≤ 1 ∨ ∃ i, i + 2 < p.length ∧ p.getD i 0 ≠ (i : Int)) →
      (isTransMat p = 0 ↔ p.getD (p.length - 1) 0 = (p.length : Int) - 1) ∧
      (isTransMat p = 0 ↔ p = (List.range p.length).map Int.ofNat) ∧
      (isTransMat p = 1 ↔
        (p.getD (p.length - 2) 0 = (p.length : Int) - 1 ∧
          p.getD (p.length - 1) 0 = (p.length : Int) - 2)) ∧
      (isTransMat p = 0 ∨ isTransMat p = 1)) := by
  refine ⟨?_, ?_⟩
  · constructor
    · intro hm
      by_contra h
      rw [isTransMat_tail p h] at hm
      split at hm <;> exact absurd hm (by decide)
    · exact isTransMat_lead p
  · intro h
    rw [isTransMat_tail p h]
    have h2 : 2 ≤ p.length := by
      by_contra hc
      exact h (Or.inl (by omega))
    have hlead : ∀ i, i + 2 < p.length → p.getD i 0 = (i : Int) := by
      intro i hi
      by_contra hc
      exact h (Or.inr ⟨i, hi, hc⟩)
    have hlast := last_two_of_perm hperm h2 hlead
    refine ⟨?_, ?_, ?_, ?_⟩
    · by_cases h3 : p.getD (p.length - 1) 0 = (p.length : Int) - 1
      · simp [h3]
      · simp [h3]
    · constructor
      · intro h0
        have h3 : p.getD (p.length - 1) 0 = (p.length : Int) - 1 := by
          by_contra hc
          rw [if_neg hc] at h0
          exact absurd h0 (by decide)
        have h4 : p.getD (p.length - 2) 0 = (p.length : Int) - 2 := by
          rcases hlast with a | a
          · exact a.1
          · rw [a.2] at h3; omega
        apply List.ext_getElem
        · simp
        · intro i hi _
          rw [← List.getD_eq_getElem _ 0 hi]
          simp only [List.getElem_map, List.getElem_range]
          by_cases c : i + 2 < p.length
          · exact hlead i c
          · by_cases c2 : i = p.length - 1
            · rw [c2, h3]
              simp only [Int.ofNat_eq_coe]
              omega
            · have c3 : i = p.length - 2 := by omega
              rw [c3, h4]
              simp only [Int.ofNat_eq_coe]
              omega
      · intro e
        rw [if_pos]
        have hl : p.length - 1 < ((List.range p.length).map Int.ofNat).length := by
          simp only [List.length_map, List.length_range]
          omega
        have key : p.getD (p.length - 1) 0 =
            ((List.range p.length).map Int.ofNat).getD (p.length - 1) 0 :=
          congrArg (fun l => List.getD l (p.length - 1) 0) e
        rw [key, List.getD_eq_getElem _ _ hl]
        simp only [List.getElem_map, List.getElem_range, Int.ofNat_eq_coe]
        omega
    · constructor
      · intro h1
        have h3 : p.getD (p.length - 1) 0 ≠ (p.length : Int) - 1 := by
          intro hc
          rw [if_pos hc] at h1
          exact absurd h1 (by decide)
        rcases hlast with a | a
        · exact absurd a.2 h3
        · exact a
      · intro a
        rw [if_neg]
        rw [a.2]
        omega
    · split
      · exact Or.inl rfl
      · exact Or.inr rfl


/-- Witness for C17, scenario S4: `[2,1,0]` gives -1 (index 0 is not fixed); `[0,2,1]`
gives 1. -/
theorem isTransMat_spec_S4 : isTransMat [2, 1, 0] = -1 ∧ isTransMat [0, 2, 1] = 1 :=
  ⟨(isTransMat_spec [2, 1, 0] (by decide)).1.2 (Or.inr ⟨0, by decide, by decide⟩),
   ((isTransMat_spec [0, 2, 1] (by decide)).2 (by
      rintro (h | ⟨i, hi, hne⟩)
      · exact absurd h (by decide)
      · have hi0 : i = 0 := by
          simp only [List.length_cons, List.length_nil] at hi
          omega
        subst hi0
        exact hne (by decide))).2.2.1.2 ⟨by decide, by decide⟩⟩

end infini

namespace infini

theorem swapLastTwo_append (b : Shape) (x y : Nat) :
    swapLastTwo (b ++ [x, y]) = b ++ [y, x] := by
  unfold swapLastTwo
  have h1 : (b ++ [x, y]).length - 1 = b.length + 1 := by simp
  have h2 : (b ++ [x, y]).length - 2 = b.length := by simp
  have g1 : (b ++ [x, y]).getD (b.length + 1) 0 = y := by
    rw [List.getD_append_right _ _ _ _ (by omega)]
    simp
  have g2 : (b ++ [x, y]).getD b.length 0 = x := by
    rw [List.getD_append_right _ _ _ _ (le_refl _)]
    simp
  rw [h1, h2, g1, g2, List.set_append_right _ _ (by omega)]
  rw [List.set_append_right _ _ (le_refl _)]
  simp

theorem set_last_append (b : Shape) (x y v : Nat) :
    (b ++ [x, y]).set (b.length + 1) v = b ++ [x, v] := by
  rw [List.set_append_right _ _ (by omega)]
  simp

theorem set_prev_append (b : Shape) (x y v : Nat) :
    (b ++ [x, y]).set b.length v = b ++ [v, y] := by
  rw [List.set_append_right _ _ (le_refl _)]
  simp

/-- Broadcasting two shapes that end in `[m, 1]` and `[1, n]`: the leading columns are
broadcast as on their own and the last two columns give `max m 1` and `max 1 n`. -/
theorem infer_broadcast_append (a b : Shape) (m n : Nat) :
    infer_broadcast (a ++ [m, 1]) (b ++ [1, n]) =
      (infer_broadcast a b).map (fun bc => bc ++ [max m 1, max 1 n]) := by
  unfold infer_broadcast
  simp only [List.length_append, List.length_cons, List.length_nil]
  have e1 : max (a.length + (0 + 1 + 1)) (b.length + (0 + 1 + 1)) - (a.length + (0 + 1 + 1)) =
      max a.length b.length - a.length := by omega
  have e2 : max (a.length + (0 + 1 + 1)) (b.length + (0 + 1 + 1)) - (b.length + (0 + 1 + 1)) =
      max a.length b.length - b.length := by omega
  rw [e1, e2, ← List.append_assoc, ← List.append_assoc, List.zip_append]
  · simp only [List.all_append, List.map_append, List.zip_cons_cons, List.zip_nil_right,
      List.all_cons, List.all_nil, List.map_cons, List.map_nil, beq_self_eq_true, Bool.or_true,
      Bool.and_true, Bool.true_or]
    split <;> rfl
  · simp only [List.length_append, List.length_replicate]
    omega

/-- What `MatmulObj::inferShape` returns on shapes `bA ++ [a1, a2]` and `bB ++ [b1, b2]`
whose matrix dimensions `m` and `n` (read after the swaps) are at least 1: the broadcast of
the batch dimensions followed by `m` and `n`. -/
theorem matmul_inferShape_pos (ta tb : Bool) (bA bB bc : Shape) (a1 a2 b1 b2 : Nat)
    (hbc : infer_broadcast bA bB = some bc)
    (hm : 1 ≤ (if ta then a2 else a1)) (hn : 1 ≤ (if tb then b1 else b2)) :
    MatmulObj.inferShape ta tb [bA ++ [a1, a2], bB ++ [b1, b2]] =
      some [bc ++ [if ta then a2 else a1, if tb then b1 else b2]] := by
  unfold MatmulObj.inferShape
  simp only [List.getD_cons_zero, List.getD_cons_succ]
  have hA : (bA ++ [a1, a2]).length = bA.length + 2 := by simp
  have hB : (bB ++ [b1, b2]).length = bB.length + 2 := by simp
  rw [hA, hB, if_pos ⟨by omega, by omega⟩]
  simp only [Nat.add_sub_cancel, show bA.length + 2 - 1 = bA.length + 1 from rfl]
  have eA : (if ta = true then swapLastTwo (bA ++ [a1, a2]) else bA ++ [a1, a2]) =
      bA ++ [if ta then a2 else a1, if ta then a1 else a2] := by
    cases ta
    · rfl
    · exact swapLastTwo_append bA a1 a2
  have eB : (if tb = true then swapLastTwo (bB ++ [b1, b2]) else bB ++ [b1, b2]) =
      bB ++ [if tb then b2 else b1, if tb then b1 else b2] := by
    cases tb
    · rfl
    · exact swapLastTwo_append bB b1 b2
  rw [eA, eB, set_last_append, set_prev_append, infer_broadcast_append, hbc]
  simp only [Option.map_some']
  rw [Nat.max_eq_left hm, Nat.max_eq_right hn]

/-- C12 (code defect): with `A = [0,3]`, `B = [3,5]` and no transposition
`MatMul.inferShape` returns `[1,5]`, where `shape_A[-2]` is 0; with `A = [2,3]`, `B = [3,0]`
it returns `[2,1]`. The row dimension is masked to 1 on the other side and the broadcast
takes the larger value of the column. -/
theorem matmul_inferShape_zero_dim :
    MatmulObj.inferShape false false [[0, 3], [3, 5]] = some [[1, 5]] ∧
    MatmulObj.inferShape false false [[2, 3], [3, 0]] = some [[2, 1]] ∧
    MatmulObj.inferShape true false [[4, 3, 0], [3, 5]] = some [[4, 1, 5]] := by
  decide

end infini

namespace infini

open GraphObj

/-! ### Termination, stability and completeness of `topo_sort` -/

theorem Ordered.nil (g : GraphObj) : Ordered g [] := by
  intro pre o post e
  cases pre <;> cases e

/-- The order relation only reads the operator and tensor objects. -/
theorem Ordered.congr {g g2 : GraphObj} {l : List Nat} (h : Ordered g l) (hop : g2.op = g.op)
    (ht : g2.tensor = g.tensor) : Ordered g2 l := by
  intro pre o post e t hmem p hp
  rw [hop] at hmem
  rw [ht] at hp
  exact h pre o post e t hmem p hp

theorem TopoInv.length_le {g : GraphObj} {sorted flags : List Nat}
    (h : TopoInv g sorted flags) : sorted.length ≤ g.ops.length :=
  (h.nodup.subperm h.sub).length_le

/-- The loop of `topo_sort` ends within `ops.size() + 1` passes. -/
theorem topoLoop_terminates (g : GraphObj) (fuel : Nat) :
    ∀ (sorted flags : List Nat), TopoInv g sorted flags →
      g.ops.length < fuel + sorted.length → ∃ r, topoLoop g fuel sorted flags = some r := by
  induction fuel with
  | zero =>
    intro sorted flags hinv hlt
    have := hinv.length_le
    omega
  | succ fuel ih =>
    intro sorted flags hinv hlt
    unfold topoLoop
    by_cases hl : sorted.length < g.ops.length
    · rw [if_pos hl]
      simp only
      by_cases hm : (topoPass g sorted flags).1 = true
      · simp only [hm, Bool.not_true, Bool.false_eq_true, if_false]
        obtain ⟨h1, h2⟩ := topoPass_inv g sorted flags hinv
        exact ih _ _ h1 (by have := h2 hm; omega)
      · simp only [hm, Bool.not_false, if_true]
        exact ⟨none, rfl⟩
    · rw [if_neg hl]
      exact ⟨some sorted, rfl⟩

/-- A scan that leaves `modified` false found no operator of the list ready. -/
theorem scan_unmodified (g : GraphObj) (l : List Nat) (st : Bool × List Nat × List Nat)
    (h : (l.foldl (fun st op =>
        if topoReady g st.2.2 op then (true, st.2.1 ++ [op], op :: st.2.2) else st) st).1 = false) :
    ∀ op ∈ l, topoReady g st.2.2 op = false := by
  induction l generalizing st with
  | nil => intro op hop; cases hop
  | cons a l ih =>
    simp only [List.foldl_cons] at h
    by_cases hr : topoReady g st.2.2 a = true
    · rw [if_pos hr] at h
      exfalso
      have hstay : ∀ (l : List Nat) (s : List Nat × List Nat),
          (l.foldl (fun st op =>
            if topoReady g st.2.2 op then (true, st.2.1 ++ [op], op :: st.2.2) else st)
            (true, s)).1 = true := by
        intro l
        induction l with
        | nil => intro s; rfl
        | cons b l ihl =>
          intro s
          simp only [List.foldl_cons]
          split
          · exact ihl _
          · exact ihl _
      rw [hstay l _] at h
      cases h
    · rw [if_neg hr] at h
      intro op hop
      rcases List.mem_cons.1 hop with e | hmem
      · subst e
        simpa using hr
      · exact ih st h op hmem

/-- The first element of a list that lies outside `s`. -/
theorem first_outside (l s : List Nat) (h : ∃ x ∈ l, x ∉ s) :
    ∃ pre o post, l = pre ++ o :: post ∧ (∀ x ∈ pre, x ∈ s) ∧ o ∉ s := by
  induction l with
  | nil =>
    obtain ⟨x, hx, _⟩ := h
    cases hx
  | cons a l ih =>
    by_cases ha : a ∈ s
    · obtain ⟨x, hx, hxs⟩ := h
      have hx2 : x ∈ l := by
        rcases List.mem_cons.1 hx with e | hmem
        · subst e
          exact absurd ha hxs
        · exact hmem
      obtain ⟨pre, o, post, e, hp, ho⟩ := ih ⟨x, hx2, hxs⟩
      refine ⟨a :: pre, o, post, by rw [e]; rfl, ?_, ho⟩
      intro y hy
      rcases List.mem_cons.1 hy with e2 | hmem
      · subst e2; exact ha
      · exact hp y hmem
    · exact ⟨[], a, l, rfl, fun x hx => (by cases hx), ha⟩

/-- When a pass emits nothing while operators are missing from `sorted`, no order of `ops`
puts the source of every input before its consumer. -/
theorem no_order_of_stuck (g : GraphObj) (sorted flags : List Nat)
    (hinv : TopoInv g sorted flags) (hlt : sorted.length < g.ops.length)
    (hm : (topoPass g sorted flags).1 = false) :
    ¬ ∃ l : List Nat, l.Perm g.ops ∧ l.Nodup ∧ Ordered g l := by
  rintro ⟨l, hperm, hnd, hord⟩
  have hex : ∃ x ∈ l, x ∉ sorted := by
    by_contra hc
    have hsub : ∀ x ∈ l, x ∈ sorted := by
      intro x hx
      by_contra hn
      exact hc ⟨x, hx, hn⟩
    have := (hnd.subperm hsub).length_le
    rw [hperm.length_eq] at this
    omega
  obtain ⟨pre, o, post, e, hpre, ho⟩ := first_outside l sorted hex
  have hmem : o ∈ g.ops := hperm.mem_iff.1 (by rw [e]; simp)
  have hready : topoReady g flags o = true := by
    rw [topoReady_iff]
    refine ⟨fun hf => ho ((hinv.flags_iff o).1 hf), ?_⟩
    intro t ht p hp
    exact (hinv.flags_iff p).2 (hpre p (hord pre o post e t ht p hp))
  have := scan_unmodified g g.ops (false, sorted, flags) hm o hmem
  rw [hready] at this
  cases this

/-- A `false` from the loop of `topo_sort` comes from a pass that emitted nothing. -/
theorem topoLoop_false (g : GraphObj) (fuel : Nat) :
    ∀ (sorted flags : List Nat), TopoInv g sorted flags →
      topoLoop g fuel sorted flags = some none →
      ¬ ∃ l : List Nat, l.Perm g.ops ∧ l.Nodup ∧ Ordered g l := by
  induction fuel with
  | zero =>
    intro sorted flags _ h
    simp [topoLoop] at h
  | succ fuel ih =>
    intro sorted flags hinv h
    unfold topoLoop at h
    by_cases hl : sorted.length < g.ops.length
    · rw [if_pos hl] at h
      simp only at h
      by_cases hm : (topoPass g sorted flags).1 = true
      · simp only [hm, Bool.not_true, Bool.false_eq_true, if_false] at h
        exact ih _ _ (topoPass_inv g sorted flags hinv).1 h
      · exact no_order_of_stuck g sorted flags hinv hl (by simpa using hm)
    · rw [if_neg hl] at h
      cases h

theorem TopoInv.start (g : GraphObj) : TopoInv g [] [] :=
  ⟨fun _ => Iff.rfl, List.nodup_nil, fun _ hx => (by cases hx), Ordered.nil g⟩

/-- A scan over the rest of an ordered duplicate-free `ops` emits every operator in turn. -/
theorem scan_ordered (g : GraphObj) (rest : List Nat) :
    ∀ (pre : List Nat) (b : Bool), (pre ++ rest).Nodup → Ordered g (pre ++ rest) →
      rest.foldl (fun st op =>
        if topoReady g st.2.2 op then (true, st.2.1 ++ [op], op :: st.2.2) else st)
        (b, pre, pre.reverse) = (b || !rest.isEmpty, pre ++ rest, (pre ++ rest).reverse) := by
  induction rest with
  | nil =>
    intro pre b _ _
    simp
  | cons a rest ih =>
    intro pre b hnd hord
    simp only [List.foldl_cons]
    have hready : topoReady g pre.reverse a = true := by
      rw [topoReady_iff]
      refine ⟨?_, ?_⟩
      · intro hmem
        have hmem2 : a ∈ pre := List.mem_reverse.1 hmem
        have := List.nodup_append.1 hnd
        exact this.2.2 hmem2 (List.mem_cons_self _ _)
      · intro t ht p hp
        exact List.mem_reverse.2 (hord pre a rest rfl t ht p hp)
    rw [if_pos hready]
    have e : pre ++ a :: rest = (pre ++ [a]) ++ rest := by simp
    have := ih (pre ++ [a]) true (by rw [← e]; exact hnd) (by rw [← e]; exact hord)
    simp only [List.reverse_append, List.reverse_cons, List.reverse_nil, List.nil_append,
      List.singleton_append] at this
    rw [this]
    simp

/-- On an ordered duplicate-free `ops` the loop of `topo_sort` ends with `sorted = ops`. -/
theorem topoLoop_ordered (g : GraphObj) (hnd : g.ops.Nodup) (hord : Ordered g g.ops) :
    topoLoop g (g.ops.length + 1) [] [] = some (some g.ops) := by
  unfold topoLoop
  by_cases h0 : g.ops = []
  · simp [h0]
  · have hpos : 0 < g.ops.length := List.length_pos.2 h0
    simp only [List.length_nil, hpos, if_true]
    have hscan := scan_ordered g g.ops [] false (by simpa using hnd) (by simpa using hord)
    have hpass : topoPass g [] [] = (true, g.ops, g.ops.reverse) := by
      unfold topoPass
      simp only [List.reverse_nil, List.nil_append, Bool.false_or] at hscan
      rw [hscan]
      cases hg : g.ops with
      | nil => exact absurd hg h0
      | cons a l => rfl
    rw [hpass]
    simp only [Bool.not_true, Bool.false_eq_true, if_false]
    obtain ⟨n, hn⟩ : ∃ n, g.ops.length = n + 1 := ⟨g.ops.length - 1, by omega⟩
    rw [hn]
    unfold topoLoop
    rw [if_neg (by omega)]

/-- C20: if `ops` is already in topological order (it lists every operator once, and the
source of every input stands before its consumer) and the `sorted` flag is false,
`topo_sort()` returns true, leaves `ops` as it is and sets the flag; and whenever
`topo_sort()` returns true, clearing the flag and sorting again returns true with the same
graph, hence the same order. -/
theorem topo_sort_stable (g : GraphObj) (hs : g.sorted = false) :
    (g.ops.Nodup → Ordered g g.ops → g.topo_sort = some ({ g with sorted := true }, true)) ∧
    (∀ g1, g.topo_sort = some (g1, true) →
      GraphObj.topo_sort { g1 with sorted := false } = some (g1, true)) := by
  have stable : ∀ g : GraphObj, g.sorted = false → g.ops.Nodup → Ordered g g.ops →
      g.topo_sort = some ({ g with sorted := true }, true) := by
    intro g hs hnd hord
    unfold topo_sort
    rw [hs]
    simp only [Bool.false_eq_true, if_false]
    rw [topoLoop_ordered g hnd hord]
  refine ⟨stable g hs, ?_⟩
  intro g1 h
  unfold topo_sort at h
  rw [hs] at h
  simp only [Bool.false_eq_true, if_false] at h
  cases hloop : topoLoop g (g.ops.length + 1) [] [] with
  | none => rw [hloop] at h; cases h
  | some r =>
    cases r with
    | none => rw [hloop] at h; simp at h
    | some r =>
      rw [hloop] at h
      simp only [Option.some.injEq, Prod.mk.injEq, and_true] at h
      subst h
      obtain ⟨⟨f, hinv⟩, _⟩ := topoLoop_inv g _ [] [] r (TopoInv.start g) hloop
      exact stable { g with ops := r, sorted := false } rfl hinv.nodup
        (hinv.ordered.congr rfl rfl)

/-- The check `orderedFrom` is sound. -/
theorem orderedFrom_sound (g : GraphObj) (l : List Nat) :
    ∀ pre, Ordered g pre → orderedFrom g pre l = true → Ordered g (pre ++ l) := by
  induction l with
  | nil =>
    intro pre h _
    simpa using h
  | cons o post ih =>
    intro pre h hc
    unfold orderedFrom at hc
    rw [Bool.and_eq_true] at hc
    have h2 : Ordered g (pre ++ [o]) := by
      refine h.concat (fun t ht p hp => ?_)
      have := List.all_eq_true.1 hc.1 t ht
      rw [hp] at this
      simpa using this
    have := ih (pre ++ [o]) h2 hc.2
    simpa using this

theorem graphS1_ordered : Ordered graphS1 graphS1.ops :=
  orderedFrom_sound graphS1 graphS1.ops [] (Ordered.nil _) (by decide)

/-- Witness for C20: the `ops` of scenario S1 are `[0, 1, 2]`, in topological order;
`topo_sort()` returns true with the same order. -/
theorem topo_sort_stable_witness :
    graphS1.ops = [0, 1, 2] ∧ graphS1.topo_sort = some (graphS1Sorted, true) ∧
    graphS1Sorted.ops = [0, 1, 2] ∧
    GraphObj.topo_sort { graphS1Sorted with sorted := false } = some (graphS1Sorted, true) :=
  ⟨rfl, (topo_sort_stable graphS1 rfl).1 (by decide) graphS1_ordered, rfl,
    (topo_sort_stable graphS1 rfl).2 graphS1Sorted
      ((topo_sort_stable graphS1 rfl).1 (by decide) graphS1_ordered)⟩

/-- C14: `topo_sort()` called with `sorted == false` always returns; it returns false
exactly when no ordering of `ops` (every operator at one position) puts the source of every
input before its consumer; and when it returns false the graph, in particular `ops` and the
`sorted` flag, is as before. -/
theorem topo_sort_false_iff (g : GraphObj) (hs : g.sorted = false) :
    (∃ r, g.topo_sort = some r) ∧
    (g.topo_sort = some (g, false) ↔
      ¬ ∃ l : List Nat, l.Perm g.ops ∧ l.Nodup ∧ Ordered g l) ∧
    (g.ops.Nodup →
      (g.topo_sort = some (g, false) ↔ ¬ ∃ l : List Nat, l.Perm g.ops ∧ Ordered g l)) ∧
    (∀ g2, g.topo_sort = some (g2, false) → g2 = g ∧ g2.ops = g.ops ∧ g2.sorted = false) := by
  obtain ⟨r, hloop⟩ := topoLoop_terminates g (g.ops.length + 1) [] [] (TopoInv.start g)
    (by simp)
  have key : (∃ r, g.topo_sort = some r) ∧
      (g.topo_sort = some (g, false) ↔
        ¬ ∃ l : List Nat, l.Perm g.ops ∧ l.Nodup ∧ Ordered g l) ∧
      (∀ g2, g.topo_sort = some (g2, false) → g2 = g ∧ g2.ops = g.ops ∧ g2.sorted = false) := by
    unfold topo_sort
    rw [hs, hloop]
    simp only [Bool.false_eq_true, if_false]
    cases r with
    | none =>
      refine ⟨⟨_, rfl⟩, ⟨fun _ => topoLoop_false g _ [] [] (TopoInv.start g) hloop,
        fun _ => rfl⟩, ?_⟩
      intro g2 h
      simp only [Option.some.injEq, Prod.mk.injEq, and_true] at h
      subst h
      exact ⟨rfl, rfl, hs⟩
    | some l =>
      obtain ⟨⟨f, hinv⟩, hlen⟩ := topoLoop_inv g _ [] [] l (TopoInv.start g) hloop
      refine ⟨⟨_, rfl⟩, ⟨fun h => ?_, fun h => ?_⟩, ?_⟩
      · simp at h
      · exact absurd ⟨l, (hinv.nodup.subperm hinv.sub).perm_of_length_le hlen, hinv.nodup,
          hinv.ordered⟩ h
      · intro g2 h
        simp at h
  refine ⟨key.1, key.2.1, ?_, key.2.2⟩
  intro hnd
  rw [key.2.1]
  constructor
  · rintro h ⟨l, hp, ho⟩
    exact h ⟨l, hp, hp.nodup_iff.2 hnd, ho⟩
  · rintro h ⟨l, hp, _, ho⟩
    exact h ⟨l, hp, ho⟩

/-- Witness for C14: in `graphCycle` each of the two operators reads the output of the
other; `topo_sort()` returns false and no ordering exists. -/
theorem topo_sort_false_iff_witness :
    graphCycle.sorted = false ∧ graphCycle.ops = [0, 1] ∧
    (∃ r, graphCycle.topo_sort = some r) ∧
    graphCycle.topo_sort = some (graphCycle, false) ∧
    ¬ ∃ l : List Nat, l.Perm graphCycle.ops ∧ l.Nodup ∧ Ordered graphCycle l :=
  ⟨rfl, rfl, (topo_sort_false_iff graphCycle rfl).1, rfl,
    (topo_sort_false_iff graphCycle rfl).2.1.1 rfl⟩

/-- C16: if `ops` is in topological order, no Transpose has an inverse Transpose successor
and no Transpose with `isTransMat == 1` has a MatMul successor, `optimize()` returns and
leaves `ops`, `tensors`, every operator object (inputs, outputs, predecessors, successors,
`transA`, `transB`) and every tensor object (source, targets) as they were. The validity of
the graph is not needed. -/
theorem optimize_noop (g : GraphObj) (fuel : Nat) (hnd : g.ops.Nodup) (hord : Ordered g g.ops)
    (h1 : ∀ o ∈ g.ops, (g.op o).opType = OpType.Transpose → ∀ s ∈ (g.op o).successors,
      (g.op s).opType = OpType.Transpose → isInverse (g.op o).permute (g.op s).permute = false)
    (h2 : ∀ o ∈ g.ops, (g.op o).opType = OpType.Transpose →
      isTransMat (g.op o).permute = 1 → ∀ s ∈ (g.op o).successors,
        (g.op s).opType ≠ OpType.MatMul) :
    ∃ g2, g.optimize fuel = some g2 ∧ g2.ops = g.ops ∧ g2.tensors = g.tensors ∧
      g2.op = g.op ∧ g2.tensor = g.tensor := by
  have hsort : ∃ g1, g.topo_sort = some (g1, true) ∧ g1.ops = g.ops ∧
      g1.tensors = g.tensors ∧ g1.op = g.op ∧ g1.tensor = g.tensor := by
    cases hs : g.sorted with
    | true => exact ⟨g, by simp [topo_sort, hs], rfl, rfl, rfl, rfl⟩
    | false =>
      refine ⟨{ g with sorted := true }, ?_, rfl, rfl, rfl, rfl⟩
      unfold topo_sort
      rw [hs]
      simp only [Bool.false_eq_true, if_false]
      rw [topoLoop_ordered g hnd hord]
  obtain ⟨g1, hg1, e1, e2, e3, e4⟩ := hsort
  have hr1 : rewrite1 { g := g1, remove_ops := [], remove_tensors := [], wait_for_cut := [] } =
      { g := g1, remove_ops := [], remove_tensors := [], wait_for_cut := [] } := by
    unfold rewrite1
    refine foldl_fixed _ _ _ (fun o ho => ?_)
    unfold rewrite1Op
    by_cases ht : (g1.op o).opType = OpType.Transpose
    · simp only [ht, ne_eq, not_true_eq_false, if_false]
      refine foldl_fixed _ _ _ (fun s hs => ?_)
      unfold rewrite1Step
      by_cases hst : (g1.op s).opType = OpType.Transpose
      · have := h1 o (by rw [← e1]; exact ho) (by rw [← e3]; exact ht) s
          (by rw [← e3]; exact hs) (by rw [← e3]; exact hst)
        rw [← e3] at this
        simp [hst, this]
      · simp [hst]
    · simp [ht]
  have hr2 : rewrite2 { g := g1, remove_ops := [], remove_tensors := [], wait_for_cut := [] } =
      { g := g1, remove_ops := [], remove_tensors := [], wait_for_cut := [] } := by
    unfold rewrite2
    refine foldl_fixed _ _ _ (fun o ho => ?_)
    unfold rewrite2Op
    by_cases ht : (g1.op o).opType = OpType.Transpose
    · simp only [ht, ne_eq, not_true_eq_false, if_false]
      refine foldl_fixed _ _ _ (fun s hs => ?_)
      unfold rewrite2Step
      by_cases hst : (g1.op s).opType = OpType.MatMul
      · by_cases hm : isTransMat (g1.op o).permute = 1
        · exact absurd (by rw [← e3]; exact hst)
            (h2 o (by rw [← e1]; exact ho) (by rw [← e3]; exact ht) (by rw [← e3]; exact hm) s
              (by rw [← e3]; exact hs))
        · simp [hst, hm]
      · simp [hst]
    · simp [ht]
  refine ⟨g1, ?_, e1, e2, e3, e4⟩
  unfold optimize
  rw [hg1]
  simp only
  rw [hr1, hr2]
  have hsw : sweep fuel { g := g1, remove_ops := [], remove_tensors := [], wait_for_cut := [] } =
      some { g := g1, remove_ops := [], remove_tensors := [], wait_for_cut := [] } := by
    cases fuel <;> rfl
  rw [hsw]
  rfl

/-- Witness for C16: scenario S2 (the second Transpose has `permute = [1,0,2]`, not the
inverse of `[0,2,1]`) and scenario S4 (`isTransMat [2,1,0]` is -1) pass through `optimize()`
unchanged. -/
theorem optimize_noop_S2_S4 :
    (∃ g2, graphS2.optimize 0 = some g2 ∧ g2.ops = graphS2.ops ∧
      g2.tensors = graphS2.tensors ∧ g2.op = graphS2.op ∧ g2.tensor = graphS2.tensor) ∧
    (∃ g2, graphS4.optimize 0 = some g2 ∧ g2.ops = graphS4.ops ∧
      g2.tensors = graphS4.tensors ∧ g2.op = graphS4.op ∧ g2.tensor = graphS4.tensor) ∧
    graphS2.checkValid = true ∧ graphS4.checkValid = true ∧
    isInverse (graphS2.op 0).permute (graphS2.op 1).permute = false ∧
    isTransMat (graphS4.op 0).permute = -1 :=
  ⟨optimize_noop graphS2 0 (by decide)
      (orderedFrom_sound graphS2 graphS2.ops [] (Ordered.nil _) (by decide))
      (by decide) (by decide),
    optimize_noop graphS4 0 (by decide)
      (orderedFrom_sound graphS4 graphS4.ops [] (Ordered.nil _) (by decide))
      (by decide) (by decide),
    by decide, by decide, by decide, by decide⟩

end infini

namespace infini

open GraphObj

/-- C18 (code defect): `graphFeed` has consistent links and passes `checkValid`; after
`optimize()` the MatMul `op 2` reads tensor 1, whose source is the Relu `op 0`, but `op 0`
is not among the predecessors of `op 2` and `op 2` is not among the successors of `op 0`:
the fusion rewrite redirected the input and added no link, whereas the splice of rewrite 1
(lines 201-206) links the consumer to the producer. -/
theorem fusion_adds_no_links :
    linksConsistent graphFeed = true ∧ graphFeed.checkValid = true ∧
    (graphFeed.optimize 5).map (fun g =>
        (g.ops, (g.op 2).inputs, (g.tensor 1).source, (g.op 2).predecessors,
          (g.op 0).successors, linksConsistent g)) =
      some ([0, 2], [1, 3], some 0, [], [], false) :=
  ⟨by decide, by decide, by rfl⟩

end infini

namespace infini

open GraphObj

/-! ### Shape inference -/

theorem dimsOnly_refl (g : GraphObj) : DimsOnly g g :=
  ⟨rfl, rfl, rfl, rfl, fun _ => rfl, fun _ => rfl, fun _ => rfl⟩

theorem dimsOnly_trans {g g2 g3 : GraphObj} (h : DimsOnly g g2) (h2 : DimsOnly g2 g3) :
    DimsOnly g g3 :=
  ⟨h2.op.trans h.op, h2.ops.trans h.ops, h2.tensors.trans h.tensors, h2.sorted.trans h.sorted,
    fun t => (h2.fuid t).trans (h.fuid t), fun t => (h2.source t).trans (h.source t),
    fun t => (h2.targets t).trans (h.targets t)⟩

theorem dimsOnly_setShape (g : GraphObj) (t : Nat) (s : Shape) : DimsOnly g (g.setShape t s) := by
  refine ⟨rfl, rfl, rfl, rfl, fun i => ?_, fun i => ?_, fun i => ?_⟩ <;>
  · unfold GraphObj.setShape GraphObj.setTensor
    simp only
    split
    · rename_i e; subst e; rfl
    · rfl

theorem setShape_dims (g : GraphObj) (t : Nat) (s : Shape) (i : Nat) :
    ((g.setShape t s).tensor i).dims = if i = t then s else (g.tensor i).dims := by
  unfold GraphObj.setShape GraphObj.setTensor
  simp only
  split <;> rfl

/-- The fuid check of `checkValid`, from any accumulated state. -/
theorem fuid_fold (g : GraphObj) (l : List Nat) :
    ∀ (b : Bool) (acc : List Nat),
      (l.foldl (fun (st : Bool × List Nat) tensor =>
        (st.1 && !st.2.contains (g.tensor tensor).fuid, (g.tensor tensor).fuid :: st.2))
        (b, acc)).1 = true →
      (l.map (fun t => (g.tensor t).fuid)).Nodup := by
  induction l with
  | nil => intro _ _ _; exact List.nodup_nil
  | cons a l ih =>
    intro b acc h
    simp only [List.foldl_cons] at h
    have hrest := ih _ _ h
    have hmono : ∀ (l : List Nat) (b : Bool) (acc : List Nat),
        (l.foldl (fun (st : Bool × List Nat) tensor =>
          (st.1 && !st.2.contains (g.tensor tensor).fuid, (g.tensor tensor).fuid :: st.2))
          (b, acc)).1 = true → b = true ∧ ∀ t ∈ l, (g.tensor t).fuid ∉ acc := by
      intro l
      induction l with
      | nil => intro b acc hb; exact ⟨hb, fun t ht => by cases ht⟩
      | cons c l ihl =>
        intro b acc hb
        simp only [List.foldl_cons] at hb
        obtain ⟨h1, h2⟩ := ihl _ _ hb
        rw [Bool.and_eq_true] at h1
        refine ⟨h1.1, ?_⟩
        intro t ht
        rcases List.mem_cons.1 ht with e | hm
        · subst e
          simpa using h1.2
        · exact fun hc => h2 t hm (List.mem_cons_of_mem _ hc)
    obtain ⟨_, h2⟩ := hmono l _ _ h
    rw [List.map_cons, List.nodup_cons]
    refine ⟨?_, hrest⟩
    intro hmem
    obtain ⟨t, ht, e⟩ := List.mem_map.1 hmem
    exact h2 t ht (by rw [e]; exact List.mem_cons_self _ _)

theorem find_of_nodup_map (f : Nat → Nat) (l : List Nat) (h : (l.map f).Nodup) (t : Nat)
    (ht : t ∈ l) : l.find? (fun s => f s == f t) = some t := by
  induction l with
  | nil => cases ht
  | cons a l ih =>
    rw [List.map_cons, List.nodup_cons] at h
    by_cases e : a = t
    · subst e
      simp
    · have hm : t ∈ l := by
        rcases List.mem_cons.1 ht with e2 | hm
        · exact absurd e2.symm e
        · exact hm
      have hne : f a ≠ f t := fun c => h.1 (by rw [c]; exact List.mem_map_of_mem f hm)
      rw [List.find?_cons_of_neg _ (by simpa using hne)]
      exact ih h.2 hm

/-- In a graph that passes `checkValid`, `getTensor` applied to the fuid of a tensor of the
graph returns that tensor. -/
theorem getTensor_fuid (g : GraphObj) (h : g.checkValid = true) (t : Nat) (ht : t ∈ g.tensors) :
    g.getTensor (g.tensor t).fuid = some t := by
  unfold checkValid at h
  simp only [Bool.and_eq_true] at h
  exact find_of_nodup_map (fun t => (g.tensor t).fuid) g.tensors (fuid_fold g g.tensors _ _ h.2)
    t ht

theorem checkValid_outputs (g : GraphObj) (h : g.checkValid = true) (o : Nat)
    (ho : o ∈ g.ops) (t : Nat) (ht : t ∈ (g.op o).outputs) : t ∈ g.tensors := by
  unfold checkValid at h
  simp only [Bool.and_eq_true, List.all_eq_true] at h
  have := (h.1.2 o ho).1.1.2 t ht
  simpa using this

theorem dimsOnly_getTensor {g g2 : GraphObj} (h : DimsOnly g g2) (f : Nat) :
    g2.getTensor f = g.getTensor f := by
  unfold GraphObj.getTensor
  rw [h.tensors]
  congr 1
  funext t
  rw [h.fuid]

/-- One output step: when the output is a tensor of the graph, the step stores the inferred
shape in it and does nothing else. -/
theorem shapeInferOutput_eq (g0 g : GraphObj) (hv : g0.checkValid = true) (hd : DimsOnly g0 g)
    (op : Nat) (ans : List Shape) (i : Nat)
    (hmem : (g.op op).outputs.getD i 0 ∈ g0.tensors) :
    ∃ g2, shapeInferOutput op ans g i = some g2 ∧ DimsOnly g g2 ∧
      ∀ t, (g2.tensor t).dims =
        if t = (g.op op).outputs.getD i 0 then ans.getD i [] else (g.tensor t).dims := by
  unfold shapeInferOutput
  simp only
  by_cases hne : ans.getD i [] ≠ (g.tensor ((g.op op).outputs.getD i 0)).dims
  · rw [if_pos hne, dimsOnly_getTensor hd, hd.fuid, getTensor_fuid g0 hv _ hmem]
    exact ⟨_, rfl, dimsOnly_setShape _ _ _, fun t => setShape_dims _ _ _ t⟩
  · rw [if_neg hne]
    refine ⟨g, rfl, dimsOnly_refl g, fun t => ?_⟩
    split
    · rename_i e
      rw [e]
      exact (not_not.1 hne).symm
    · rfl

/-- The inner loop over the first `m` outputs of `op`. -/
theorem shapeInferOutputs_fold (g0 g : GraphObj) (hv : g0.checkValid = true)
    (hd : DimsOnly g0 g) (op : Nat) (ans : List Shape)
    (hmem : ∀ t ∈ (g.op op).outputs, t ∈ g0.tensors) (hnd : (g.op op).outputs.Nodup) (m : Nat)
    (hm : m ≤ (g.op op).outputs.length) :
    ∃ g2, (List.range m).foldlM (shapeInferOutput op ans) g = some g2 ∧ DimsOnly g g2 ∧
      (∀ t, (∀ j < m, (g.op op).outputs.getD j 0 ≠ t) → (g2.tensor t).dims = (g.tensor t).dims) ∧
      (∀ j < m, (g2.tensor ((g.op op).outputs.getD j 0)).dims = ans.getD j []) := by
  induction m with
  | zero =>
    exact ⟨g, rfl, dimsOnly_refl g, fun _ _ => rfl, fun j hj => absurd hj (Nat.not_lt_zero j)⟩
  | succ m ih =>
    obtain ⟨g1, e1, d1, same1, set1⟩ := ih (by omega)
    have hop : (g1.op op).outputs = (g.op op).outputs := by rw [d1.op]
    have hin : (g1.op op).outputs.getD m 0 ∈ g0.tensors := by
      rw [hop, List.getD_eq_getElem _ _ (by omega)]
      exact hmem _ (List.getElem_mem _)
    obtain ⟨g2, e2, d2, dims2⟩ := shapeInferOutput_eq g0 g1 hv (dimsOnly_trans hd d1) op ans m hin
    rw [hop] at dims2
    refine ⟨g2, ?_, dimsOnly_trans d1 d2, ?_, ?_⟩
    · rw [List.range_succ, List.foldlM_append, e1]
      simp only [Option.bind_eq_bind, Option.some_bind, List.foldlM_cons, List.foldlM_nil]
      rw [e2]
      rfl
    · intro t ht
      rw [dims2 t, if_neg (fun c => ht m (Nat.lt_succ_self m) c.symm)]
      exact same1 t (fun j hj => ht j (by omega))
    · intro j hj
      rw [dims2]
      by_cases c : j = m
      · subst c
        rw [if_pos rfl]
      · have hjm : j < m := by omega
        have hneq : (g.op op).outputs.getD j 0 ≠ (g.op op).outputs.getD m 0 := by
          rw [List.getD_eq_getElem _ _ (by omega), List.getD_eq_getElem _ _ (by omega)]
          intro hc
          exact c ((List.Nodup.getElem_inj_iff hnd).1 hc)
        rw [if_neg hneq]
        exact set1 j hjm


theorem dimsOf_congr (g g2 : GraphObj) (ts : List Nat)
    (h : ∀ t ∈ ts, (g2.tensor t).dims = (g.tensor t).dims) : dimsOf g2 ts = dimsOf g ts := by
  unfold dimsOf
  exact List.map_congr_left h

/-- The effect of the body of the outer loop of `shape_infer` for an operator whose outputs
are distinct tensors of the graph. -/
theorem shapeInferOp_step (inferShape : Nat → List Shape → Option (List Shape))
    (g0 g g2 : GraphObj) (hv : g0.checkValid = true) (hd : DimsOnly g0 g) (o : Nat)
    (hmem : ∀ t ∈ (g.op o).outputs, t ∈ g0.tensors) (hnd : (g.op o).outputs.Nodup)
    (h : shapeInferOp inferShape g o = some g2) :
    inferShape o (dimsOf g (g.op o).inputs) = some (dimsOf g2 (g.op o).outputs) ∧
    DimsOnly g g2 ∧
    ∀ t, t ∉ (g.op o).outputs → (g2.tensor t).dims = (g.tensor t).dims := by
  unfold shapeInferOp at h
  cases hans : inferShape o ((g.op o).inputs.map (fun t => (g.tensor t).dims)) with
  | none => rw [hans] at h; cases h
  | some ans =>
    rw [hans] at h
    simp only at h
    by_cases hlen : ans.length ≠ (g.op o).outputs.length
    · rw [if_pos hlen] at h; cases h
    · rw [if_neg hlen] at h
      have hlen2 : ans.length = (g.op o).outputs.length := not_not.1 hlen
      obtain ⟨g3, e3, d3, same3, set3⟩ :=
        shapeInferOutputs_fold g0 g hv hd o ans hmem hnd ans.length (by omega)
      rw [e3] at h
      have e : g3 = g2 := Option.some.inj h
      subst e
      refine ⟨?_, d3, ?_⟩
      · unfold dimsOf
        rw [hans]
        congr 1
        apply List.ext_getElem
        · rw [List.length_map, hlen2]
        · intro i h1 h2
          rw [List.getElem_map]
          have := set3 i h1
          rw [List.getD_eq_getElem _ _ (by omega), List.getD_eq_getElem _ _ h1] at this
          exact this.symm
      · intro t ht
        refine same3 t (fun j hj hc => ht ?_)
        rw [← hc, List.getD_eq_getElem _ _ (by omega)]
        exact List.getElem_mem _

/-- A fold whose steps all return the state unchanged returns it. -/
theorem foldlM_fixed {α β : Type} (f : α → β → Option α) (l : List β) (a : α)
    (h : ∀ b ∈ l, f a b = some a) : l.foldlM f a = some a := by
  induction l with
  | nil => rfl
  | cons b l ih =>
    rw [List.foldlM_cons, h b (List.mem_cons_self _ _)]
    exact ih (fun c hc => h c (List.mem_cons_of_mem _ hc))

/-- At an operator whose stored output shapes are the inferred ones the loop body changes
nothing. -/
theorem shapeInferOp_settled (inferShape : Nat → List Shape → Option (List Shape))
    (g : GraphObj) (o : Nat) (h : Settled inferShape g o) :
    shapeInferOp inferShape g o = some g := by
  unfold Settled dimsOf at h
  unfold shapeInferOp
  rw [h]
  simp only [List.length_map, ne_eq, not_true_eq_false, if_false]
  refine foldlM_fixed _ _ _ (fun i hi => ?_)
  have hi2 := List.mem_range.1 hi
  unfold shapeInferOutput
  simp only
  rw [if_neg]
  rw [not_not, List.getD_eq_getElem _ _ (by simpa using hi2), List.getD_eq_getElem _ _ hi2,
    List.getElem_map]

/-- No operator of an ordered list reads a tensor whose source it is. -/
theorem Ordered.no_self {g : GraphObj} {l : List Nat} (h : Ordered g l) (o : Nat) (ho : o ∈ l)
    (t : Nat) (ht : t ∈ (g.op o).inputs) : (g.tensor t).source ≠ some o := by
  intro hs
  obtain ⟨pre, o2, post, e, hpre, ho2⟩ :=
    first_outside l (l.filter (fun x => x != o)) ⟨o, ho, by simp⟩
  have hmem2 : o2 ∈ l := by rw [e]; simp
  have e2 : o2 = o := by
    by_contra c
    exact ho2 (List.mem_filter.2 ⟨hmem2, by simpa using c⟩)
  subst e2
  have := hpre o2 (h pre o2 post e t ht o2 hs)
  simp at this

/-- The sources of the inputs of an operator of a prefix of an ordered list lie in the
prefix. -/
theorem Ordered.sources_before {g : GraphObj} {pre rest : List Nat}
    (h : Ordered g (pre ++ rest)) (o : Nat) (ho : o ∈ pre) (t : Nat)
    (ht : t ∈ (g.op o).inputs) (p : Nat) (hp : (g.tensor t).source = some p) : p ∈ pre := by
  obtain ⟨a, b, e⟩ := List.append_of_mem ho
  have e2 : pre ++ rest = a ++ o :: (b ++ rest) := by rw [e]; simp
  have := h a o (b ++ rest) e2 t ht p hp
  rw [e]
  exact List.mem_append_left _ this

/-- The outer loop of `shape_infer`: once the operators of `pre` are settled, running the
loop over the rest settles every operator. -/
theorem shape_infer_fold (inferShape : Nat → List Shape → Option (List Shape))
    (g0 : GraphObj) (hv : g0.checkValid = true) (hord : Ordered g0 g0.ops)
    (hprod : ∀ o ∈ g0.ops, (g0.op o).outputs.Nodup ∧
      ∀ t ∈ (g0.op o).outputs, (g0.tensor t).source = some o)
    (rest : List Nat) :
    ∀ (pre : List Nat) (g g1 : GraphObj), g0.ops = pre ++ rest → DimsOnly g0 g →
      (∀ o ∈ pre, Settled inferShape g o) →
      rest.foldlM (shapeInferOp inferShape) g = some g1 →
      DimsOnly g0 g1 ∧ ∀ o ∈ g0.ops, Settled inferShape g1 o := by
  induction rest with
  | nil =>
    intro pre g g1 e hd hset h
    have e1 : g = g1 := Option.some.inj h
    subst e1
    rw [List.append_nil] at e
    rw [e]
    exact ⟨hd, hset⟩
  | cons o rest ih =>
    intro pre g g1 e hd hset h
    rw [List.foldlM_cons] at h
    cases hstep : shapeInferOp inferShape g o with
    | none => rw [hstep] at h; cases h
    | some g2 =>
      rw [hstep] at h
      have ho : o ∈ g0.ops := by rw [e]; simp
      have hop : g.op = g0.op := hd.op
      have hmem : ∀ t ∈ (g.op o).outputs, t ∈ g0.tensors := by
        rw [hop]
        exact fun t ht => checkValid_outputs g0 hv o ho t ht
      have hnd : (g.op o).outputs.Nodup := by rw [hop]; exact (hprod o ho).1
      obtain ⟨hans, d2, same⟩ := shapeInferOp_step inferShape g0 g g2 hv hd o hmem hnd hstep
      have hop2 : g2.op = g.op := d2.op
      have hin : ∀ t ∈ (g0.op o).inputs, t ∉ (g0.op o).outputs := by
        intro t ht hc
        exact hord.no_self o ho t ht ((hprod o ho).2 t hc)
      have hself : Settled inferShape g2 o := by
        unfold Settled
        rw [hop2, dimsOf_congr g g2 (g.op o).inputs (fun t ht =>
          same t (by rw [hop]; rw [hop] at ht; exact hin t ht))]
        exact hans
      have hothers : ∀ o2 ∈ pre, Settled inferShape g2 o2 := by
        intro o2 ho2
        have hs2 := hset o2 ho2
        by_cases c : o ∈ pre
        · have hso := hset o c
          unfold Settled at hso
          rw [hso] at hans
          have hd3 : ∀ t ∈ (g.op o).outputs, (g2.tensor t).dims = (g.tensor t).dims := by
            have := Option.some.inj hans
            unfold dimsOf at this
            exact fun t ht => (List.map_inj_left.1 this t ht).symm
          have hall : ∀ t, (g2.tensor t).dims = (g.tensor t).dims := by
            intro t
            by_cases ct : t ∈ (g.op o).outputs
            · exact hd3 t ct
            · exact same t ct
          unfold Settled
          rw [hop2, dimsOf_congr g g2 _ (fun t _ => hall t),
            dimsOf_congr g g2 _ (fun t _ => hall t)]
          exact hs2
        · have ho2m : o2 ∈ g0.ops := by rw [e]; exact List.mem_append_left _ ho2
          have hne : o2 ≠ o := fun c2 => c (c2 ▸ ho2)
          unfold Settled
          rw [hop2, dimsOf_congr g g2 (g.op o2).inputs, dimsOf_congr g g2 (g.op o2).outputs]
          · exact hs2
          · intro t ht
            refine same t (fun hc => hne ?_)
            rw [hop] at ht hc
            have s1 := (hprod o2 ho2m).2 t ht
            have s2 := (hprod o ho).2 t hc
            rw [s1] at s2
            exact Option.some.inj s2
          · intro t ht
            refine same t (fun hc => c ?_)
            rw [hop] at ht hc
            have hord2 : Ordered g0 (pre ++ o :: rest) := by rw [← e]; exact hord
            exact hord2.sources_before o2 ho2 t ht o ((hprod o ho).2 t hc)
      refine ih (pre ++ [o]) g2 g1 (by rw [e]; simp) (dimsOnly_trans hd d2) ?_ h
      intro o2 ho2
      rcases List.mem_append.1 ho2 with hm | hm
      · exact hothers o2 hm
      · rw [List.mem_singleton.1 hm]
        exact hself

/-- C15 (amended): in a graph that passes `checkValid`, whose `ops` are in topological order
and in which every operator is the source of each of its outputs and lists no output twice,
if `shape_infer()` runs through (every `inferShape` succeeds with one shape per output), then
a second run returns and changes nothing, and after the first run the stored output shapes
of every operator are what its `inferShape` returns on the stored shapes of its inputs; the
run changes nothing but dims. -/
theorem shape_infer_idempotent (inferShape : Nat → List Shape → Option (List Shape))
    (g g1 : GraphObj) (hv : g.checkValid = true) (hord : Ordered g g.ops)
    (hprod : ∀ o ∈ g.ops, (g.op o).outputs.Nodup ∧
      ∀ t ∈ (g.op o).outputs, (g.tensor t).source = some o)
    (hrun : g.shape_infer inferShape = some g1) :
    g1.shape_infer inferShape = some g1 ∧
    (∀ o ∈ g1.ops, inferShape o ((g1.op o).inputs.map (fun t => (g1.tensor t).dims)) =
      some ((g1.op o).outputs.map (fun t => (g1.tensor t).dims))) ∧
    DimsOnly g g1 := by
  obtain ⟨hd, hset⟩ := shape_infer_fold inferShape g hv hord hprod g.ops [] g g1 rfl
    (dimsOnly_refl g) (fun o ho => by cases ho) hrun
  refine ⟨?_, ?_, hd⟩
  · unfold shape_infer
    rw [hd.ops]
    exact foldlM_fixed _ _ _ (fun o ho => shapeInferOp_settled inferShape g1 o (hset o ho))
  · intro o ho
    rw [hd.ops] at ho
    exact hset o ho

/-- Witness for C15: in `graphConcat` (two Concat operators with axis 1) the first run of
`shape_infer` stores `[2,9,4]` and `[2,18,4]`, and a second run changes nothing. -/
theorem shape_infer_idempotent_witness :
    graphConcat.shape_infer (fun _ => ConcatObj.inferShape 1) = some graphConcatInferred ∧
    graphConcatInferred.shape_infer (fun _ => ConcatObj.inferShape 1) =
      some graphConcatInferred ∧
    dimsOf graphConcat [3, 4] = [[2, 3, 4], [1]] ∧
    dimsOf graphConcatInferred [3, 4] = [[2, 9, 4], [2, 18, 4]] ∧
    (∀ o ∈ graphConcatInferred.ops,
      ConcatObj.inferShape 1
          ((graphConcatInferred.op o).inputs.map (fun t => (graphConcatInferred.tensor t).dims)) =
        some ((graphConcatInferred.op o).outputs.map
          (fun t => (graphConcatInferred.tensor t).dims))) :=
  ⟨rfl,
    (shape_infer_idempotent (fun _ => ConcatObj.inferShape 1) graphConcat graphConcatInferred
      (by decide) (orderedFrom_sound graphConcat graphConcat.ops [] (Ordered.nil _) (by decide))
      (by decide) rfl).1,
    rfl, rfl,
    (shape_infer_idempotent (fun _ => ConcatObj.inferShape 1) graphConcat graphConcatInferred
      (by decide) (orderedFrom_sound graphConcat graphConcat.ops [] (Ordered.nil _) (by decide))
      (by decide) rfl).2.1⟩

/-- Counterexample to C15 as stated: `graphTwoWriters` passes `checkValid`, its `ops`
`[0, 1]` are in topological order, its output tensor is in the graph and both `inferShape`
calls succeed; after one run of `shape_infer` the output of `op 0` has shape `[6,3]`, which
`op 1` stored, while `inferShape` of `op 0` on its current inputs returns `[7,3]`. -/
theorem shape_infer_two_writers :
    graphTwoWriters.checkValid = true ∧ graphTwoWriters.ops = [0, 1] ∧
    orderedFrom graphTwoWriters [] graphTwoWriters.ops = true ∧
    ((graphTwoWriters.op 0).outputs, (graphTwoWriters.op 1).outputs,
      (graphTwoWriters.tensor 2).source) = ([2], [2], some 1) ∧
    (graphTwoWriters.shape_infer (fun _ => ConcatObj.inferShape 0)).map (fun g =>
        (dimsOf g (g.op 0).inputs, dimsOf g (g.op 0).outputs,
          ConcatObj.inferShape 0 (dimsOf g (g.op 0).inputs))) =
      some ([[3, 3], [4, 3]], [[6, 3]], some [[7, 3]]) :=
  ⟨by decide, rfl, by decide, by decide, by rfl⟩

end infini

namespace infini

/-- A shape of rank at least 2 is a batch part followed by two matrix dimensions. -/
theorem shape_split_last_two (s : Shape) (h : 2 ≤ s.length) :
    ∃ b x y, s = b ++ [x, y] := by
  rcases List.eq_nil_or_concat s with e | ⟨l1, y, e⟩
  · subst e
    simp at h
  · subst e
    rcases List.eq_nil_or_concat l1 with e2 | ⟨l2, x, e2⟩
    · subst e2
      simp at h
    · subst e2
      exact ⟨l2, x, y, by simp⟩

theorem swapLastTwo_length (s : Shape) : (swapLastTwo s).length = s.length := by
  unfold swapLastTwo
  simp

/-- Swapping the last two dims twice gives the shape back. -/
theorem swapLastTwo_involutive (s : Shape) (h : 2 ≤ s.length) :
    swapLastTwo (swapLastTwo s) = s := by
  obtain ⟨b, x, y, e⟩ := shape_split_last_two s h
  subst e
  rw [swapLastTwo_append, swapLastTwo_append]

/-- C23: for shapes `A`, `B` of rank at least 2 and flags `ta`, `tb`, `MatMul.inferShape` with
`trans_a = ta` on `(A with its last two dims swapped, B)` equals `MatMul.inferShape` with
`trans_a = not ta` on `(A, B)`, and `MatMul.inferShape` with `trans_b = tb` on
`(A, B with its last two dims swapped)` equals `MatMul.inferShape` with `trans_b = not tb` on
`(A, B)`. The swap of `bA ++ [x, y]` is `bA ++ [y, x]`. -/
theorem matmul_fold_transpose (ta tb : Bool) (A B : Shape) (hA : 2 ≤ A.length)
    (hB : 2 ≤ B.length) :
    MatmulObj.inferShape ta tb [swapLastTwo A, B] = MatmulObj.inferShape (!ta) tb [A, B] ∧
    MatmulObj.inferShape ta tb [A, swapLastTwo B] = MatmulObj.inferShape ta (!tb) [A, B] ∧
    (∀ (b : Shape) (x y : Nat), A = b ++ [x, y] → swapLastTwo A = b ++ [y, x]) ∧
    (∀ (b : Shape) (x y : Nat), B = b ++ [x, y] → swapLastTwo B = b ++ [y, x]) := by
  refine ⟨?_, ?_, ?_, ?_⟩
  · unfold MatmulObj.inferShape
    simp only [List.getD_cons_zero, List.getD_cons_succ, swapLastTwo_length]
    cases ta
    · simp only [Bool.false_eq_true, if_false, Bool.not_false, if_true]
    · simp only [if_true, Bool.not_true, Bool.false_eq_true, if_false,
        swapLastTwo_involutive A hA]
  · unfold MatmulObj.inferShape
    simp only [List.getD_cons_zero, List.getD_cons_succ, swapLastTwo_length]
    cases tb
    · simp only [Bool.false_eq_true, if_false, Bool.not_false, if_true]
    · simp only [if_true, Bool.not_true, Bool.false_eq_true, if_false,
        swapLastTwo_involutive B hB]
  · intro b x y e
    rw [e, swapLastTwo_append]
  · intro b x y e
    rw [e, swapLastTwo_append]

/-- Witness for C23: `A = [7,2,3]` and `B = [7,3,5]`; with the transposed `A' = [7,3,2]` and
`trans_a` set, and with `A` and `trans_a` clear, the inferred shape is `[7,2,5]`. -/
theorem matmul_fold_transpose_witness :
    swapLastTwo [7, 3, 2] = [7, 2, 3] ∧
    MatmulObj.inferShape false false [swapLastTwo [7, 3, 2], [7, 3, 5]] =
      MatmulObj.inferShape true false [[7, 3, 2], [7, 3, 5]] ∧
    MatmulObj.inferShape true false [[7, 3, 2], [7, 3, 5]] = some [[7, 2, 5]] ∧
    MatmulObj.inferShape false false [[7, 2, 3], swapLastTwo [7, 5, 3]] =
      MatmulObj.inferShape false true [[7, 2, 3], [7, 5, 3]] :=
  ⟨by decide,
    (matmul_fold_transpose false false [7, 3, 2] [7, 3, 5] (by decide) (by decide)).1,
    by decide,
    (matmul_fold_transpose false false [7, 2, 3] [7, 5, 3] (by decide) (by decide)).2.1⟩

end infini

namespace infini

open Allocator

/-! ### Allocated regions -/

/-- C21 (code defect): from the single free block `(0, 64)`, `alloc(8)` returns 0, `alloc(8)`
returns 8, and after `free(0, 8)` the call `alloc(16)` returns 16 while `peak` ends at 24: the
live region `[16, 32)` ends beyond the `peak` bytes that `getPtr()` requests. The same holds
from the block `(0, 1024)`. -/
theorem region_exceeds_peak :
    scenarioPeak (seeded 64) = (some 0, some 8, some 16, 24, 24) ∧
    scenarioPeak (seeded 1024) = (some 0, some 8, some 16, 24, 24) ∧
    (seeded 64).getAlignedSize 16 = 16 ∧ ¬ (16 + (seeded 64).getAlignedSize 16 ≤ 24) :=
  ⟨by rfl, by rfl, by decide, by decide⟩


theorem inRegion_sub (o s n : Nat) (h : n ≤ s) (x : Nat) (hx : inRegion (o, n) x) :
    inRegion (o, s) x := by
  obtain ⟨i, hi, e⟩ := hx
  exact ⟨i, by simp only at hi ⊢; omega, e⟩

/-- The remainder of a block lies inside the block. -/
theorem inRegion_rest (o s n : Nat) (x : Nat)
    (hx : inRegion ((o + n) % SIZE_MOD, s - n) x) : inRegion (o, s) x := by
  obtain ⟨j, hj, e⟩ := hx
  simp only at hj e
  refine ⟨n + j, by simp only; omega, ?_⟩
  simp only
  rw [e, Nat.mod_add_mod, Nat.add_assoc]

/-- The part taken from a block and the remainder of the block share no address. -/
theorem taken_disjoint_rest (o s n : Nat) (hs : s < SIZE_MOD) :
    RegionsDisjoint (o, n) ((o + n) % SIZE_MOD, s - n) := by
  rintro x ⟨⟨i, hi, e1⟩, ⟨j, hj, e2⟩⟩
  simp only at hi hj e1 e2
  rw [Nat.mod_add_mod, Nat.add_assoc] at e2
  rw [e1] at e2
  unfold SIZE_MOD at e2 hs
  norm_num at e2 hs
  omega

/-- One successful `alloc` on a map with non-overlapping blocks. -/
theorem alloc_step (a a2 : Allocator) (size offset : Nat) (hmap : SortedKeys a.freeBlocks)
    (hword : WordSized a.freeBlocks) (hno : NonOverlapping a.freeBlocks)
    (h : a.alloc size = (a2, some offset)) :
    (∃ blk ∈ a.freeBlocks, blk.1 = offset ∧ a.getAlignedSize size ≤ blk.2 ∧
      ∀ x, inRegion (offset, a.getAlignedSize size) x → inRegion blk x) ∧
    (∀ c ∈ a2.freeBlocks, RegionsDisjoint (offset, a.getAlignedSize size) c) ∧
    SortedKeys a2.freeBlocks ∧ WordSized a2.freeBlocks ∧ NonOverlapping a2.freeBlocks ∧
    (∀ c ∈ a2.freeBlocks, ∀ x, inRegion c x → ∃ d ∈ a.freeBlocks, inRegion d x) ∧
    a2.alignment = a.alignment := by
  cases hptr : a.ptr with
  | some p => simp [alloc, hptr] at h
  | none =>
    cases hfind : a.freeBlocks.find? (fun it => decide (it.2 ≥ a.getAlignedSize size)) with
    | none => simp [alloc, hptr, hfind] at h
    | some it =>
      rw [alloc_of_find a size it hptr hfind] at h
      simp only [Prod.mk.injEq, Option.some.injEq] at h
      obtain ⟨ha2, hoff⟩ := h
      subst hoff
      have hmem : it ∈ a.freeBlocks := List.mem_of_find?_eq_some hfind
      have hfit : a.getAlignedSize size ≤ it.2 := by
        have := List.find?_some hfind
        simpa using this
      have hsE : SortedKeys (mapErase it.1 a.freeBlocks) := sortedKeys_mapErase hmap
      -- the entries of the new map
      have hmem2 : ∀ c ∈ a2.freeBlocks,
          c = ((it.1 + a.getAlignedSize size) % SIZE_MOD, it.2 - a.getAlignedSize size) ∨
          (c ∈ a.freeBlocks ∧ c ≠ it) := by
        intro c hc
        rw [← ha2] at hc
        simp only at hc
        by_cases hpos : it.2 - a.getAlignedSize size > 0
        · rw [if_pos hpos, mem_mapAssign hsE] at hc
          rcases hc with e | ⟨hc1, _⟩
          · exact Or.inl e
          · have := mem_mapErase.1 hc1
            exact Or.inr ⟨this.1, fun e => this.2 (by rw [e])⟩
        · rw [if_neg hpos] at hc
          have := mem_mapErase.1 hc
          exact Or.inr ⟨this.1, fun e => this.2 (by rw [e])⟩
      have hitw := hword it hmem
      have hdis : ∀ c ∈ a2.freeBlocks, RegionsDisjoint (it.1, a.getAlignedSize size) c := by
        intro c hc
        rcases hmem2 c hc with e | ⟨hc1, hne⟩
        · rw [e]
          exact taken_disjoint_rest it.1 it.2 _ hitw.2
        · intro x hx
          exact hno it hmem c hc1 (Ne.symm hne) x
            ⟨inRegion_sub it.1 it.2 _ hfit x hx.1, hx.2⟩
      have hsub : ∀ c ∈ a2.freeBlocks, ∀ x, inRegion c x → inRegion it x ∨
          (c ∈ a.freeBlocks ∧ c ≠ it) := by
        intro c hc x hx
        rcases hmem2 c hc with e | hc1
        · rw [e] at hx
          exact Or.inl (inRegion_rest it.1 it.2 _ x hx)
        · exact Or.inr hc1
      refine ⟨⟨it, hmem, rfl, hfit, fun x hx => inRegion_sub it.1 it.2 _ hfit x hx⟩, hdis,
        ?_, ?_, ?_, ?_, ?_⟩
      · rw [← ha2]
        simp only
        split
        · exact sortedKeys_mapAssign hsE
        · exact hsE
      · intro c hc
        rcases hmem2 c hc with e | ⟨hc1, _⟩
        · rw [e]
          simp only
          refine ⟨Nat.mod_lt _ (by unfold SIZE_MOD; norm_num), ?_⟩
          have := hitw.2
          omega
        · exact hword c hc1
      · intro b hb c hc hbc x hx
        rcases hmem2 b hb with eb | ⟨hb1, hbne⟩
        · rcases hmem2 c hc with ec | ⟨hc1, hcne⟩
          · exact hbc (eb.trans ec.symm)
          · rw [eb] at hx
            exact hno it hmem c hc1 (Ne.symm hcne) x
              ⟨inRegion_rest it.1 it.2 _ x hx.1, hx.2⟩
        · rcases hmem2 c hc with ec | ⟨hc1, hcne⟩
          · rw [ec] at hx
            exact hno b hb1 it hmem hbne x ⟨hx.1, inRegion_rest it.1 it.2 _ x hx.2⟩
          · exact hno b hb1 c hc1 hbc x hx
      · intro c hc x hx
        rcases hsub c hc x hx with h1 | h1
        · exact ⟨it, hmem, h1⟩
        · exact ⟨c, h1.1, hx⟩
      · rw [← ha2]


/-- For a region that ends inside the 64-bit offset range the addresses are the interval
`[offset, offset + size)`. -/
theorem inRegion_iff_interval (r : Nat × Nat) (h : r.1 + r.2 ≤ SIZE_MOD) (x : Nat) :
    inRegion r x ↔ r.1 ≤ x ∧ x < r.1 + r.2 := by
  constructor
  · rintro ⟨i, hi, e⟩
    rw [Nat.mod_eq_of_lt (by omega)] at e
    omega
  · rintro ⟨h1, h2⟩
    refine ⟨x - r.1, by omega, ?_⟩
    rw [Nat.mod_eq_of_lt (by omega)]
    omega

/-- Blocks that end inside the offset range and are disjoint as intervals are
non-overlapping. -/
theorem nonOverlapping_of_intervals (m : FreeBlocks)
    (hr : ∀ b ∈ m, b.1 + b.2 ≤ SIZE_MOD)
    (h : ∀ b ∈ m, ∀ c ∈ m, b ≠ c → b.1 + b.2 ≤ c.1 ∨ c.1 + c.2 ≤ b.1) : NonOverlapping m := by
  intro b hb c hc hbc x hx
  have h1 := (inRegion_iff_interval b (hr b hb) x).1 hx.1
  have h2 := (inRegion_iff_interval c (hr c hc) x).1 hx.2
  rcases h b hb c hc hbc with h3 | h3 <;> omega

/-- The regions returned by a run of successful `alloc`s lie in the free space of the
starting state and are pairwise disjoint. -/
theorem allocAll_regions (sizes : List Nat) :
    ∀ (a a2 : Allocator) (regs : List (Nat × Nat)), SortedKeys a.freeBlocks →
      WordSized a.freeBlocks → NonOverlapping a.freeBlocks →
      allocAll a sizes = some (a2, regs) →
      regs.Pairwise RegionsDisjoint ∧
      ∀ r ∈ regs, ∀ x, inRegion r x → ∃ d ∈ a.freeBlocks, inRegion d x := by
  induction sizes with
  | nil =>
    intro a a2 regs _ _ _ h
    simp only [allocAll, Option.some.injEq, Prod.mk.injEq] at h
    rw [← h.2]
    exact ⟨List.Pairwise.nil, fun r hr => by cases hr⟩
  | cons size rest ih =>
    intro a a2 regs hmap hword hno h
    unfold allocAll at h
    cases hal : a.alloc size with
    | mk a1 res =>
      rw [hal] at h
      cases res with
      | none => simp at h
      | some offset =>
        simp only at h
        cases hrest : allocAll a1 rest with
        | none => rw [hrest] at h; simp at h
        | some r1 =>
          rw [hrest] at h
          simp only [Option.map_some', Option.some.injEq, Prod.mk.injEq] at h
          obtain ⟨⟨blk, hblk, _, _, hin⟩, hdis, hmap1, hword1, hno1, hsub, _⟩ :=
            alloc_step a a1 size offset hmap hword hno hal
          obtain ⟨hp, hfree⟩ := ih a1 r1.1 r1.2 hmap1 hword1 hno1 hrest
          rw [← h.2]
          refine ⟨List.pairwise_cons.2 ⟨?_, hp⟩, ?_⟩
          · intro r hr x hx
            obtain ⟨d, hd, hxd⟩ := hfree r hr x hx.2
            exact hdis d hd x ⟨hx.1, hxd⟩
          · intro r hr x hx
            rcases List.mem_cons.1 hr with e | hr2
            · rw [e] at hx
              exact ⟨blk, hblk, hin x hx⟩
            · obtain ⟨d, hd, hxd⟩ := hfree r hr2 x hx
              exact hsub d hd x hxd

/-- C22: for an allocator state whose free blocks are pairwise non-overlapping (the map has
increasing keys and holds `size_t` values), a successful `alloc(size)` returns an offset
whose region of the aligned size lies inside one free block of the state and shares no
address with any free block remaining afterwards; and the regions returned by a run of
successful `alloc`s with no `free` in between are pairwise disjoint. Regions are sets of
addresses in `size_t` arithmetic; for a region that ends inside the offset range they are
the interval `[offset, offset + size)` (`inRegion_iff_interval`). -/
theorem alloc_regions_disjoint (a : Allocator) (hmap : SortedKeys a.freeBlocks)
    (hword : WordSized a.freeBlocks) (hno : NonOverlapping a.freeBlocks) :
    (∀ size a2 offset, a.alloc size = (a2, some offset) →
      (∃ blk ∈ a.freeBlocks, blk.1 = offset ∧ a.getAlignedSize size ≤ blk.2 ∧
        ∀ x, inRegion (offset, a.getAlignedSize size) x → inRegion blk x) ∧
      (∀ c ∈ a2.freeBlocks, RegionsDisjoint (offset, a.getAlignedSize size) c) ∧
      NonOverlapping a2.freeBlocks) ∧
    (∀ sizes a2 regs, allocAll a sizes = some (a2, regs) → regs.Pairwise RegionsDisjoint) := by
  refine ⟨fun size a2 offset h => ?_, fun sizes a2 regs h => ?_⟩
  · obtain ⟨h1, h2, _, _, h5, _⟩ := alloc_step a a2 size offset hmap hword hno h
    exact ⟨h1, h2, h5⟩
  · exact (allocAll_regions sizes a a2 regs hmap hword hno h).1

/-- Witness for C22: from the free blocks `[0, 16)` and `[40, 64)`, `alloc(8)`, `alloc(16)`,
`alloc(8)` return the regions `[0, 8)`, `[40, 56)`, `[8, 16)`, which are pairwise disjoint. -/
theorem alloc_regions_disjoint_witness :
    allocAll twoBlocks [8, 16, 8] =
      some (planning 56 64 [(56, 8)], [(0, 8), (40, 16), (8, 8)]) ∧
    [((0 : Nat), (8 : Nat)), (40, 16), (8, 8)].Pairwise RegionsDisjoint :=
  ⟨by rfl,
    (alloc_regions_disjoint twoBlocks (by decide) (by unfold WordSized; decide)
      (nonOverlapping_of_intervals _ (by decide) (by decide))).2 [8, 16, 8]
      (planning 56 64 [(56, 8)]) [(0, 8), (40, 16), (8, 8)] (by rfl)⟩


/-- A run of `alloc`s with no `free`, from a state in which everything below `used == peak`
is allocated and the rest of `[0, cap)` is the only free block: every returned region ends
at or below the final `peak`. -/
theorem allocAll_below_peak (cap : Nat) (hcap : cap < SIZE_MOD) (sizes : List Nat) :
    ∀ (a a2 : Allocator) (regs : List (Nat × Nat)), a.used = a.peak → a.peak ≤ cap →
      (a.freeBlocks = [(a.peak, cap - a.peak)] ∨ a.freeBlocks = []) →
      allocAll a sizes = some (a2, regs) →
      a.peak ≤ a2.peak ∧ ∀ r ∈ regs, r.1 + r.2 ≤ a2.peak := by
  induction sizes with
  | nil =>
    intro a a2 regs _ _ _ h
    simp only [allocAll, Option.some.injEq, Prod.mk.injEq] at h
    rw [← h.1, ← h.2]
    exact ⟨le_refl _, fun r hr => by cases hr⟩
  | cons size rest ih =>
    intro a a2 regs hu hle hfb h
    unfold allocAll at h
    cases hptr : a.ptr with
    | some p => simp [alloc, hptr] at h
    | none =>
      cases hfind : a.freeBlocks.find? (fun it => decide (it.2 ≥ a.getAlignedSize size)) with
      | none => simp [alloc, hptr, hfind] at h
      | some it =>
        rw [alloc_of_find a size it hptr hfind] at h
        simp only at h
        have hmem : it ∈ a.freeBlocks := List.mem_of_find?_eq_some hfind
        have hfit : a.getAlignedSize size ≤ it.2 := by
          have := List.find?_some hfind
          simpa using this
        have hfb2 : a.freeBlocks = [(a.peak, cap - a.peak)] := by
          rcases hfb with e | e
          · exact e
          · rw [e] at hmem; cases hmem
        have hit : it = (a.peak, cap - a.peak) := by
          rw [hfb2] at hmem
          exact List.mem_singleton.1 hmem
        subst hit
        simp only at hfit h
        have hno : a.peak + a.getAlignedSize size < SIZE_MOD := by omega
        rw [hu, Nat.mod_eq_of_lt hno] at h
        cases hrest : allocAll _ rest with
        | none => rw [hrest] at h; simp at h
        | some r1 =>
          rw [hrest] at h
          simp only [Option.map_some', Option.some.injEq, Prod.mk.injEq] at h
          have hinv := ih _ r1.1 r1.2 (by simp) (by simp only; omega) (by
            simp only
            rw [hfb2]
            have hmax : max (a.peak + a.getAlignedSize size) a.peak =
                a.peak + a.getAlignedSize size := by omega
            rw [hmax]
            by_cases hpos : cap - a.peak - a.getAlignedSize size > 0
            · left
              rw [if_pos hpos]
              simp [mapErase, mapAssign]
              omega
            · right
              rw [if_neg hpos]
              simp [mapErase]) hrest
          simp only at hinv
          rw [← h.1, ← h.2]
          refine ⟨by omega, ?_⟩
          intro r hr
          rcases List.mem_cons.1 hr with e | hr2
          · rw [e]
            simp only
            omega
          · exact hinv.2 r hr2

/-- Allocation only, as in `dataMalloc`: from the single free block `(0, cap)` every region
returned by a run of successful `alloc`s ends at or below `peak`. -/
theorem allocAll_seeded_below_peak (cap : Nat) (hcap : cap < SIZE_MOD) (sizes : List Nat)
    (a2 : Allocator) (regs : List (Nat × Nat))
    (h : allocAll (seeded cap) sizes = some (a2, regs)) : ∀ r ∈ regs, r.1 + r.2 ≤ a2.peak :=
  (allocAll_below_peak cap hcap sizes (seeded cap) a2 regs rfl (Nat.zero_le _) (Or.inl rfl)
    h).2

end infini

namespace infini

open Allocator

/-- The entries of the map after a successful `alloc`: the rest of the block taken, when it
is not empty, and the other entries of the old map. -/
theorem alloc_blocks (a a2 : Allocator) (size offset : Nat) (hmap : SortedKeys a.freeBlocks)
    (h : a.alloc size = (a2, some offset)) :
    ∃ it ∈ a.freeBlocks, it.1 = offset ∧ a.getAlignedSize size ≤ it.2 ∧
      ∀ c ∈ a2.freeBlocks,
        (c = ((it.1 + a.getAlignedSize size) % SIZE_MOD, it.2 - a.getAlignedSize size) ∧
          a.getAlignedSize size < it.2) ∨
        (c ∈ a.freeBlocks ∧ c ≠ it) := by
  cases hptr : a.ptr with
  | some p => simp [alloc, hptr] at h
  | none =>
    cases hfind : a.freeBlocks.find? (fun it => decide (it.2 ≥ a.getAlignedSize size)) with
    | none => simp [alloc, hptr, hfind] at h
    | some it =>
      rw [alloc_of_find a size it hptr hfind] at h
      simp only [Prod.mk.injEq, Option.some.injEq] at h
      obtain ⟨ha2, hoff⟩ := h
      have hmem : it ∈ a.freeBlocks := List.mem_of_find?_eq_some hfind
      have hfit : a.getAlignedSize size ≤ it.2 := by
        have := List.find?_some hfind
        simpa using this
      have hsE : SortedKeys (mapErase it.1 a.freeBlocks) := sortedKeys_mapErase hmap
      refine ⟨it, hmem, hoff, hfit, ?_⟩
      intro c hc
      rw [← ha2] at hc
      simp only at hc
      by_cases hpos : it.2 - a.getAlignedSize size > 0
      · rw [if_pos hpos, mem_mapAssign hsE] at hc
        rcases hc with e | ⟨hc1, _⟩
        · exact Or.inl ⟨e, by omega⟩
        · have := mem_mapErase.1 hc1
          exact Or.inr ⟨this.1, fun e => this.2 (by rw [e])⟩
      · rw [if_neg hpos] at hc
        have := mem_mapErase.1 hc
        exact Or.inr ⟨this.1, fun e => this.2 (by rw [e])⟩

/-- The statement of non-overlap in interval form, for a map whose blocks end inside the
64-bit offset range and are pairwise disjoint as intervals `[offset, offset + size)`: a
successful `alloc` returns an interval that lies in one block of the map and is disjoint
from every block of the new map, and the new map has the same two properties. -/
theorem alloc_intervals_disjoint (a a2 : Allocator) (size offset : Nat)
    (hmap : SortedKeys a.freeBlocks) (hr : ∀ b ∈ a.freeBlocks, b.1 + b.2 ≤ SIZE_MOD)
    (hno : ∀ b ∈ a.freeBlocks, ∀ c ∈ a.freeBlocks, b ≠ c →
      b.1 + b.2 ≤ c.1 ∨ c.1 + c.2 ≤ b.1)
    (h : a.alloc size = (a2, some offset)) :
    (∃ blk ∈ a.freeBlocks, blk.1 = offset ∧
      offset + a.getAlignedSize size ≤ blk.1 + blk.2) ∧
    (∀ c ∈ a2.freeBlocks, offset + a.getAlignedSize size ≤ c.1 ∨ c.1 + c.2 ≤ offset) ∧
    (∀ b ∈ a2.freeBlocks, b.1 + b.2 ≤ SIZE_MOD) ∧
    (∀ b ∈ a2.freeBlocks, ∀ c ∈ a2.freeBlocks, b ≠ c →
      b.1 + b.2 ≤ c.1 ∨ c.1 + c.2 ≤ b.1) := by
  obtain ⟨it, hmem, hoff, hfit, hblocks⟩ := alloc_blocks a a2 size offset hmap h
  subst hoff
  have hit := hr it hmem
  have hrest : a.getAlignedSize size < it.2 →
      (it.1 + a.getAlignedSize size) % SIZE_MOD = it.1 + a.getAlignedSize size :=
    fun hlt => Nat.mod_eq_of_lt (by omega)
  refine ⟨⟨it, hmem, rfl, by omega⟩, ?_, ?_, ?_⟩
  · intro c hc
    rcases hblocks c hc with ⟨e, hlt⟩ | ⟨hc1, hne⟩
    · rw [e]
      simp only
      rw [hrest hlt]
      exact Or.inl (le_refl _)
    · rcases hno it hmem c hc1 (Ne.symm hne) with h1 | h1
      · exact Or.inl (by omega)
      · exact Or.inr h1
  · intro c hc
    rcases hblocks c hc with ⟨e, hlt⟩ | ⟨hc1, _⟩
    · rw [e]
      simp only
      rw [hrest hlt]
      omega
    · exact hr c hc1
  · intro b hb c hc hbc
    rcases hblocks b hb with ⟨eb, hlb⟩ | ⟨hb1, hbne⟩
    · rcases hblocks c hc with ⟨ec, _⟩ | ⟨hc1, hcne⟩
      · exact absurd (eb.trans ec.symm) hbc
      · rw [eb]
        simp only
        rw [hrest hlb]
        rcases hno it hmem c hc1 (Ne.symm hcne) with h1 | h1
        · exact Or.inl (by omega)
        · exact Or.inr (by omega)
    · rcases hblocks c hc with ⟨ec, hlc⟩ | ⟨hc1, _⟩
      · rw [ec]
        simp only
        rw [hrest hlc]
        rcases hno b hb1 it hmem hbne with h1 | h1
        · exact Or.inl (by omega)
        · exact Or.inr (by omega)
      · exact hno b hb1 c hc1 hbc

end infini

namespace infini

open GraphObj

/-! ### One pass of each rewrite over an arbitrary graph with consistent links -/

/-- A step that changes neither the links nor the inputs keeps the invariant. -/
theorem Net.same_fields {g0 g g2 : GraphObj} (h : Net g0 g) (hops : g2.ops = g.ops)
    (htens : g2.tensors = g.tensors)
    (hop : ∀ i, (g2.op i).opType = (g.op i).opType ∧ (g2.op i).inputs = (g.op i).inputs ∧
      (g2.op i).outputs = (g.op i).outputs ∧ (g2.op i).permute = (g.op i).permute ∧
      (g2.op i).predecessors = (g.op i).predecessors ∧
      (g2.op i).successors = (g.op i).successors)
    (hsrc : ∀ t, (g2.tensor t).source = (g.tensor t).source) : Net g0 g2 where
  ops_eq := hops.trans h.ops_eq
  tensors_eq := htens.trans h.tensors_eq
  opType i := (hop i).1.trans (h.opType i)
  outputs i := (hop i).2.2.1.trans (h.outputs i)
  permute i := (hop i).2.2.2.1.trans (h.permute i)
  source t := (hsrc t).trans (h.source t)
  arity i := by rw [(hop i).2.1]; exact h.arity i
  succ_mem m hm s hs := h.succ_mem m hm s (by rw [← (hop m).2.2.2.2.2]; exact hs)
  pred_succ m hm p hp := by
    rw [(hop p).2.2.2.2.2]
    exact h.pred_succ m hm p (by rw [← (hop m).2.2.2.2.1]; exact hp)
  succ_pred p hp m hm := by
    rw [(hop m).2.2.2.2.1]
    exact h.succ_pred p hp m (by rw [← (hop p).2.2.2.2.2]; exact hm)
  feeds m hm p hp := by
    rw [(hop m).2.1]
    exact h.feeds m hm p (by rw [← (hop m).2.2.2.2.1]; exact hp)
  ordered o ho t ht := h.ordered o ho t (by rw [← (hop o).2.1]; exact ht)
  inputs_mem o ho t ht := h.inputs_mem o ho t (by rw [← (hop o).2.1]; exact ht)

/-- A step that touches tensor targets only keeps the invariant. -/
theorem Net.targets {g0 g g2 : GraphObj} (h : Net g0 g) (hop : g2.op = g.op)
    (hops : g2.ops = g.ops) (htens : g2.tensors = g.tensors)
    (hsrc : ∀ t, (g2.tensor t).source = (g.tensor t).source) : Net g0 g2 :=
  h.same_fields hops htens (fun i => by rw [hop]; simp) hsrc

/-- Consistent links are needed for the second part: `graphUnlinked` passes `checkValid`,
but the Transpose does not list the MatMul as a successor, rewrite 2 never visits the pair,
and after `optimize()` the MatMul still has the Transpose, whose `isTransMat` is 1, as a
predecessor. -/
theorem unlinked_transpose_not_fused :
    graphUnlinked.checkValid = true ∧ linksConsistent graphUnlinked = false ∧
    operandsCoherent graphUnlinked = true ∧
    (graphUnlinked.optimize 5).map (fun g =>
        (g.ops, (g.op 1).opType, (g.op 1).predecessors, (g.op 0).opType,
          isTransMat (g.op 0).permute)) =
      some ([0, 1], OpType.MatMul, [0], OpType.Transpose, 1) :=
  ⟨by decide, by decide, by decide, by rfl⟩

end infini
